/-
Verification of the block formatting and float placement core of the
dropflow layout engine (src/environment.ts layout section and src/util.ts).

Numbers are modelled as rationals (the source operates on JS numbers; all
operations used here are exact comparisons, max, addition and subtraction).
Array indexing that can go out of range in JS (returning undefined) is
modelled with Option, and the JS comparison semantics on undefined
(always false) is modelled by jsLtB / jsGtB.
-/
import Mathlib

/-! ### JS array access and comparison semantics -/

/-- `a[i]` for a JS array of numbers: `none` models `undefined` (out of range,
including negative indices). -/
def jsGet (a : List ℚ) (i : Int) : Option ℚ :=
  if 0 ≤ i ∧ i.toNat < a.length then some (a.getD i.toNat 0) else none

/-- JS `a[i] < x` where `a[i]` may be `undefined` (comparison with undefined
is false). -/
def jsLtB (o : Option ℚ) (x : ℚ) : Bool :=
  match o with
  | some v => decide (v < x)
  | Option.none => false

/-- JS `a[i] > x` where `a[i]` may be `undefined`. -/
def jsGtB (o : Option ℚ) (x : ℚ) : Bool :=
  match o with
  | some v => decide (x < v)
  | Option.none => false

theorem jsGet_eq_some (a : List ℚ) (i : Int) (h0 : 0 ≤ i) (h1 : i.toNat < a.length) :
    jsGet a i = some (a.getD i.toNat 0) := by
  simp [jsGet, h0, h1]

theorem jsGet_eq_none (a : List ℚ) (i : Int) (h : i < 0 ∨ (a.length : Int) ≤ i) :
    jsGet a i = none := by
  unfold jsGet
  split
  · next hh => exfalso; omega
  · rfl

/-! ### binarySearch (src/util.ts)

The JS loop
```
let l = 0, r = a.length - 1;
while (true) {
  let i = Math.floor((l+r)/2);
  if (a[i] < x)      { l = i + 1; if (l > r) return l; }
  else if (a[i] > x) { r = i - 1; if (r < l) return i; }
  else return i;
}
```
is embedded as a well-founded recursion on the size of the live interval.
Integer division `/` on Int (Int.ediv) with divisor 2 is floor division, matching `Math.floor((l+r)/2)`;
the local `i` of the loop body is written out in full at each occurrence.
-/

def bsGo (a : List ℚ) (x : ℚ) (l r : Int) : Int :=
  if jsLtB (jsGet a ((l + r) / 2)) x then
    (if h : (l + r) / 2 + 1 > r then (l + r) / 2 + 1 else bsGo a x ((l + r) / 2 + 1) r)
  else if jsGtB (jsGet a ((l + r) / 2)) x then
    (if h : (l + r) / 2 - 1 < l then (l + r) / 2 else bsGo a x l ((l + r) / 2 - 1))
  else (l + r) / 2
termination_by (r + 1 - l).toNat
decreasing_by
  all_goals omega

/-- Binary search that returns the position `x` should be in (src/util.ts). -/
def binarySearch (a : List ℚ) (x : ℚ) : Int :=
  bsGo a x 0 ((a.length : Int) - 1)

/-- Strictly increasing list of numbers. -/
def sortedLt (a : List ℚ) : Prop := a.Pairwise (· < ·)

instance (a : List ℚ) : Decidable (sortedLt a) := by
  unfold sortedLt; infer_instance

/-- `s` is the insertion position of `x` in `a`: the least index `j` with
`a[j] ≥ x`, or `a.length` when `x` is greater than every element of `a`. -/
def IsInsertionPos (a : List ℚ) (x : ℚ) (s : Int) : Prop :=
  0 ≤ s ∧ s ≤ a.length ∧
  (∀ j < s.toNat, a.getD j 0 < x) ∧
  (s < a.length → x ≤ a.getD s.toNat 0)

instance (a : List ℚ) (x : ℚ) (s : Int) : Decidable (IsInsertionPos a x s) := by
  unfold IsInsertionPos; infer_instance

theorem isInsertionPos_unique (a : List ℚ) (x : ℚ) (s s' : Int)
    (h : IsInsertionPos a x s) (h' : IsInsertionPos a x s') : s = s' := by
  obtain ⟨h1, h2, h3, h4⟩ := h
  obtain ⟨h1', h2', h3', h4'⟩ := h'
  by_contra hne
  rcases lt_or_gt_of_ne hne with hlt | hgt
  · have hx := h3' s.toNat (by omega)
    have hy := h4 (by omega)
    exact absurd (lt_of_le_of_lt hy hx) (lt_irrefl x)
  · have hx := h3 s'.toNat (by omega)
    have hy := h4' (by omega)
    exact absurd (lt_of_le_of_lt hy hx) (lt_irrefl x)

theorem sortedLt_getD_lt (a : List ℚ) (ha : sortedLt a) (i j : Nat)
    (hij : i < j) (hj : j < a.length) : a.getD i 0 < a.getD j 0 := by
  have hi : i < a.length := by omega
  rw [List.getD_eq_getElem?_getD, List.getD_eq_getElem?_getD,
    List.getElem?_eq_getElem hi, List.getElem?_eq_getElem hj]
  exact List.pairwise_iff_get.mp ha ⟨i, hi⟩ ⟨j, hj⟩ hij

theorem bsGo_insertionPos (a : List ℚ) (x : ℚ) (ha : sortedLt a) :
    ∀ l r : Int, 0 ≤ l → r < (a.length : Int) → l ≤ r →
    (∀ j : Nat, (j : Int) < l → a.getD j 0 < x) →
    (∀ j : Nat, r < (j : Int) → j < a.length → x < a.getD j 0) →
    IsInsertionPos a x (bsGo a x l r) := by
  intro l r
  induction l, r using bsGo.induct a x with
  | case1 l r hlt hret =>
    intro h0 hr hlr hL hR
    rw [bsGo, if_pos hlt, dif_pos hret]
    set i : Int := (l + r) / 2 with hi
    have hil : l ≤ i := by omega
    have hir : i ≤ r := by omega
    have hbound : i.toNat < a.length := by omega
    rw [jsGet_eq_some a i (by omega) hbound] at hlt
    have haix : a.getD i.toNat 0 < x := by simpa [jsLtB] using hlt
    refine ⟨by omega, by omega, ?_, ?_⟩
    · intro j hj
      rcases lt_or_ge (j : Int) l with hc | hc
      · exact hL j hc
      · rcases eq_or_lt_of_le (show j ≤ i.toNat by omega) with he | hlt2
        · rwa [he]
        · exact lt_trans (sortedLt_getD_lt a ha j i.toNat hlt2 hbound) haix
    · intro hlen
      exact le_of_lt (hR (i + 1).toNat (by omega) (by omega))
  | case2 l r hlt hrec ih =>
    intro h0 hr hlr hL hR
    rw [bsGo, if_pos hlt, dif_neg hrec]
    set i : Int := (l + r) / 2 with hi
    have hil : l ≤ i := by omega
    have hir : i ≤ r := by omega
    have hbound : i.toNat < a.length := by omega
    rw [jsGet_eq_some a i (by omega) hbound] at hlt
    have haix : a.getD i.toNat 0 < x := by simpa [jsLtB] using hlt
    have hrec' : i + 1 ≤ r := by omega
    refine ih (by omega) hr (by omega) ?_ hR
    intro j hj
    rcases lt_or_ge (j : Int) l with hc | hc
    · exact hL j hc
    · rcases eq_or_lt_of_le (show j ≤ i.toNat by omega) with he | hlt2
      · rwa [he]
      · exact lt_trans (sortedLt_getD_lt a ha j i.toNat hlt2 hbound) haix
  | case3 l r hnlt hgt hret =>
    intro h0 hr hlr hL hR
    rw [bsGo, if_neg hnlt, if_pos hgt, dif_pos hret]
    set i : Int := (l + r) / 2 with hi
    have hil : l ≤ i := by omega
    have hir : i ≤ r := by omega
    have hbound : i.toNat < a.length := by omega
    rw [jsGet_eq_some a i (by omega) hbound] at hgt
    have haix : x < a.getD i.toNat 0 := by simpa [jsGtB] using hgt
    refine ⟨by omega, by omega, ?_, ?_⟩
    · intro j hj
      exact hL j (by omega)
    · intro _
      exact le_of_lt haix
  | case4 l r hnlt hgt hrec ih =>
    intro h0 hr hlr hL hR
    rw [bsGo, if_neg hnlt, if_pos hgt, dif_neg hrec]
    set i : Int := (l + r) / 2 with hi
    have hil : l ≤ i := by omega
    have hir : i ≤ r := by omega
    have hbound : i.toNat < a.length := by omega
    rw [jsGet_eq_some a i (by omega) hbound] at hgt
    have haix : x < a.getD i.toNat 0 := by simpa [jsGtB] using hgt
    refine ih (by omega) (by omega) (by omega) hL ?_
    intro j hj hjlen
    rcases eq_or_lt_of_le (show i.toNat ≤ j by omega) with he | hlt2
    · rw [← he]; exact haix
    · exact lt_trans haix (sortedLt_getD_lt a ha i.toNat j hlt2 hjlen)
  | case5 l r hnlt hngt =>
    intro h0 hr hlr hL hR
    rw [bsGo, if_neg hnlt, if_neg hngt]
    set i : Int := (l + r) / 2 with hi
    have hil : l ≤ i := by omega
    have hir : i ≤ r := by omega
    have hbound : i.toNat < a.length := by omega
    rw [jsGet_eq_some a i (by omega) hbound] at hnlt hngt
    have h1 : ¬ a.getD i.toNat 0 < x := by simpa [jsLtB] using hnlt
    have h2 : ¬ x < a.getD i.toNat 0 := by simpa [jsGtB] using hngt
    have heq : a.getD i.toNat 0 = x := le_antisymm (not_lt.mp h2) (not_lt.mp h1)
    refine ⟨by omega, by omega, ?_, ?_⟩
    · intro j hj
      rcases lt_or_ge (j : Int) l with hc | hc
      · exact hL j hc
      · calc a.getD j 0 < a.getD i.toNat 0 :=
              sortedLt_getD_lt a ha j i.toNat (by omega) hbound
          _ = x := heq
    · intro _
      exact le_of_eq heq.symm

theorem binarySearch_insertionPos (a : List ℚ) (x : ℚ) (hne : a ≠ [])
    (ha : sortedLt a) : IsInsertionPos a x (binarySearch a x) := by
  have hlen : 0 < a.length := List.length_pos.mpr hne
  refine bsGo_insertionPos a x ha 0 ((a.length : Int) - 1) le_rfl (by omega) (by omega) ?_ ?_
  · intro j hj; exfalso; omega
  · intro j hj hjlen; exfalso; omega

/-! ### MarginCollapseCollection (src/environment.ts lines 78-107) -/

/-- The pair of accumulated maxima of a margin-collapse collection. -/
@[ext] structure MarginCollapseCollection where
  positive : ℚ
  negative : ℚ
deriving DecidableEq, Repr

/-- `add(margin)`: keep the largest positive margin and the largest magnitude
of negative margin. -/
def MarginCollapseCollection.add (c : MarginCollapseCollection) (margin : ℚ) :
    MarginCollapseCollection :=
  if margin < 0 then { c with negative := max c.negative (-margin) }
  else { c with positive := max c.positive margin }

/-- `get()`: the collapsed margin value. -/
def MarginCollapseCollection.get (c : MarginCollapseCollection) : ℚ :=
  c.positive - c.negative

/-- `clone()`: copy both fields. -/
def MarginCollapseCollection.clone (c : MarginCollapseCollection) :
    MarginCollapseCollection :=
  MarginCollapseCollection.mk c.positive c.negative

/-- The constructor: both fields start at 0, then `add(initialMargin)`. -/
def newMarginCollapseCollection (initialMargin : ℚ) : MarginCollapseCollection :=
  (MarginCollapseCollection.mk 0 0).add initialMargin

/-- A sequence of `add` calls, in order. -/
def MarginCollapseCollection.addAll (c : MarginCollapseCollection) (ms : List ℚ) :
    MarginCollapseCollection :=
  ms.foldl MarginCollapseCollection.add c

/-- The maximum of the non-negative margins of the list, or 0 if none. -/
def nonNegCollapse (ms : List ℚ) : ℚ :=
  (ms.filter fun m => 0 ≤ m).foldr max 0

/-- The maximum magnitude of the negative margins of the list, or 0 if none. -/
def negCollapse (ms : List ℚ) : ℚ :=
  ((ms.filter fun m => m < 0).map fun m => -m).foldr max 0

/-- The CSS collapsed value of a collection of adjoining margins. -/
def collapsedValue (ms : List ℚ) : ℚ := nonNegCollapse ms - negCollapse ms

theorem foldr_max_nonneg (l : List ℚ) : 0 ≤ l.foldr max 0 := by
  induction l with
  | nil => exact le_refl 0
  | cons a l ih => exact le_trans ih (le_max_right a _)

theorem mcc_add_comm (c : MarginCollapseCollection) (a b : ℚ) :
    (c.add a).add b = (c.add b).add a := by
  unfold MarginCollapseCollection.add
  by_cases ha : a < 0 <;> by_cases hb : b < 0 <;>
    simp [ha, hb, max_left_comm, max_comm, max_assoc]

theorem mcc_addAll_perm (c : MarginCollapseCollection) (ms ms' : List ℚ)
    (h : ms.Perm ms') : c.addAll ms = c.addAll ms' := by
  induction h generalizing c with
  | nil => rfl
  | cons a _ ih => exact ih (c.add a)
  | swap a b l =>
    show ((c.add b).add a).addAll l = ((c.add a).add b).addAll l
    rw [mcc_add_comm]
  | trans _ _ ih1 ih2 => exact (ih1 c).trans (ih2 c)

theorem mcc_addAll_positive (c : MarginCollapseCollection) (ms : List ℚ)
    (hc : 0 ≤ c.positive) :
    (c.addAll ms).positive = max c.positive (nonNegCollapse ms) := by
  induction ms generalizing c with
  | nil => simp [MarginCollapseCollection.addAll, nonNegCollapse, max_eq_left hc]
  | cons m ms ih =>
    show ((c.add m).addAll ms).positive = _
    by_cases hm : m < 0
    · have : c.add m = { c with negative := max c.negative (-m) } := by
        simp [MarginCollapseCollection.add, hm]
      rw [this, ih _ (by simpa using hc)]
      have : nonNegCollapse (m :: ms) = nonNegCollapse ms := by
        simp [nonNegCollapse, List.filter, show ¬ (0 ≤ m) from not_le.mpr hm]
      rw [this]
    · have h1 : c.add m = { c with positive := max c.positive m } := by
        simp [MarginCollapseCollection.add, hm]
      rw [h1, ih _ (le_trans hc (by simp [le_max_left]))]
      have h2 : nonNegCollapse (m :: ms) = max m (nonNegCollapse ms) := by
        simp [nonNegCollapse, List.filter, show (0 ≤ m) from not_lt.mp hm]
      rw [h2]
      simp [max_assoc]

theorem mcc_addAll_negative (c : MarginCollapseCollection) (ms : List ℚ)
    (hc : 0 ≤ c.negative) :
    (c.addAll ms).negative = max c.negative (negCollapse ms) := by
  induction ms generalizing c with
  | nil => simp [MarginCollapseCollection.addAll, negCollapse, max_eq_left hc]
  | cons m ms ih =>
    show ((c.add m).addAll ms).negative = _
    by_cases hm : m < 0
    · have h1 : c.add m = { c with negative := max c.negative (-m) } := by
        simp [MarginCollapseCollection.add, hm]
      rw [h1, ih _ (le_trans hc (by simp [le_max_left]))]
      have h2 : negCollapse (m :: ms) = max (-m) (negCollapse ms) := by
        simp [negCollapse, List.filter, hm]
      rw [h2]
      simp [max_assoc]
    · have h1 : c.add m = { c with positive := max c.positive m } := by
        simp [MarginCollapseCollection.add, hm]
      rw [h1, ih _ (by simpa using hc)]
      have h2 : negCollapse (m :: ms) = negCollapse ms := by
        simp [negCollapse, List.filter, hm]
      rw [h2]

theorem mcc_fresh_eq : newMarginCollapseCollection 0 = MarginCollapseCollection.mk 0 0 := by
  decide

theorem mcc_addAll_get (ms : List ℚ) :
    ((newMarginCollapseCollection 0).addAll ms).get = collapsedValue ms := by
  rw [mcc_fresh_eq]
  unfold MarginCollapseCollection.get collapsedValue
  rw [mcc_addAll_positive _ _ (le_refl 0), mcc_addAll_negative _ _ (le_refl 0)]
  simp only [max_eq_right (foldr_max_nonneg _), nonNegCollapse, negCollapse]

/-- Evaluation rule for `binarySearch` at concrete sorted inputs, via
uniqueness of the insertion position. -/
theorem binarySearch_eval (a : List ℚ) (x : ℚ) (s : Int) (hne : a ≠ [])
    (ha : sortedLt a) (hs : IsInsertionPos a x s) : binarySearch a x = s :=
  isInsertionPos_unique a x _ s (binarySearch_insertionPos a x hne ha) hs

/-! ### FloatSide (src/environment.ts lines 359-539)

Indexing notes. Track indices are kept as `Nat` in the state; the raw start
of `getTrackRange` is an `Int` (it can be -1 in JS when the query offset
precedes the first boundary, a situation excluded by the verified state
invariant, under which `Int.toNat` is lossless). JS array writes are
modelled with `List.set` and `splice` insertion with `jsSpliceIns`
(splice clamps an index beyond the length to the length). Out-of-range JS
reads yield `undefined`; where the source compares a read with `!==` the
`jsGet`/`Option` model keeps that semantics, and where the source does
arithmetic on a read the model uses `getD _ 0` (such reads are in range in
every state covered by the theorems below). -/

/-- JS `array.splice(n, 0, v)`: insert `v` at index `n`, clamped to the
length. -/
def jsSpliceIns {α : Type} (l : List α) (n : Nat) (v : α) : List α :=
  List.insertIdx (min n l.length) v l

structure FloatSide where
  itemsCount : Nat
  shelfBlockOffset : ℚ
  shelfTrackIndex : Nat
  blockOffsets : List ℚ
  inlineSizes : List ℚ
  inlineOffsets : List ℚ
  floatCounts : List Nat
deriving DecidableEq, Repr

/-- The FloatSide constructor. -/
def FloatSide.init (blockOffset : ℚ) : FloatSide :=
  { itemsCount := 0
    shelfBlockOffset := blockOffset
    shelfTrackIndex := 0
    blockOffsets := [blockOffset]
    inlineSizes := [0]
    inlineOffsets := [0]
    floatCounts := [0] }

/-- getSizeOfTracks: max over the tracks in `[start, stop)` that hold a
float of `inlineOffset + inlineSizes[i] - inlineOffsets[i]`, or 0. -/
def FloatSide.getSizeOfTracks (s : FloatSide) (start stop : Nat) (inlineOffset : ℚ) : ℚ :=
  (List.range' start (stop - start)).foldl
    (fun m i =>
      if 0 < s.floatCounts.getD i 0 then
        max m (inlineOffset + s.inlineSizes.getD i 0 - s.inlineOffsets.getD i 0)
      else m) 0

/-- getOverflow. -/
def FloatSide.getOverflow (s : FloatSide) : ℚ :=
  s.getSizeOfTracks 0 s.inlineSizes.length 0

/-- getFloatCountOfTracks: max float count over tracks in `[start, stop)`. -/
def FloatSide.getFloatCountOfTracks (s : FloatSide) (start stop : Nat) : Nat :=
  (List.range' start (stop - start)).foldl (fun m i => max m (s.floatCounts.getD i 0)) 0

/-- The `while (end < len && blockOffsets[end] < pos) end++` loop of
getEndTrack, as a recursion on `k`; every call keeps `k = len - e`
(truncated), under which the recursion is exactly the JS loop: when
`k = 0` we have `e ≥ len`, where the JS guard is false as well. -/
def getEndTrackGo (offsets : List ℚ) (pos : ℚ) (e k : Nat) : Nat :=
  match k with
  | 0 => e
  | k + 1 =>
    if e < offsets.length ∧ offsets.getD e 0 < pos then getEndTrackGo offsets pos (e + 1) k
    else e

/-- getEndTrack(start, blockOffset, blockSize). -/
def FloatSide.getEndTrack (s : FloatSide) (start : Nat) (blockOffset blockSize : ℚ) : Nat :=
  getEndTrackGo s.blockOffsets (blockOffset + blockSize) (start + 1)
    (s.blockOffsets.length - (start + 1))

/-- getTrackRange(blockOffset, blockSize = 0): binary search for the start
track, stepping one track left when the searched offset is not exactly a
boundary (`!==`, false on an out-of-range read), then the end track. -/
def FloatSide.getTrackRange (s : FloatSide) (blockOffset : ℚ) (blockSize : ℚ) : Int × Nat :=
  let start0 := binarySearch s.blockOffsets blockOffset
  let start := if jsGet s.blockOffsets start0 ≠ some blockOffset then start0 - 1 else start0
  (start,
    getEndTrackGo s.blockOffsets (blockOffset + blockSize) (start + 1).toNat
      (s.blockOffsets.length - (start + 1).toNat))

/-- getOccupiedSpace(blockOffset, blockSize, inlineOffset). A negative
start track (possible in JS before the first boundary) contributes
nothing to the loop, so starting at `toNat` is equivalent. -/
def FloatSide.getOccupiedSpace (s : FloatSide) (blockOffset blockSize inlineOffset : ℚ) : ℚ :=
  if s.itemsCount = 0 then 0
  else
    let r := s.getTrackRange blockOffset blockSize
    s.getSizeOfTracks r.1.toNat r.2 inlineOffset

/-- boxStart(blockOffset): unconditionally reset the shelf. -/
def FloatSide.boxStart (s : FloatSide) (blockOffset : ℚ) : FloatSide :=
  { s with
    shelfBlockOffset := blockOffset
    shelfTrackIndex := (s.getTrackRange blockOffset 0).1.toNat }

/-- dropShelf(blockOffset): move the shelf downward only. -/
def FloatSide.dropShelf (s : FloatSide) (blockOffset : ℚ) : FloatSide :=
  if s.shelfBlockOffset < blockOffset then
    { s with
      shelfBlockOffset := blockOffset
      shelfTrackIndex := (s.getTrackRange blockOffset 0).1.toNat }
  else s

/-- getNextTrackOffset. -/
def FloatSide.getNextTrackOffset (s : FloatSide) : ℚ :=
  if s.shelfTrackIndex + 1 < s.blockOffsets.length then
    s.blockOffsets.getD (s.shelfTrackIndex + 1) 0
  else
    s.blockOffsets.getD s.shelfTrackIndex 0

/-- getBottom: the last boundary. -/
def FloatSide.getBottom (s : FloatSide) : ℚ :=
  s.blockOffsets.getD (s.blockOffsets.length - 1) 0

/-- splitTrack(trackIndex, blockOffset): insert a boundary at
`trackIndex + 1` and duplicate the track payload at `trackIndex`. -/
def FloatSide.splitTrack (s : FloatSide) (trackIndex : Nat) (blockOffset : ℚ) : FloatSide :=
  { s with
    blockOffsets := jsSpliceIns s.blockOffsets (trackIndex + 1) blockOffset
    inlineSizes := jsSpliceIns s.inlineSizes trackIndex (s.inlineSizes.getD trackIndex 0)
    inlineOffsets := jsSpliceIns s.inlineOffsets trackIndex (s.inlineOffsets.getD trackIndex 0)
    floatCounts := jsSpliceIns s.floatCounts trackIndex (s.floatCounts.getD trackIndex 0) }

/-- splitIfShelfDropped. -/
def FloatSide.splitIfShelfDropped (s : FloatSide) : FloatSide :=
  if jsGet s.blockOffsets (s.shelfTrackIndex : Int) ≠ some s.shelfBlockOffset then
    let s' := s.splitTrack s.shelfTrackIndex s.shelfBlockOffset
    { s' with shelfTrackIndex := s.shelfTrackIndex + 1 }
  else s

/-- `float` property values. -/
inductive FloatValue where
  | left : FloatValue
  | right : FloatValue
  | none : FloatValue
deriving DecidableEq, Repr

/-- `clear` property values. -/
inductive ClearValue where
  | left : ClearValue
  | right : ClearValue
  | both : ClearValue
  | none : ClearValue
deriving DecidableEq, Repr

/-- The used margins of a box (auto already replaced by 0). -/
structure UsedMargins where
  lineLeft : ℚ
  lineRight : ℚ
  blockStart : ℚ
  blockEnd : ℚ
deriving DecidableEq, Repr

/-- The slice of a float BlockContainer that float placement reads:
style values (margins may be `auto`, modelled as `Option.none`), the
border-area size, and the containing block information. -/
structure FloatBox where
  floatStyle : FloatValue
  clearStyle : ClearValue
  hasContainingBlock : Bool
  marginLineLeft : Option ℚ
  marginLineRight : Option ℚ
  marginBlockStart : Option ℚ
  marginBlockEnd : Option ℚ
  borderWidth : ℚ
  borderHeight : ℚ
  cbInlineSize : ℚ
deriving DecidableEq, Repr

/-- getMarginsAutoIsZero. -/
def FloatBox.getMarginsAutoIsZero (b : FloatBox) : UsedMargins :=
  { lineLeft := b.marginLineLeft.getD 0
    lineRight := b.marginLineRight.getD 0
    blockStart := b.marginBlockStart.getD 0
    blockEnd := b.marginBlockEnd.getD 0 }

structure IfcVacancy where
  leftOffset : ℚ
  rightOffset : ℚ
  inlineSize : ℚ
  blockOffset : ℚ
  leftFloatCount : Nat
  rightFloatCount : Nat
deriving DecidableEq, Repr

/-- One iteration of the `for (track = startTrack; track < endTrack;
track++)` occupancy update loop at the end of FloatSide.placeFloat. -/
def applyTracksStep (cbOffset marginOffset marginEnd borderWidth : ℚ)
    (st : FloatSide) (track : Nat) : FloatSide :=
  if st.floatCounts.getD track 0 = 0 then
    { st with
      inlineOffsets := st.inlineOffsets.set track (-cbOffset)
      inlineSizes := st.inlineSizes.set track (marginOffset + borderWidth + marginEnd)
      floatCounts := st.floatCounts.set track (st.floatCounts.getD track 0 + 1) }
  else
    { st with
      inlineSizes := st.inlineSizes.set track
        (st.inlineOffsets.getD track 0 + cbOffset + marginOffset + borderWidth + marginEnd)
      floatCounts := st.floatCounts.set track (st.floatCounts.getD track 0 + 1) }

/-- The occupancy update loop at the end of FloatSide.placeFloat. -/
def FloatSide.applyTracks (s : FloatSide) (cbOffset marginOffset marginEnd borderWidth : ℚ)
    (start stop : Nat) : FloatSide :=
  (List.range' start (stop - start)).foldl
    (applyTracksStep cbOffset marginOffset marginEnd borderWidth) s

/-- FloatSide.placeFloat(box, vacancy, cbLineLeft, cbLineRight). A thrown
JS exception is an `Except.error` carrying the message and the state of
the side at the moment of the throw; the `Except.ok` result carries the
new side state and the inline position assigned to the box with
`setInlinePosition`. -/
def FloatSide.placeFloat (s : FloatSide) (box : FloatBox) (vacancy : IfcVacancy)
    (cbLineLeft cbLineRight : ℚ) : Except (String × FloatSide) (FloatSide × ℚ) :=
  if box.floatStyle = FloatValue.none then Except.error ("Tried to place float:none", s)
  else if vacancy.blockOffset ≠ s.shelfBlockOffset then Except.error ("Assertion failed", s)
  else
    let s1 := s.splitIfShelfDropped
    let startTrack := s1.shelfTrackIndex
    let margins := box.getMarginsAutoIsZero
    let blockSize := box.borderHeight + margins.blockStart + margins.blockEnd
    let blockEndOffset := s1.shelfBlockOffset + blockSize
    let se :=
      if 0 < blockSize then
        let endTrack := s1.getEndTrack startTrack s1.shelfBlockOffset blockSize
        if jsGet s1.blockOffsets (endTrack : Int) ≠ some blockEndOffset then
          (s1.splitTrack (endTrack - 1) blockEndOffset, endTrack)
        else (s1, endTrack)
      else (s1, startTrack)
    let s2 := se.1
    let endTrack := se.2
    let cbOffset := if box.floatStyle = FloatValue.left then vacancy.leftOffset else vacancy.rightOffset
    let cbLineSide := if box.floatStyle = FloatValue.left then cbLineLeft else cbLineRight
    let marginOffset := if box.floatStyle = FloatValue.left then margins.lineLeft else margins.lineRight
    let marginEnd := if box.floatStyle = FloatValue.left then margins.lineRight else margins.lineLeft
    if box.floatStyle = FloatValue.left then
      let s3 := (s2.applyTracks cbOffset marginOffset marginEnd box.borderWidth startTrack endTrack)
      Except.ok ({ s3 with itemsCount := s3.itemsCount + 1 }, cbOffset - cbLineSide + marginOffset)
    else if ¬ box.hasContainingBlock then
      Except.error ("box has no containing block", s2)
    else
      let s3 := (s2.applyTracks cbOffset marginOffset marginEnd box.borderWidth startTrack endTrack)
      Except.ok ({ s3 with itemsCount := s3.itemsCount + 1 },
        cbOffset - cbLineSide + box.cbInlineSize - marginOffset - box.borderWidth)

/-! ### FloatContext (src/environment.ts lines 566-735)

The owning BlockFormattingContext is read through the fields
`cbBlockStart`, `cbLineLeft`, `cbLineRight` and `inlineSize`; they are
passed explicitly as a `BfcView` (none of the FloatContext operations
modelled here mutates them). -/

structure BfcView where
  cbBlockStart : ℚ
  cbLineLeft : ℚ
  cbLineRight : ℚ
  inlineSize : ℚ
deriving DecidableEq, Repr

structure FloatContext where
  leftFloats : FloatSide
  rightFloats : FloatSide
  misfits : List FloatBox
deriving DecidableEq, Repr

/-- The FloatContext constructor. -/
def FloatContext.init (blockOffset : ℚ) : FloatContext :=
  { leftFloats := FloatSide.init blockOffset
    rightFloats := FloatSide.init blockOffset
    misfits := [] }

/-- The side a float of the given `float` style is placed on. -/
def FloatContext.side (f : FloatContext) (fl : FloatValue) : FloatSide :=
  if fl = FloatValue.left then f.leftFloats else f.rightFloats

def FloatContext.setSide (f : FloatContext) (fl : FloatValue) (s : FloatSide) : FloatContext :=
  if fl = FloatValue.left then { f with leftFloats := s } else { f with rightFloats := s }

def FloatContext.oppositeSide (f : FloatContext) (fl : FloatValue) : FloatSide :=
  if fl = FloatValue.left then f.rightFloats else f.leftFloats

/-- FloatContext.boxStart(): reset both shelves to the current block
cursor of the owning BFC. -/
def FloatContext.boxStart (f : FloatContext) (bfc : BfcView) : FloatContext :=
  { f with
    leftFloats := f.leftFloats.boxStart bfc.cbBlockStart
    rightFloats := f.rightFloats.boxStart bfc.cbBlockStart }

def FloatContext.getVacancyForLine (f : FloatContext) (bfc : BfcView)
    (blockOffset blockSize : ℚ) : IfcVacancy :=
  let leftInlineSpace := f.leftFloats.getOccupiedSpace blockOffset blockSize (-bfc.cbLineLeft)
  let rightInlineSpace := f.rightFloats.getOccupiedSpace blockOffset blockSize (-bfc.cbLineRight)
  let leftOffset := bfc.cbLineLeft + leftInlineSpace
  let rightOffset := bfc.cbLineRight + rightInlineSpace
  { leftOffset := leftOffset
    rightOffset := rightOffset
    inlineSize := bfc.inlineSize - leftOffset - rightOffset
    blockOffset := blockOffset
    leftFloatCount := 0
    rightFloatCount := 0 }

def FloatContext.getVacancyForBox (f : FloatContext) (bfc : BfcView) (box : FloatBox) :
    IfcVacancy :=
  let fl := box.floatStyle
  let floats := f.side fl
  let opposite := f.oppositeSide fl
  let inlineOffset := if fl = FloatValue.left then -bfc.cbLineLeft else -bfc.cbLineRight
  let oppositeInlineOffset := if fl = FloatValue.left then -bfc.cbLineRight else -bfc.cbLineLeft
  let blockOffset := floats.shelfBlockOffset
  let blockSize := box.borderHeight
  let startTrack := floats.shelfTrackIndex
  let endTrack := floats.getEndTrack startTrack blockOffset blockSize
  let inlineSpace := floats.getSizeOfTracks startTrack endTrack inlineOffset
  let opp := opposite.getTrackRange blockOffset blockSize
  let oppositeInlineSpace := opposite.getSizeOfTracks opp.1.toNat opp.2 oppositeInlineOffset
  let leftOffset := bfc.cbLineLeft + (if fl = FloatValue.left then inlineSpace else oppositeInlineSpace)
  let rightOffset := bfc.cbLineRight + (if fl = FloatValue.right then inlineSpace else oppositeInlineSpace)
  let floatCount := floats.getFloatCountOfTracks startTrack endTrack
  let oppositeFloatCount := opposite.getFloatCountOfTracks opp.1.toNat opp.2
  { leftOffset := leftOffset
    rightOffset := rightOffset
    inlineSize := bfc.inlineSize - leftOffset - rightOffset
    blockOffset := blockOffset
    leftFloatCount := if fl = FloatValue.left then floatCount else oppositeFloatCount
    rightFloatCount := if fl = FloatValue.left then oppositeFloatCount else floatCount }

def FloatContext.getLeftBottom (f : FloatContext) : ℚ := f.leftFloats.getBottom

def FloatContext.getRightBottom (f : FloatContext) : ℚ := f.rightFloats.getBottom

def FloatContext.getBothBottom (f : FloatContext) : ℚ :=
  max f.leftFloats.getBottom f.rightFloats.getBottom

/-- FloatContext.placeFloat(lineWidth, lineIsEmpty, box). The `ok` result
is the context after the call; the box position assignments
(`setBlockPosition`, and `setInlinePosition` inside FloatSide.placeFloat)
mutate the box, not the context, and are dropped here. -/
def FloatContext.placeFloat (f : FloatContext) (bfc : BfcView) (lineWidth : ℚ)
    (lineIsEmpty : Bool) (box : FloatBox) : Except (String × FloatContext) FloatContext :=
  if box.floatStyle = FloatValue.none then
    Except.error ("Attempted to place float: none", f)
  else if f.misfits ≠ [] then
    Except.ok { f with misfits := f.misfits ++ [box] }
  else
    let fl := box.floatStyle
    let side0 := f.side fl
    let side1 :=
      if box.clearStyle = ClearValue.left ∨ box.clearStyle = ClearValue.both then
        side0.dropShelf f.leftFloats.getBottom
      else side0
    let side2 :=
      if box.clearStyle = ClearValue.right ∨ box.clearStyle = ClearValue.both then
        side1.dropShelf f.rightFloats.getBottom
      else side1
    let f1 := f.setSide fl side2
    let vacancy := f1.getVacancyForBox bfc box
    let margins := box.getMarginsAutoIsZero
    let inlineMargin := margins.lineLeft + margins.lineRight
    if box.borderWidth + inlineMargin ≤ vacancy.inlineSize - lineWidth ∨
        (lineIsEmpty ∧ vacancy.leftFloatCount = 0 ∧ vacancy.rightFloatCount = 0) then
      match side2.placeFloat box vacancy bfc.cbLineLeft bfc.cbLineRight with
      | Except.error e => Except.error (e.1, f1.setSide fl e.2)
      | Except.ok sp => Except.ok (f1.setSide fl sp.1)
    else
      if vacancy.inlineSize < box.borderWidth + inlineMargin then
        let count := if fl = FloatValue.left then vacancy.leftFloatCount else vacancy.rightFloatCount
        let oppositeCount := if fl = FloatValue.left then vacancy.rightFloatCount else vacancy.leftFloatCount
        if 0 < count then
          let f2 := f1.setSide fl (side2.dropShelf side2.getNextTrackOffset)
          Except.ok { f2 with misfits := f2.misfits ++ [box] }
        else if 0 < oppositeCount then
          let opposite := f1.oppositeSide fl
          let trackIndex := (opposite.getTrackRange side2.shelfBlockOffset 0).2
          if trackIndex = opposite.blockOffsets.length then
            Except.error ("assertion failed", f1)
          else
            let f2 := f1.setSide fl (side2.dropShelf (opposite.blockOffsets.getD trackIndex 0))
            Except.ok { f2 with misfits := f2.misfits ++ [box] }
        else
          Except.ok { f1 with misfits := f1.misfits ++ [box] }
      else
        Except.ok { f1 with misfits := f1.misfits ++ [box] }

/-- One pass of the `while` loop of consumeMisfits: take the queue, reset
it, and run `placeFloat(0, true, box)` for each queued float in order. -/
def FloatContext.consumePass (f : FloatContext) (bfc : BfcView) :
    Except (String × FloatContext) FloatContext :=
  f.misfits.foldl
    (fun acc box =>
      match acc with
      | Except.error e => Except.error e
      | Except.ok g => g.placeFloat bfc 0 true box)
    (Except.ok { f with misfits := [] })

/-- consumeMisfits() bounded by `n` iterations of the `while` loop: the JS
loop terminates within `n` iterations starting from `f` exactly when the
result is `ok` with an empty misfit queue. -/
def FloatContext.consumeMisfitsN (bfc : BfcView) : Nat → FloatContext →
    Except (String × FloatContext) FloatContext
  | 0, f => Except.ok f
  | n + 1, f =>
    if f.misfits = [] then Except.ok f
    else
      match f.consumePass bfc with
      | Except.error e => Except.error e
      | Except.ok g => FloatContext.consumeMisfitsN bfc n g

/-- FloatContext.dropShelf(blockOffset). -/
def FloatContext.dropShelf (f : FloatContext) (blockOffset : ℚ) : FloatContext :=
  { f with
    leftFloats := f.leftFloats.dropShelf blockOffset
    rightFloats := f.rightFloats.dropShelf blockOffset }

/-- The dropShelf part of postLine(line, didBreak); the trailing
consumeMisfits() is modelled separately with consumeMisfitsN. -/
def FloatContext.postLineDrop (f : FloatContext) (bfc : BfcView)
    (lineBlockOffset lineHeight : ℚ) (didBreak : Bool) : FloatContext :=
  if didBreak ∨ f.misfits ≠ [] then
    f.dropShelf (bfc.cbBlockStart + lineBlockOffset + lineHeight)
  else f

/-! ### BlockFormattingContext (src/environment.ts lines 111-357)

The model covers trees of block containers whose leaves are empty block
containers (`isBlockContainerOfInlines` is false for every modelled box:
the source checks `children[0].isIfcInline()`, and the modelled trees hold
no inline children, so the text-layout branches of boxStart are dead and
auto block sizes come from children). Writing modes are uniform
(horizontal-tb), so `blockSizeForWritingMode` is the block size itself.
`assumePx` assertions hold by construction: block margins are carried as
used values. The `lineLeft`/`lineRight` insets that
getContainingBlockToContent derives from inline geometry are carried on
each box as inputs (block-axis positioning never reads them back). -/

/-- The used style values of a block container that block-axis layout
reads. `blockSize = none` is `auto`. -/
structure BoxStyle where
  paddingBlockStart : ℚ
  paddingBlockEnd : ℚ
  borderBlockStartWidth : ℚ
  borderBlockEndWidth : ℚ
  marginBlockStart : ℚ
  marginBlockEnd : ℚ
  blockSize : Option ℚ
  clearStyle : ClearValue

/-- A block container: id, style, containing-block-to-content line insets,
the isBfcRoot attribute, and child block containers. -/
inductive BlockBox where
  | mk (id : Nat) (style : BoxStyle) (lineLeftInset lineRightInset : ℚ)
      (bfcRoot : Bool) (children : List BlockBox)

def BlockBox.id : BlockBox → Nat
  | BlockBox.mk i _ _ _ _ _ => i

def BlockBox.style : BlockBox → BoxStyle
  | BlockBox.mk _ st _ _ _ _ => st

def BlockBox.lineLeftInset : BlockBox → ℚ
  | BlockBox.mk _ _ x _ _ _ => x

def BlockBox.lineRightInset : BlockBox → ℚ
  | BlockBox.mk _ _ _ x _ _ => x

def BlockBox.isBfcRoot : BlockBox → Bool
  | BlockBox.mk _ _ _ _ b _ => b

def BlockBox.children : BlockBox → List BlockBox
  | BlockBox.mk _ _ _ _ _ cs => cs

/-- `isBlockContainerOfInlines`: false for every modelled box (no inline
children in the modelled trees). -/
def BlockBox.isBlockContainerOfInlines (_ : BlockBox) : Bool := false

def BlockBox.isBlockContainerOfBlockContainers (b : BlockBox) : Bool :=
  ! b.isBlockContainerOfInlines

/-- canCollapseThrough(): block size auto or 0, and no content (for a
block-container-of-block-containers, no children). -/
def BlockBox.canCollapseThrough (b : BlockBox) : Bool :=
  match b.style.blockSize with
  | some v => if v = 0 then b.children.isEmpty else false
  | Option.none => b.children.isEmpty

/-- The mutable geometry of a box: border-area blockStart (set by
setBlockPosition) and content-area blockSize (set by setBlockSize). -/
structure BoxGeom where
  blockStart : ℚ
  contentBlockSize : ℚ

/-- Border-box block size of a box, as read through
`borderArea.blockSizeForWritingMode`: the setBlockSize propagation adds
padding and border on both block edges (identical areas when those edges
are zero give the same arithmetic). -/
def BoxStyle.borderBoxBlockSize (st : BoxStyle) (contentSize : ℚ) : ℚ :=
  contentSize + st.paddingBlockStart + st.paddingBlockEnd +
    st.borderBlockStartWidth + st.borderBlockEndWidth

def GeomStore : Type := Nat → BoxGeom

def GeomStore.initial : GeomStore := fun _ => { blockStart := 0, contentBlockSize := 0 }

def GeomStore.setBlockPosition (g : GeomStore) (id : Nat) (p : ℚ) : GeomStore :=
  fun j => if j = id then { g id with blockStart := p } else g j

def GeomStore.setBlockSize (g : GeomStore) (id : Nat) (v : ℚ) : GeomStore :=
  fun j => if j = id then { g id with contentBlockSize := v } else g j

inductive LastEv where
  | noneYet : LastEv
  | startEv : LastEv
  | endEv : LastEv
deriving DecidableEq

inductive StackEntry where
  | start (b : BlockBox)
  | post (b : BlockBox)

structure MarginRecord where
  level : Int
  collection : MarginCollapseCollection
  clearanceAtLevel : Option Int

structure BfcState where
  inlineSize : ℚ
  fctx : Option FloatContext
  stack : List StackEntry
  cbBlockStart : ℚ
  cbLineLeft : ℚ
  cbLineRight : ℚ
  sizeStack : List ℚ
  offsetStack : List ℚ
  last : LastEv
  level : Int
  hypotheticals : List (Nat × ℚ)
  margin : MarginRecord
  geom : GeomStore

/-- The BlockFormattingContext constructor. -/
def BfcState.new (inlineSize : ℚ) : BfcState :=
  { inlineSize := inlineSize
    fctx := Option.none
    stack := []
    cbBlockStart := 0
    cbLineLeft := 0
    cbLineRight := 0
    sizeStack := [0]
    offsetStack := [0]
    last := LastEv.noneYet
    level := 0
    hypotheticals := []
    margin := { level := 0, collection := newMarginCollapseCollection 0, clearanceAtLevel := Option.none }
    geom := GeomStore.initial }

def BfcState.bfcView (st : BfcState) : BfcView :=
  { cbBlockStart := st.cbBlockStart
    cbLineLeft := st.cbLineLeft
    cbLineRight := st.cbLineRight
    inlineSize := st.inlineSize }

/-- `sizeStack[i] += v` (the index is in range in every modelled run). -/
def listAddAt (l : List ℚ) (i : Int) (v : ℚ) : List ℚ :=
  if 0 ≤ i ∧ i.toNat < l.length then l.set i.toNat (l.getD i.toNat 0 + v) else l

/-- The fold state of the `for (const item of this.stack)` loop of
positionBlockContainers. -/
structure PbcAcc where
  sizeStack : List ℚ
  offsetStack : List ℚ
  cbBlockStart : ℚ
  levelNeedsPostOffset : Int
  passedMarginLevel : Bool
  geom : GeomStore

/-- One iteration of the loop of positionBlockContainers. -/
def pbcStep (marginValue : ℚ) (marginLevel : Int) (hypotheticals : List (Nat × ℚ))
    (acc : PbcAcc) (item : StackEntry) : PbcAcc :=
  match item with
  | StackEntry.post box =>
    let childSize := acc.sizeStack.getLastD 0
    let sizeStack1 := acc.sizeStack.dropLast
    let offset := acc.offsetStack.getLastD 0
    let offsetStack1 := acc.offsetStack.dropLast
    let level := sizeStack1.length - 1
    let geom1 :=
      if box.style.blockSize = Option.none ∧ box.isBlockContainerOfBlockContainers = true ∧
          box.isBfcRoot = false then
        acc.geom.setBlockSize box.id childSize
      else acc.geom
    let blockSize := box.style.borderBoxBlockSize (geom1 box.id).contentBlockSize
    let sizeStack2 := listAddAt sizeStack1 level blockSize
    let cb := offset + blockSize
    if (level : Int) < acc.levelNeedsPostOffset then
      { acc with
        sizeStack := sizeStack2
        offsetStack := offsetStack1
        cbBlockStart := cb + marginValue
        levelNeedsPostOffset := acc.levelNeedsPostOffset - 1
        geom := geom1 }
    else
      { acc with
        sizeStack := sizeStack2
        offsetStack := offsetStack1
        cbBlockStart := cb
        geom := geom1 }
  | StackEntry.start box =>
    let hypothetical := hypotheticals.lookup box.id
    let level := acc.sizeStack.length - 1
    let blockOffset0 := acc.sizeStack.getD level 0
    let passed :=
      if acc.passedMarginLevel = false then decide (marginLevel = (level : Int))
      else acc.passedMarginLevel
    let blockOffset1 := if passed = false then blockOffset0 + marginValue else blockOffset0
    let blockOffset2 :=
      match hypothetical with
      | some h => blockOffset1 - (marginValue - h)
      | Option.none => blockOffset1
    { acc with
      sizeStack := acc.sizeStack ++ [0]
      offsetStack := acc.offsetStack ++ [acc.cbBlockStart]
      passedMarginLevel := passed
      geom := acc.geom.setBlockPosition box.id blockOffset2 }

/-- positionBlockContainers (the flush). -/
def positionBlockContainers (st : BfcState) : BfcState :=
  let marginValue := st.margin.collection.get
  let acc0 : PbcAcc :=
    { sizeStack := listAddAt st.sizeStack st.margin.level marginValue
      offsetStack := st.offsetStack
      cbBlockStart := st.cbBlockStart + marginValue
      levelNeedsPostOffset := (st.offsetStack.length : Int) - 1
      passedMarginLevel := decide (st.margin.level = (st.offsetStack.length : Int) - 1)
      geom := st.geom }
  let acc := st.stack.foldl (pbcStep marginValue st.margin.level st.hypotheticals) acc0
  { st with
    stack := []
    sizeStack := acc.sizeStack
    offsetStack := acc.offsetStack
    cbBlockStart := acc.cbBlockStart
    geom := acc.geom }

/-- BlockFormattingContext.boxStart(box, ctx), for the modelled trees
(no inline formatting contexts, hence no text-layout bias). -/
def bfcBoxStart (box : BlockBox) (st : BfcState) : BfcState :=
  let paddingBlockStart := box.style.paddingBlockStart
  let borderBlockStartWidth := box.style.borderBlockStartWidth
  let marginBlockStart := box.style.marginBlockStart
  let floatBottom1 : ℚ :=
    match st.fctx with
    | some f =>
      if box.style.clearStyle = ClearValue.left ∨ box.style.clearStyle = ClearValue.both then
        max 0 f.getLeftBottom
      else 0
    | Option.none => 0
  let floatBottom : ℚ :=
    match st.fctx with
    | some f =>
      if box.style.clearStyle = ClearValue.right ∨ box.style.clearStyle = ClearValue.both then
        max floatBottom1 f.getRightBottom
      else floatBottom1
    | Option.none => floatBottom1
  let clearance : ℚ :=
    if box.style.clearStyle ≠ ClearValue.none then
      max 0 (floatBottom - (st.cbBlockStart + (st.margin.collection.clone.add marginBlockStart).get))
    else 0
  let adjoinsPrevious := clearance = 0
  let adjoinsNext := paddingBlockStart = 0 ∧ borderBlockStartWidth = 0
  let st1 :=
    if adjoinsPrevious then
      { st with margin := { st.margin with collection := st.margin.collection.add marginBlockStart } }
    else
      let stf := positionBlockContainers st
      let c := floatBottom - stf.cbBlockStart
      { stf with
        margin :=
          { level := stf.level
            collection := newMarginCollapseCollection c
            clearanceAtLevel := if box.canCollapseThrough then some stf.level else Option.none } }
  let st2 :=
    { st1 with
      last := LastEv.startEv
      level := st1.level + 1
      cbLineLeft := st1.cbLineLeft + box.lineLeftInset
      cbLineRight := st1.cbLineRight + box.lineRightInset
      stack := st1.stack ++ [StackEntry.start box] }
  let st3 :=
    match st2.fctx with
    | some f => { st2 with fctx := some (f.boxStart st2.bfcView) }
    | Option.none => st2
  if ¬ adjoinsNext then
    let stf := positionBlockContainers st3
    { stf with
      margin :=
        { level := stf.level
          collection := newMarginCollapseCollection 0
          clearanceAtLevel := Option.none } }
  else st3

/-- BlockFormattingContext.boxEnd(box). -/
def bfcBoxEnd (box : BlockBox) (st : BfcState) : BfcState :=
  let paddingBlockEnd := box.style.paddingBlockEnd
  let borderBlockEndWidth := box.style.borderBlockEndWidth
  let marginBlockEnd := box.style.marginBlockEnd
  let adjoins0 : Bool :=
    decide (paddingBlockEnd = 0) && decide (borderBlockEndWidth = 0) &&
      (match st.margin.clearanceAtLevel with
       | Option.none => true
       | some cl => decide (cl < st.level))
  let adjoins : Bool :=
    if adjoins0 then
      (if st.last = LastEv.startEv then box.canCollapseThrough
       else decide (box.style.blockSize = Option.none))
    else false
  let st1 :=
    { st with
      stack := st.stack ++ [StackEntry.post box]
      level := st.level - 1
      cbLineLeft := st.cbLineLeft - box.lineLeftInset
      cbLineRight := st.cbLineRight - box.lineRightInset }
  let st2 :=
    if adjoins then st1
    else
      let stf := positionBlockContainers st1
      { stf with
        margin :=
          { level := stf.level
            collection := newMarginCollapseCollection 0
            clearanceAtLevel := Option.none } }
  let st3 :=
    if st.last = LastEv.startEv then
      { st2 with hypotheticals := (box.id, st2.margin.collection.get) :: st2.hypotheticals }
    else st2
  { st3 with
    margin :=
      { st3.margin with
        collection := st3.margin.collection.add marginBlockEnd
        level := if st3.level < st3.margin.level then st3.level else st3.margin.level }
    last := LastEv.endEv }

/-- finalize(box): flush, then resolve an auto block size at the BFC root
(the linebox height is 0: no inline formatting contexts in the model). -/
def bfcFinalize (box : BlockBox) (st : BfcState) : BfcState :=
  let blockSize := box.style.blockSize
  let st1 := positionBlockContainers st
  if blockSize = Option.none then
    { st1 with
      geom := st1.geom.setBlockSize box.id
        (max 0 (max st1.cbBlockStart
          (match st1.fctx with | some f => f.getBothBottom | Option.none => 0))) }
  else st1

/-- §10.6.3 doBlockBoxModelForBlockBox: an auto block size of a childless
box becomes 0; a definite block size is applied; otherwise deferred. -/
def doBlockBoxModelForBlockBox (box : BlockBox) (g : GeomStore) : GeomStore :=
  match box.style.blockSize with
  | Option.none => if box.children.isEmpty then g.setBlockSize box.id 0 else g
  | some v => g.setBlockSize box.id v

/-!
layoutBlockBox for a box inside an existing BFC (none of the modelled
boxes is itself a BFC root): block box model, boxStart, recurse into the
children, boxEnd. The inline box model only touches inline geometry and
is omitted. The recursion over the children of the source is the mutual
pair below.
-/

mutual

def layoutBlockBoxM : BlockBox → BfcState → BfcState
  | BlockBox.mk i stl li ri rt cs, st =>
    let box := BlockBox.mk i stl li ri rt cs
    let st0 := { st with geom := doBlockBoxModelForBlockBox box st.geom }
    let st1 := bfcBoxStart box st0
    let st2 := layoutChildrenM cs st1
    bfcBoxEnd box st2

def layoutChildrenM : List BlockBox → BfcState → BfcState
  | [], st => st
  | c :: cs, st => layoutChildrenM cs (layoutBlockBoxM c st)

end

/-! ### The collapse-through scenario of C2 -/

/-- The empty child: margin-top 20, margin-bottom 5, no border or padding,
auto block size, no clear, no children. -/
def c2Child : BlockBox :=
  BlockBox.mk 2
    { paddingBlockStart := 0, paddingBlockEnd := 0
      borderBlockStartWidth := 0, borderBlockEndWidth := 0
      marginBlockStart := 20, marginBlockEnd := 5
      blockSize := Option.none, clearStyle := ClearValue.none }
    0 0 false []

/-- The parent: margin-top 10, margin-bottom 0, no border or padding,
auto block size, whose only child is `c2Child`. -/
def c2Parent : BlockBox :=
  BlockBox.mk 1
    { paddingBlockStart := 0, paddingBlockEnd := 0
      borderBlockStartWidth := 0, borderBlockEndWidth := 0
      marginBlockStart := 10, marginBlockEnd := 0
      blockSize := Option.none, clearStyle := ClearValue.none }
    0 0 false [c2Child]

/-- Laying out the parent in a fresh BFC and running the closing flush
that `finalize` performs at the BFC root. -/
def c2Final : BfcState :=
  positionBlockContainers (layoutBlockBoxM c2Parent (BfcState.new 100))

set_option maxRecDepth 100000 in
/-- C2: laying out, in a fresh BFC, a parent block container with
margin-top 10 and margin-bottom 0 whose only child is an empty block
with margin-top 20 and margin-bottom 5 (no borders or padding, both
block sizes auto) assigns the parent a border-box blockStart of 20 and a
border-box block size of 0. -/
theorem C2_collapse_through :
    (c2Final.geom 1).blockStart = 20 ∧
    c2Parent.style.borderBoxBlockSize ((c2Final.geom 1).contentBlockSize) = 0 := by
  have h : (c2Final.geom 1).blockStart = 20 ∧ (c2Final.geom 1).contentBlockSize = 0 := by
    simp [c2Final, c2Parent, c2Child, layoutBlockBoxM, layoutChildrenM, bfcBoxStart,
    bfcBoxEnd, positionBlockContainers, pbcStep, listAddAt, doBlockBoxModelForBlockBox,
    BfcState.new, BfcState.bfcView, GeomStore.initial, GeomStore.setBlockPosition,
    GeomStore.setBlockSize, BoxStyle.borderBoxBlockSize, BlockBox.id, BlockBox.style,
    BlockBox.children, BlockBox.lineLeftInset, BlockBox.lineRightInset, BlockBox.isBfcRoot,
    BlockBox.isBlockContainerOfInlines, BlockBox.isBlockContainerOfBlockContainers,
    BlockBox.canCollapseThrough, MarginCollapseCollection.add, MarginCollapseCollection.get,
    MarginCollapseCollection.clone, newMarginCollapseCollection, List.lookup]
    norm_num
  refine ⟨h.1, ?_⟩
  rw [h.2]
  norm_num [c2Parent, BoxStyle.borderBoxBlockSize, BlockBox.style]

/-! ### Index bookkeeping for splice insertion -/

theorem getD_eq_getElem {α : Type} (l : List α) (i : Nat) (d : α) (h : i < l.length) :
    l.getD i d = l[i] := by
  simp [List.getD_eq_getElem?_getD, List.getElem?_eq_getElem h]

theorem getD_eq_default {α : Type} (l : List α) (i : Nat) (d : α) (h : l.length ≤ i) :
    l.getD i d = d := by
  simp [List.getD_eq_getElem?_getD, List.getElem?_eq_none_iff.mpr h]

theorem length_jsSpliceIns {α : Type} (l : List α) (n : Nat) (v : α) :
    (jsSpliceIns l n v).length = l.length + 1 := by
  unfold jsSpliceIns
  rw [List.length_insertIdx _ _ (min_le_right n l.length)]

theorem getD_jsSpliceIns_lt {α : Type} (l : List α) (n : Nat) (v d : α) (hn : n ≤ l.length)
    (j : Nat) (hj : j < n) : (jsSpliceIns l n v).getD j d = l.getD j d := by
  unfold jsSpliceIns
  rw [min_eq_left hn]
  have hjl : j < l.length := by omega
  rw [getD_eq_getElem _ _ _ (by rw [List.length_insertIdx _ _ hn]; omega),
    getD_eq_getElem _ _ _ hjl]
  exact List.getElem_insertIdx_of_lt l v n j hj hjl

theorem getD_jsSpliceIns_self {α : Type} (l : List α) (n : Nat) (v d : α) (hn : n ≤ l.length) :
    (jsSpliceIns l n v).getD n d = v := by
  unfold jsSpliceIns
  rw [min_eq_left hn]
  rw [getD_eq_getElem _ _ _ (by rw [List.length_insertIdx _ _ hn]; omega)]
  exact List.getElem_insertIdx_self l v n hn

theorem getD_jsSpliceIns_gt {α : Type} (l : List α) (n : Nat) (v d : α) (hn : n ≤ l.length)
    (j : Nat) (hj : n < j) : (jsSpliceIns l n v).getD j d = l.getD (j - 1) d := by
  unfold jsSpliceIns
  rw [min_eq_left hn]
  rcases lt_or_ge j (l.length + 1) with hjl | hjl
  · have hk : n + (j - n - 1) < l.length := by omega
    have hj1 : j - 1 < l.length := by omega
    have hg := List.getElem_insertIdx_add_succ l v n (j - n - 1) hk
      (by rw [List.length_insertIdx _ _ hn]; omega)
    have hd : (List.insertIdx n v l).getD (n + (j - n - 1) + 1) d =
        l.getD (n + (j - n - 1)) d := by
      rw [getD_eq_getElem _ _ _ (by rw [List.length_insertIdx _ _ hn]; omega),
        getD_eq_getElem _ _ _ hk]
      exact hg
    rw [show n + (j - n - 1) + 1 = j from by omega,
      show n + (j - n - 1) = j - 1 from by omega] at hd
    exact hd
  · rw [getD_eq_default _ _ _ (by rw [List.length_insertIdx _ _ hn]; omega),
      getD_eq_default _ _ _ (by omega)]

/-! ### The FloatSide state invariant -/

/-- The four track arrays have equal lengths (the last track extends to
infinity, so there is no closing boundary entry). -/
def lengthsEq (s : FloatSide) : Prop :=
  s.inlineSizes.length = s.blockOffsets.length ∧
  s.inlineOffsets.length = s.blockOffsets.length ∧
  s.floatCounts.length = s.blockOffsets.length

instance (s : FloatSide) : Decidable (lengthsEq s) := by
  unfold lengthsEq; infer_instance

/-- The FloatSide state invariant: equal array lengths, at least one
track, strictly increasing boundaries, a shelf track index in range with
the shelf inside that track, and an unoccupied last track. -/
def SideInv (s : FloatSide) : Prop :=
  lengthsEq s ∧
  s.blockOffsets ≠ [] ∧
  sortedLt s.blockOffsets ∧
  s.shelfTrackIndex < s.blockOffsets.length ∧
  s.blockOffsets.getD s.shelfTrackIndex 0 ≤ s.shelfBlockOffset ∧
  (s.shelfTrackIndex + 1 < s.blockOffsets.length →
    s.shelfBlockOffset < s.blockOffsets.getD (s.shelfTrackIndex + 1) 0) ∧
  s.floatCounts.getD (s.floatCounts.length - 1) 0 = 0

instance (s : FloatSide) : Decidable (SideInv s) := by
  unfold SideInv; infer_instance

theorem sideInv_init (b : ℚ) : SideInv (FloatSide.init b) := by
  refine ⟨⟨rfl, rfl, rfl⟩, by simp [FloatSide.init], ?_, by simp [FloatSide.init], ?_, ?_, rfl⟩
  · simp [FloatSide.init, sortedLt]
  · simp [FloatSide.init]
  · intro h
    simp [FloatSide.init] at h

/-! ### Correctness of the track search -/

theorem sortedLt_of_succ (a : List ℚ)
    (h : ∀ i, i + 1 < a.length → a.getD i 0 < a.getD (i + 1) 0) : sortedLt a := by
  rw [sortedLt, ← List.chain'_iff_pairwise, List.chain'_iff_get]
  intro i hi
  have hh := h i (by omega)
  rw [getD_eq_getElem _ _ _ (by omega), getD_eq_getElem _ _ _ (by omega)] at hh
  simpa [List.get_eq_getElem] using hh

theorem getEndTrackGo_spec (offsets : List ℚ) (pos : ℚ) :
    ∀ k e0, offsets.length - e0 ≤ k →
    e0 ≤ getEndTrackGo offsets pos e0 k ∧
    getEndTrackGo offsets pos e0 k ≤ max e0 offsets.length ∧
    (∀ j, e0 ≤ j → j < getEndTrackGo offsets pos e0 k → offsets.getD j 0 < pos) ∧
    (getEndTrackGo offsets pos e0 k < offsets.length →
      pos ≤ offsets.getD (getEndTrackGo offsets pos e0 k) 0) := by
  intro k
  induction k with
  | zero =>
    intro e0 hk
    simp only [getEndTrackGo]
    refine ⟨le_rfl, le_max_left _ _, ?_, ?_⟩
    · intro j h1 h2; omega
    · intro h; omega
  | succ k ih =>
    intro e0 hk
    by_cases hcond : e0 < offsets.length ∧ offsets.getD e0 0 < pos
    · have heq : getEndTrackGo offsets pos e0 (k + 1) = getEndTrackGo offsets pos (e0 + 1) k := by
        simp only [getEndTrackGo, if_pos hcond]
      obtain ⟨ih1, ih2, ih3, ih4⟩ := ih (e0 + 1) (by omega)
      rw [heq]
      refine ⟨by omega, by omega, ?_, ih4⟩
      intro j h1 h2
      rcases eq_or_lt_of_le h1 with he | hlt
      · rw [← he]; exact hcond.2
      · exact ih3 j (by omega) h2
    · have heq : getEndTrackGo offsets pos e0 (k + 1) = e0 := by
        simp only [getEndTrackGo, if_neg hcond]
      rw [heq]
      refine ⟨le_rfl, le_max_left _ _, ?_, ?_⟩
      · intro j h1 h2; omega
      · intro h
        rcases not_and_or.mp hcond with hc | hc
        · omega
        · exact not_lt.mp hc

theorem getTrackRange_fst_eq (s : FloatSide) (q bs : ℚ) :
    (s.getTrackRange q bs).1 =
      (if jsGet s.blockOffsets (binarySearch s.blockOffsets q) ≠ some q then
        binarySearch s.blockOffsets q - 1 else binarySearch s.blockOffsets q) := rfl

theorem getTrackRange_snd_eq (s : FloatSide) (q bs : ℚ) :
    (s.getTrackRange q bs).2 =
      getEndTrackGo s.blockOffsets (q + bs) ((s.getTrackRange q bs).1 + 1).toNat
        (s.blockOffsets.length - ((s.getTrackRange q bs).1 + 1).toNat) := rfl

/-- Under the invariant hypotheses, the start component of getTrackRange
is the (index of the) track containing `q`. -/
theorem getTrackRange_start_spec (s : FloatSide) (q bs : ℚ)
    (hne : s.blockOffsets ≠ []) (hs : sortedLt s.blockOffsets)
    (hq : s.blockOffsets.getD 0 0 ≤ q) :
    0 ≤ (s.getTrackRange q bs).1 ∧
    (s.getTrackRange q bs).1 < s.blockOffsets.length ∧
    s.blockOffsets.getD (s.getTrackRange q bs).1.toNat 0 ≤ q ∧
    ((s.getTrackRange q bs).1.toNat + 1 < s.blockOffsets.length →
      q < s.blockOffsets.getD ((s.getTrackRange q bs).1.toNat + 1) 0) := by
  obtain ⟨hb0, hb1, hb2, hb3⟩ := binarySearch_insertionPos s.blockOffsets q hne hs
  set a := s.blockOffsets with ha
  set s0 := binarySearch a q with hs0
  have hlen : 0 < a.length := List.length_pos.mpr hne
  rw [getTrackRange_fst_eq, ← hs0]
  by_cases hex : jsGet a s0 = some q
  · rw [if_neg (by simpa using hex)]
    have hs0lt : s0.toNat < a.length := by
      by_contra hcon
      rw [jsGet_eq_none a s0 (by omega)] at hex
      exact Option.noConfusion hex
    rw [jsGet_eq_some a s0 hb0 hs0lt] at hex
    have hval : a.getD s0.toNat 0 = q := by injection hex
    refine ⟨hb0, by omega, le_of_eq hval, ?_⟩
    intro hnext
    calc q = a.getD s0.toNat 0 := hval.symm
      _ < a.getD (s0.toNat + 1) 0 := sortedLt_getD_lt a hs _ _ (by omega) hnext
  · rw [if_pos (by simpa using hex)]
    rcases eq_or_lt_of_le hb1 with hful | hslt
    · have hs0nat : s0.toNat = a.length := by omega
      have h1 : (s0 - 1).toNat = a.length - 1 := by omega
      refine ⟨by omega, by omega, ?_, ?_⟩
      · rw [h1]
        exact le_of_lt (hb2 (a.length - 1) (by omega))
      · intro hh; omega
    · have hs0lt : s0.toNat < a.length := by omega
      rw [jsGet_eq_some a s0 hb0 hs0lt] at hex
      have hgt : q < a.getD s0.toNat 0 :=
        lt_of_le_of_ne (hb3 (by omega)) (fun hcon => hex (by rw [hcon]))
      have hpos : 1 ≤ s0 := by
        by_contra hcon
        have hz : s0 = 0 := by omega
        rw [hz] at hgt
        simp only [Int.toNat_zero] at hgt
        exact absurd (lt_of_le_of_lt hq hgt) (lt_irrefl _)
      have h1 : (s0 - 1).toNat = s0.toNat - 1 := by omega
      refine ⟨by omega, by omega, ?_, ?_⟩
      · rw [h1]
        exact le_of_lt (hb2 (s0.toNat - 1) (by omega))
      · intro hnext
        rw [h1, show s0.toNat - 1 + 1 = s0.toNat from by omega]
        exact hgt

theorem getD_set_self {α : Type} (l : List α) (i : Nat) (v d : α) (h : i < l.length) :
    (l.set i v).getD i d = v := by
  rw [getD_eq_getElem _ _ _ (by simpa using h)]
  exact List.getElem_set_self _

theorem getD_set_ne {α : Type} (l : List α) (i : Nat) (v d : α) (j : Nat) (h : i ≠ j) :
    (l.set i v).getD j d = l.getD j d := by
  rcases lt_or_ge j l.length with hj | hj
  · rw [getD_eq_getElem _ _ _ (by simpa using hj), getD_eq_getElem _ _ _ hj]
    exact List.getElem_set_ne h _
  · rw [getD_eq_default _ _ _ (by simpa using hj), getD_eq_default _ _ _ hj]

/-! ### splitTrack characterization -/

theorem splitTrack_lengths (s : FloatSide) (i : Nat) (b : ℚ) :
    (s.splitTrack i b).blockOffsets.length = s.blockOffsets.length + 1 ∧
    (s.splitTrack i b).inlineSizes.length = s.inlineSizes.length + 1 ∧
    (s.splitTrack i b).inlineOffsets.length = s.inlineOffsets.length + 1 ∧
    (s.splitTrack i b).floatCounts.length = s.floatCounts.length + 1 :=
  ⟨length_jsSpliceIns _ _ _, length_jsSpliceIns _ _ _, length_jsSpliceIns _ _ _,
    length_jsSpliceIns _ _ _⟩

theorem splitTrack_shelf (s : FloatSide) (i : Nat) (b : ℚ) :
    (s.splitTrack i b).shelfBlockOffset = s.shelfBlockOffset ∧
    (s.splitTrack i b).shelfTrackIndex = s.shelfTrackIndex ∧
    (s.splitTrack i b).itemsCount = s.itemsCount :=
  ⟨rfl, rfl, rfl⟩

theorem splitTrack_blockOffsets_getD (s : FloatSide) (i : Nat) (b : ℚ)
    (hi : i < s.blockOffsets.length) (j : Nat) :
    (s.splitTrack i b).blockOffsets.getD j 0 =
      (if j ≤ i then s.blockOffsets.getD j 0
       else if j = i + 1 then b else s.blockOffsets.getD (j - 1) 0) := by
  show (jsSpliceIns s.blockOffsets (i + 1) b).getD j 0 = _
  rcases lt_trichotomy j (i + 1) with hj | hj | hj
  · rw [getD_jsSpliceIns_lt _ _ _ _ (by omega) _ hj, if_pos (by omega)]
  · rw [hj, getD_jsSpliceIns_self _ _ _ _ (by omega), if_neg (by omega), if_pos rfl]
  · rw [getD_jsSpliceIns_gt _ _ _ _ (by omega) _ hj, if_neg (by omega), if_neg (by omega)]

/-- Common payload shift for the three per-track arrays of splitTrack
(each is spliced at `i` with a duplicate of entry `i`). -/
theorem getD_payloadSplice {α : Type} (l : List α) (i : Nat) (d : α)
    (hi : i < l.length) (j : Nat) :
    (jsSpliceIns l i (l.getD i d)).getD j d =
      (if j ≤ i then l.getD j d else l.getD (j - 1) d) := by
  rcases lt_trichotomy j i with hj | hj | hj
  · rw [getD_jsSpliceIns_lt _ _ _ _ (by omega) _ hj, if_pos (by omega)]
  · rw [hj, getD_jsSpliceIns_self _ _ _ _ (by omega), if_pos (by omega)]
  · rw [getD_jsSpliceIns_gt _ _ _ _ (by omega) _ hj, if_neg (by omega)]

theorem splitTrack_inlineSizes_getD (s : FloatSide) (i : Nat) (b : ℚ)
    (hi : i < s.inlineSizes.length) (j : Nat) :
    (s.splitTrack i b).inlineSizes.getD j 0 =
      (if j ≤ i then s.inlineSizes.getD j 0 else s.inlineSizes.getD (j - 1) 0) :=
  getD_payloadSplice s.inlineSizes i 0 hi j

theorem splitTrack_inlineOffsets_getD (s : FloatSide) (i : Nat) (b : ℚ)
    (hi : i < s.inlineOffsets.length) (j : Nat) :
    (s.splitTrack i b).inlineOffsets.getD j 0 =
      (if j ≤ i then s.inlineOffsets.getD j 0 else s.inlineOffsets.getD (j - 1) 0) :=
  getD_payloadSplice s.inlineOffsets i 0 hi j

theorem splitTrack_floatCounts_getD (s : FloatSide) (i : Nat) (b : ℚ)
    (hi : i < s.floatCounts.length) (j : Nat) :
    (s.splitTrack i b).floatCounts.getD j 0 =
      (if j ≤ i then s.floatCounts.getD j 0 else s.floatCounts.getD (j - 1) 0) :=
  getD_payloadSplice s.floatCounts i 0 hi j

/-- splitTrack at a boundary strictly inside track `i` keeps the
boundaries strictly increasing. -/
theorem splitTrack_sorted (s : FloatSide) (i : Nat) (b : ℚ)
    (hi : i < s.blockOffsets.length) (hs : sortedLt s.blockOffsets)
    (h1 : s.blockOffsets.getD i 0 < b)
    (h2 : i + 1 < s.blockOffsets.length → b < s.blockOffsets.getD (i + 1) 0) :
    sortedLt (s.splitTrack i b).blockOffsets := by
  have hlen := (splitTrack_lengths s i b).1
  apply sortedLt_of_succ
  intro j hj
  rw [hlen] at hj
  rw [splitTrack_blockOffsets_getD s i b hi j, splitTrack_blockOffsets_getD s i b hi (j + 1)]
  rcases lt_trichotomy (j + 1) (i + 1) with hc | hc | hc
  · rw [if_pos (by omega), if_pos (by omega)]
    exact sortedLt_getD_lt _ hs _ _ (by omega) (by omega)
  · rw [if_pos (by omega), if_neg (by omega), if_pos (by omega)]
    have : j = i := by omega
    rw [this]
    exact h1
  · rw [if_neg (by omega)]
    rcases eq_or_lt_of_le (show i + 1 ≤ j by omega) with he | hlt
    · rw [if_pos he.symm, if_neg (by omega), if_neg (by omega)]
      have : j + 1 - 1 = i + 1 := by omega
      rw [this]
      exact h2 (by omega)
    · rw [if_neg (by omega), if_neg (by omega), if_neg (by omega)]
      exact sortedLt_getD_lt _ hs _ _ (by omega) (by omega)

/-! ### Invariant preservation: boxStart, dropShelf, splitIfShelfDropped -/

theorem sideInv_boxStart (s : FloatSide) (b : ℚ) (h : SideInv s)
    (hb : s.blockOffsets.getD 0 0 ≤ b) : SideInv (s.boxStart b) := by
  obtain ⟨hlen, hne, hsort, hti, hsh1, hsh2, hlast⟩ := h
  obtain ⟨ht0, ht1, ht2, ht3⟩ := getTrackRange_start_spec s b 0 hne hsort hb
  exact ⟨hlen, hne, hsort, by simpa [FloatSide.boxStart] using (by omega : ((s.getTrackRange b 0).1).toNat < s.blockOffsets.length),
    by simpa [FloatSide.boxStart] using ht2, by simpa [FloatSide.boxStart] using ht3, hlast⟩

theorem sideInv_dropShelf (s : FloatSide) (b : ℚ) (h : SideInv s) :
    SideInv (s.dropShelf b) := by
  by_cases hc : s.shelfBlockOffset < b
  · have hb : s.blockOffsets.getD 0 0 ≤ b := by
      obtain ⟨hlen, hne, hsort, hti, hsh1, hsh2, hlast⟩ := h
      have h0 : s.blockOffsets.getD 0 0 ≤ s.blockOffsets.getD s.shelfTrackIndex 0 := by
        rcases Nat.eq_zero_or_pos s.shelfTrackIndex with hz | hp
        · rw [hz]
        · exact le_of_lt (sortedLt_getD_lt _ hsort _ _ hp hti)
      exact le_trans (le_trans h0 hsh1) (le_of_lt hc)
    have heq : s.dropShelf b = s.boxStart b := by
      simp [FloatSide.dropShelf, FloatSide.boxStart, if_pos hc]
    rw [heq]
    exact sideInv_boxStart s b h hb
  · have heq : s.dropShelf b = s := by simp [FloatSide.dropShelf, if_neg hc]
    rw [heq]
    exact h

theorem dropShelf_shelf_mono (s : FloatSide) (b : ℚ) :
    s.shelfBlockOffset ≤ (s.dropShelf b).shelfBlockOffset := by
  unfold FloatSide.dropShelf
  split
  · next hc => exact le_of_lt hc
  · exact le_rfl

theorem dropShelf_blockOffsets (s : FloatSide) (b : ℚ) :
    (s.dropShelf b).blockOffsets = s.blockOffsets ∧
    (s.dropShelf b).inlineSizes = s.inlineSizes ∧
    (s.dropShelf b).inlineOffsets = s.inlineOffsets ∧
    (s.dropShelf b).floatCounts = s.floatCounts ∧
    (s.dropShelf b).itemsCount = s.itemsCount := by
  unfold FloatSide.dropShelf
  split <;> exact ⟨rfl, rfl, rfl, rfl, rfl⟩

/-- After splitIfShelfDropped, the invariant still holds, the shelf value
is unchanged and sits exactly on the boundary of its track, and the
last track is still unoccupied. -/
theorem splitIfShelfDropped_spec (s : FloatSide) (h : SideInv s) :
    SideInv s.splitIfShelfDropped ∧
    s.splitIfShelfDropped.shelfBlockOffset = s.shelfBlockOffset ∧
    s.splitIfShelfDropped.blockOffsets.getD s.splitIfShelfDropped.shelfTrackIndex 0 =
      s.shelfBlockOffset ∧
    s.splitIfShelfDropped.itemsCount = s.itemsCount ∧
    s.shelfTrackIndex ≤ s.splitIfShelfDropped.shelfTrackIndex := by
  obtain ⟨⟨hl1, hl2, hl3⟩, hne, hsort, hti, hsh1, hsh2, hlast⟩ := h
  have hlenpos : 0 < s.blockOffsets.length := List.length_pos.mpr hne
  by_cases hc : jsGet s.blockOffsets (s.shelfTrackIndex : Int) = some s.shelfBlockOffset
  · have heq : s.splitIfShelfDropped = s := by
      unfold FloatSide.splitIfShelfDropped
      rw [if_neg (by simpa using hc)]
    rw [jsGet_eq_some _ _ (by omega) (by simpa using hti)] at hc
    have hcv : s.blockOffsets.getD ((s.shelfTrackIndex : Int)).toNat 0 = s.shelfBlockOffset := by
      injection hc
    rw [Int.toNat_natCast] at hcv
    rw [heq]
    exact ⟨⟨⟨hl1, hl2, hl3⟩, hne, hsort, hti, hsh1, hsh2, hlast⟩, rfl, hcv, rfl, le_rfl⟩
  · have heq : s.splitIfShelfDropped =
        { s.splitTrack s.shelfTrackIndex s.shelfBlockOffset with
          shelfTrackIndex := s.shelfTrackIndex + 1 } := by
      unfold FloatSide.splitIfShelfDropped
      rw [if_pos (by simpa using hc)]
    rw [jsGet_eq_some _ _ (by omega) (by simpa using hti)] at hc
    have hcv : s.blockOffsets.getD s.shelfTrackIndex 0 ≠ s.shelfBlockOffset := by
      intro hx
      apply hc
      rw [Int.toNat_natCast, hx]
    have hstrict : s.blockOffsets.getD s.shelfTrackIndex 0 < s.shelfBlockOffset :=
      lt_of_le_of_ne hsh1 hcv
    have hsorted' := splitTrack_sorted s s.shelfTrackIndex s.shelfBlockOffset hti hsort hstrict hsh2
    have hlens := splitTrack_lengths s s.shelfTrackIndex s.shelfBlockOffset
    have hboff := splitTrack_blockOffsets_getD s s.shelfTrackIndex s.shelfBlockOffset hti
    have hcnts := splitTrack_floatCounts_getD s s.shelfTrackIndex s.shelfBlockOffset
      (by omega)
    rw [heq]
    refine ⟨⟨⟨?_, ?_, ?_⟩, ?_, hsorted', ?_, ?_, ?_, ?_⟩, rfl, ?_, rfl, by show s.shelfTrackIndex ≤ s.shelfTrackIndex + 1; omega⟩
    · show (s.splitTrack s.shelfTrackIndex s.shelfBlockOffset).inlineSizes.length =
        (s.splitTrack s.shelfTrackIndex s.shelfBlockOffset).blockOffsets.length
      omega
    · show (s.splitTrack s.shelfTrackIndex s.shelfBlockOffset).inlineOffsets.length =
        (s.splitTrack s.shelfTrackIndex s.shelfBlockOffset).blockOffsets.length
      omega
    · show (s.splitTrack s.shelfTrackIndex s.shelfBlockOffset).floatCounts.length =
        (s.splitTrack s.shelfTrackIndex s.shelfBlockOffset).blockOffsets.length
      omega
    · show (s.splitTrack s.shelfTrackIndex s.shelfBlockOffset).blockOffsets ≠ []
      intro hx
      have := congrArg List.length hx
      simp only [List.length_nil] at this
      omega
    · show s.shelfTrackIndex + 1 < (s.splitTrack s.shelfTrackIndex s.shelfBlockOffset).blockOffsets.length
      omega
    · show (s.splitTrack s.shelfTrackIndex s.shelfBlockOffset).blockOffsets.getD
        (s.shelfTrackIndex + 1) 0 ≤ s.shelfBlockOffset
      rw [hboff (s.shelfTrackIndex + 1), if_neg (by omega), if_pos rfl]
    · intro hnext
      show s.shelfBlockOffset < (s.splitTrack s.shelfTrackIndex s.shelfBlockOffset).blockOffsets.getD
        (s.shelfTrackIndex + 1 + 1) 0
      have hn2 : s.shelfTrackIndex + 1 < s.blockOffsets.length := by
        have hx : s.shelfTrackIndex + 1 + 1 <
            (s.splitTrack s.shelfTrackIndex s.shelfBlockOffset).blockOffsets.length := hnext
        omega
      rw [hboff (s.shelfTrackIndex + 2), if_neg (by omega), if_neg (by omega)]
      simpa using hsh2 hn2
    · show (s.splitTrack s.shelfTrackIndex s.shelfBlockOffset).floatCounts.getD
        ((s.splitTrack s.shelfTrackIndex s.shelfBlockOffset).floatCounts.length - 1) 0 = 0
      rw [hlens.2.2.2, hcnts (s.floatCounts.length + 1 - 1), if_neg (by omega)]
      simpa using hlast
    · show (s.splitTrack s.shelfTrackIndex s.shelfBlockOffset).blockOffsets.getD
        (s.shelfTrackIndex + 1) 0 = s.shelfBlockOffset
      rw [hboff (s.shelfTrackIndex + 1), if_neg (by omega), if_pos rfl]

/-! ### applyTracks characterization -/

theorem applyTracksStep_unmoved (c m e w : ℚ) (st : FloatSide) (t : Nat) :
    (applyTracksStep c m e w st t).blockOffsets = st.blockOffsets ∧
    (applyTracksStep c m e w st t).shelfBlockOffset = st.shelfBlockOffset ∧
    (applyTracksStep c m e w st t).shelfTrackIndex = st.shelfTrackIndex ∧
    (applyTracksStep c m e w st t).itemsCount = st.itemsCount ∧
    (applyTracksStep c m e w st t).inlineSizes.length = st.inlineSizes.length ∧
    (applyTracksStep c m e w st t).inlineOffsets.length = st.inlineOffsets.length ∧
    (applyTracksStep c m e w st t).floatCounts.length = st.floatCounts.length := by
  unfold applyTracksStep
  split <;> exact ⟨rfl, rfl, rfl, rfl, by simp, by simp, by simp⟩

theorem applyTracksStep_getD_ne (c m e w : ℚ) (st : FloatSide) (t j : Nat) (hj : t ≠ j) :
    (applyTracksStep c m e w st t).inlineSizes.getD j 0 = st.inlineSizes.getD j 0 ∧
    (applyTracksStep c m e w st t).inlineOffsets.getD j 0 = st.inlineOffsets.getD j 0 ∧
    (applyTracksStep c m e w st t).floatCounts.getD j 0 = st.floatCounts.getD j 0 := by
  unfold applyTracksStep
  split <;>
    exact ⟨getD_set_ne _ _ _ _ _ hj, by first | exact getD_set_ne _ _ _ _ _ hj | rfl,
      getD_set_ne _ _ _ _ _ hj⟩

theorem applyTracksStep_getD_self (c m e w : ℚ) (st : FloatSide) (t : Nat)
    (h1 : t < st.inlineSizes.length) (h2 : t < st.inlineOffsets.length)
    (h3 : t < st.floatCounts.length) :
    (applyTracksStep c m e w st t).floatCounts.getD t 0 = st.floatCounts.getD t 0 + 1 ∧
    (st.floatCounts.getD t 0 = 0 →
      (applyTracksStep c m e w st t).inlineSizes.getD t 0 = m + w + e ∧
      (applyTracksStep c m e w st t).inlineOffsets.getD t 0 = -c) ∧
    (st.floatCounts.getD t 0 ≠ 0 →
      (applyTracksStep c m e w st t).inlineSizes.getD t 0 =
        st.inlineOffsets.getD t 0 + c + m + w + e ∧
      (applyTracksStep c m e w st t).inlineOffsets.getD t 0 = st.inlineOffsets.getD t 0) := by
  unfold applyTracksStep
  by_cases hz : st.floatCounts.getD t 0 = 0
  · rw [if_pos hz]
    refine ⟨getD_set_self _ _ _ _ h3, ?_, ?_⟩
    · intro _
      exact ⟨getD_set_self _ _ _ _ h1, getD_set_self _ _ _ _ h2⟩
    · intro hx
      exact absurd hz hx
  · rw [if_neg hz]
    refine ⟨getD_set_self _ _ _ _ h3, ?_, ?_⟩
    · intro hx
      exact absurd hx hz
    · intro _
      exact ⟨getD_set_self _ _ _ _ h1, rfl⟩

theorem applyTracksGo_unmoved (c m e w : ℚ) :
    ∀ (n a : Nat) (st : FloatSide),
    ((List.range' a n).foldl (applyTracksStep c m e w) st).blockOffsets = st.blockOffsets ∧
    ((List.range' a n).foldl (applyTracksStep c m e w) st).shelfBlockOffset = st.shelfBlockOffset ∧
    ((List.range' a n).foldl (applyTracksStep c m e w) st).shelfTrackIndex = st.shelfTrackIndex ∧
    ((List.range' a n).foldl (applyTracksStep c m e w) st).itemsCount = st.itemsCount ∧
    ((List.range' a n).foldl (applyTracksStep c m e w) st).inlineSizes.length = st.inlineSizes.length ∧
    ((List.range' a n).foldl (applyTracksStep c m e w) st).inlineOffsets.length = st.inlineOffsets.length ∧
    ((List.range' a n).foldl (applyTracksStep c m e w) st).floatCounts.length = st.floatCounts.length := by
  intro n
  induction n with
  | zero => intro a st; exact ⟨rfl, rfl, rfl, rfl, rfl, rfl, rfl⟩
  | succ n ih =>
    intro a st
    rw [List.range'_succ, List.foldl_cons]
    obtain ⟨i1, i2, i3, i4, i5, i6, i7⟩ := ih (a + 1) (applyTracksStep c m e w st a)
    obtain ⟨u1, u2, u3, u4, u5, u6, u7⟩ := applyTracksStep_unmoved c m e w st a
    exact ⟨i1.trans u1, i2.trans u2, i3.trans u3, i4.trans u4, i5.trans u5, i6.trans u6,
      i7.trans u7⟩

theorem applyTracksGo_getD_outside (c m e w : ℚ) :
    ∀ (n a : Nat) (st : FloatSide) (j : Nat), (j < a ∨ a + n ≤ j) →
    ((List.range' a n).foldl (applyTracksStep c m e w) st).inlineSizes.getD j 0 =
      st.inlineSizes.getD j 0 ∧
    ((List.range' a n).foldl (applyTracksStep c m e w) st).inlineOffsets.getD j 0 =
      st.inlineOffsets.getD j 0 ∧
    ((List.range' a n).foldl (applyTracksStep c m e w) st).floatCounts.getD j 0 =
      st.floatCounts.getD j 0 := by
  intro n
  induction n with
  | zero => intro a st j hj; exact ⟨rfl, rfl, rfl⟩
  | succ n ih =>
    intro a st j hj
    rw [List.range'_succ, List.foldl_cons]
    obtain ⟨i1, i2, i3⟩ := ih (a + 1) (applyTracksStep c m e w st a) j (by omega)
    obtain ⟨u1, u2, u3⟩ := applyTracksStep_getD_ne c m e w st a j (by omega)
    exact ⟨i1.trans u1, i2.trans u2, i3.trans u3⟩

theorem applyTracksGo_getD_inside (c m e w : ℚ) :
    ∀ (n a : Nat) (st : FloatSide) (j : Nat), a ≤ j → j < a + n →
    j < st.inlineSizes.length → j < st.inlineOffsets.length → j < st.floatCounts.length →
    ((List.range' a n).foldl (applyTracksStep c m e w) st).floatCounts.getD j 0 =
      st.floatCounts.getD j 0 + 1 ∧
    (st.floatCounts.getD j 0 = 0 →
      ((List.range' a n).foldl (applyTracksStep c m e w) st).inlineSizes.getD j 0 = m + w + e ∧
      ((List.range' a n).foldl (applyTracksStep c m e w) st).inlineOffsets.getD j 0 = -c) ∧
    (st.floatCounts.getD j 0 ≠ 0 →
      ((List.range' a n).foldl (applyTracksStep c m e w) st).inlineSizes.getD j 0 =
        st.inlineOffsets.getD j 0 + c + m + w + e ∧
      ((List.range' a n).foldl (applyTracksStep c m e w) st).inlineOffsets.getD j 0 =
        st.inlineOffsets.getD j 0) := by
  intro n
  induction n with
  | zero => intro a st j h1 h2; omega
  | succ n ih =>
    intro a st j h1 h2 hl1 hl2 hl3
    rw [List.range'_succ, List.foldl_cons]
    rcases eq_or_lt_of_le h1 with he | hlt
    · subst he
      obtain ⟨o1, o2, o3⟩ := applyTracksGo_getD_outside c m e w n (a + 1)
        (applyTracksStep c m e w st a) a (by omega)
      obtain ⟨s1, s2, s3⟩ := applyTracksStep_getD_self c m e w st a hl1 hl2 hl3
      refine ⟨o3.trans s1, ?_, ?_⟩
      · intro hz
        obtain ⟨a1, a2⟩ := s2 hz
        exact ⟨o1.trans a1, o2.trans a2⟩
      · intro hz
        obtain ⟨a1, a2⟩ := s3 hz
        exact ⟨o1.trans a1, o2.trans a2⟩
    · obtain ⟨u1, u2, u3⟩ := applyTracksStep_getD_ne c m e w st a j (by omega)
      obtain ⟨m1, m2, m3, m4, m5, m6, m7⟩ := applyTracksStep_unmoved c m e w st a
      obtain ⟨i1, i2, i3⟩ := ih (a + 1) (applyTracksStep c m e w st a) j (by omega) (by omega)
        (by omega) (by omega) (by omega)
      rw [u3] at i1
      refine ⟨i1, ?_, ?_⟩
      · intro hz
        exact i2 (by rw [u3]; exact hz)
      · intro hz
        obtain ⟨a1, a2⟩ := i3 (by rw [u3]; exact hz)
        rw [u2] at a1 a2
        exact ⟨a1, a2⟩

/-! ### Decomposition of FloatSide.placeFloat for the invariant proofs -/

/-- The side-dependent quantities of FloatSide.placeFloat. -/
def cbOffsetOf (box : FloatBox) (vacancy : IfcVacancy) : ℚ :=
  if box.floatStyle = FloatValue.left then vacancy.leftOffset else vacancy.rightOffset

def marginOffsetOf (box : FloatBox) : ℚ :=
  if box.floatStyle = FloatValue.left then box.getMarginsAutoIsZero.lineLeft
  else box.getMarginsAutoIsZero.lineRight

def marginEndOf (box : FloatBox) : ℚ :=
  if box.floatStyle = FloatValue.left then box.getMarginsAutoIsZero.lineRight
  else box.getMarginsAutoIsZero.lineLeft

def inlinePosOf (box : FloatBox) (vacancy : IfcVacancy) (cbLineLeft cbLineRight : ℚ) : ℚ :=
  if box.floatStyle = FloatValue.left then
    cbOffsetOf box vacancy - cbLineLeft + marginOffsetOf box
  else
    cbOffsetOf box vacancy - cbLineRight + box.cbInlineSize - marginOffsetOf box - box.borderWidth

/-- The state after the shelf split and the end-boundary split of
FloatSide.placeFloat, together with the update range [start, stop). -/
def placeFloatMid (s : FloatSide) (box : FloatBox) : FloatSide × Nat × Nat :=
  let s1 := s.splitIfShelfDropped
  let startTrack := s1.shelfTrackIndex
  let margins := box.getMarginsAutoIsZero
  let blockSize := box.borderHeight + margins.blockStart + margins.blockEnd
  let blockEndOffset := s1.shelfBlockOffset + blockSize
  if 0 < blockSize then
    let endTrack := s1.getEndTrack startTrack s1.shelfBlockOffset blockSize
    if jsGet s1.blockOffsets (endTrack : Int) ≠ some blockEndOffset then
      (s1.splitTrack (endTrack - 1) blockEndOffset, startTrack, endTrack)
    else (s1, startTrack, endTrack)
  else (s1, startTrack, startTrack)

/-- The success result of FloatSide.placeFloat in terms of the
decomposition. -/
theorem placeFloat_eq_ok (s : FloatSide) (box : FloatBox) (vacancy : IfcVacancy)
    (cbL cbR : ℚ) (hfl : box.floatStyle ≠ FloatValue.none)
    (hvb : vacancy.blockOffset = s.shelfBlockOffset)
    (hcb : box.floatStyle = FloatValue.left ∨ box.hasContainingBlock = true) :
    s.placeFloat box vacancy cbL cbR =
      Except.ok
        (let s3 := (placeFloatMid s box).1.applyTracks (cbOffsetOf box vacancy)
          (marginOffsetOf box) (marginEndOf box) box.borderWidth
          (placeFloatMid s box).2.1 (placeFloatMid s box).2.2
         ({ s3 with itemsCount := s3.itemsCount + 1 },
          inlinePosOf box vacancy cbL cbR)) := by
  simp only [FloatSide.placeFloat, placeFloatMid, cbOffsetOf, marginOffsetOf, marginEndOf,
    inlinePosOf]
  rw [if_neg hfl, if_neg (show ¬ vacancy.blockOffset ≠ s.shelfBlockOffset from by simp [hvb])]
  have hBS : (0 < box.borderHeight + box.getMarginsAutoIsZero.blockStart +
      box.getMarginsAutoIsZero.blockEnd) ∨
      ¬ (0 < box.borderHeight + box.getMarginsAutoIsZero.blockStart +
      box.getMarginsAutoIsZero.blockEnd) := em _
  rcases hBS with hbs | hbs
  · have hJ : jsGet s.splitIfShelfDropped.blockOffsets
        ((s.splitIfShelfDropped.getEndTrack s.splitIfShelfDropped.shelfTrackIndex
          s.splitIfShelfDropped.shelfBlockOffset
          (box.borderHeight + box.getMarginsAutoIsZero.blockStart +
            box.getMarginsAutoIsZero.blockEnd) : Int)) =
        some (s.splitIfShelfDropped.shelfBlockOffset +
          (box.borderHeight + box.getMarginsAutoIsZero.blockStart +
            box.getMarginsAutoIsZero.blockEnd)) ∨ ¬ _ := em _
    rw [if_pos hbs, if_pos hbs]
    rcases hJ with hjs | hjs
    · have hne : ¬ (jsGet s.splitIfShelfDropped.blockOffsets
          ((s.splitIfShelfDropped.getEndTrack s.splitIfShelfDropped.shelfTrackIndex
            s.splitIfShelfDropped.shelfBlockOffset
            (box.borderHeight + box.getMarginsAutoIsZero.blockStart +
              box.getMarginsAutoIsZero.blockEnd) : Int)) ≠
          some (s.splitIfShelfDropped.shelfBlockOffset +
            (box.borderHeight + box.getMarginsAutoIsZero.blockStart +
              box.getMarginsAutoIsZero.blockEnd))) := by simpa using hjs
      rw [if_neg hne, if_neg hne]
      rcases eq_or_ne box.floatStyle FloatValue.left with hl | hl
      · rw [if_pos hl]
        simp [hl]
      · rw [if_neg hl]
        rcases hcb with hc | hc
        · exact absurd hc hl
        · rw [if_neg (show ¬ ¬ box.hasContainingBlock = true from by simp [hc])]
          simp only [if_neg hl]
    · rw [if_pos hjs, if_pos hjs]
      rcases eq_or_ne box.floatStyle FloatValue.left with hl | hl
      · rw [if_pos hl]
        simp [hl]
      · rw [if_neg hl]
        rcases hcb with hc | hc
        · exact absurd hc hl
        · rw [if_neg (show ¬ ¬ box.hasContainingBlock = true from by simp [hc])]
          simp only [if_neg hl]
  · rw [if_neg hbs, if_neg hbs]
    rcases eq_or_ne box.floatStyle FloatValue.left with hl | hl
    · rw [if_pos hl]
      simp [hl]
    · rw [if_neg hl]
      rcases hcb with hc | hc
      · exact absurd hc hl
      · rw [if_neg (show ¬ ¬ box.hasContainingBlock = true from by simp [hc])]
        simp only [if_neg hl]

/-- The block size a float occupies: border-area height plus block
margins (auto margins read as 0), as computed in FloatSide.placeFloat. -/
def floatBlockSize (box : FloatBox) : ℚ :=
  box.borderHeight + box.getMarginsAutoIsZero.blockStart + box.getMarginsAutoIsZero.blockEnd

/-- The end track FloatSide.placeFloat computes after splitIfShelfDropped. -/
def endTrackOf (s : FloatSide) (box : FloatBox) : Nat :=
  s.splitIfShelfDropped.getEndTrack s.splitIfShelfDropped.shelfTrackIndex
    s.splitIfShelfDropped.shelfBlockOffset (floatBlockSize box)

theorem splitIfShelfDropped_unmoved (s : FloatSide) :
    s.splitIfShelfDropped.shelfBlockOffset = s.shelfBlockOffset ∧
    s.splitIfShelfDropped.itemsCount = s.itemsCount := by
  unfold FloatSide.splitIfShelfDropped
  split <;> exact ⟨rfl, rfl⟩

/-- Bounds and boundary comparisons of getEndTrack. -/
theorem getEndTrack_facts (s1 : FloatSide) (q bs : ℚ) (start : Nat)
    (hstart : start < s1.blockOffsets.length) :
    start + 1 ≤ s1.getEndTrack start q bs ∧
    s1.getEndTrack start q bs ≤ s1.blockOffsets.length ∧
    (∀ j, start + 1 ≤ j → j < s1.getEndTrack start q bs →
      s1.blockOffsets.getD j 0 < q + bs) ∧
    (s1.getEndTrack start q bs < s1.blockOffsets.length →
      q + bs ≤ s1.blockOffsets.getD (s1.getEndTrack start q bs) 0) := by
  obtain ⟨g1, g2, g3, g4⟩ := getEndTrackGo_spec s1.blockOffsets (q + bs)
    (s1.blockOffsets.length - (start + 1)) (start + 1) le_rfl
  have hE : s1.getEndTrack start q bs =
      getEndTrackGo s1.blockOffsets (q + bs) (start + 1)
        (s1.blockOffsets.length - (start + 1)) := rfl
  rw [hE]
  exact ⟨g1, by omega, g3, g4⟩

/-- The end-boundary splitTrack of placeFloat preserves the invariant,
when the end boundary is missing. -/
theorem sideInv_endSplit (s1 : FloatSide) (bs : ℚ) (h1 : SideInv s1)
    (hbd : s1.blockOffsets.getD s1.shelfTrackIndex 0 = s1.shelfBlockOffset)
    (hbs : 0 < bs)
    (hmiss : jsGet s1.blockOffsets
        ((s1.getEndTrack s1.shelfTrackIndex s1.shelfBlockOffset bs : Nat) : Int) ≠
      some (s1.shelfBlockOffset + bs)) :
    SideInv (s1.splitTrack
      (s1.getEndTrack s1.shelfTrackIndex s1.shelfBlockOffset bs - 1)
      (s1.shelfBlockOffset + bs)) := by
  obtain ⟨⟨hl1, hl2, hl3⟩, hne1, hsort1, hti1, hs11, hs12, hlast1⟩ := h1
  obtain ⟨g1, g2, g3, g4⟩ :=
    getEndTrack_facts s1 s1.shelfBlockOffset bs s1.shelfTrackIndex hti1
  set e := s1.getEndTrack s1.shelfTrackIndex s1.shelfBlockOffset bs with hE
  have hi : e - 1 < s1.blockOffsets.length := by omega
  have hlow : s1.blockOffsets.getD (e - 1) 0 < s1.shelfBlockOffset + bs := by
    rcases eq_or_lt_of_le g1 with heq | hlt
    · rw [show e - 1 = s1.shelfTrackIndex from by omega, hbd]
      linarith
    · exact g3 (e - 1) (by omega) (by omega)
  have hhigh : e - 1 + 1 < s1.blockOffsets.length →
      s1.shelfBlockOffset + bs < s1.blockOffsets.getD (e - 1 + 1) 0 := by
    intro hlt0
    have he1 : e - 1 + 1 = e := by omega
    rw [he1] at hlt0 ⊢
    have hle := g4 hlt0
    rcases eq_or_lt_of_le hle with heq2 | hstrict
    · exact absurd (by
        have hj := jsGet_eq_some s1.blockOffsets (e : Int) (by omega)
          (by rw [Int.toNat_natCast]; exact hlt0)
        rw [Int.toNat_natCast] at hj
        rw [hj, ← heq2]) hmiss
    · exact hstrict
  have hsort2 := splitTrack_sorted s1 (e - 1) (s1.shelfBlockOffset + bs) hi hsort1 hlow hhigh
  obtain ⟨len1, len2, len3, len4⟩ := splitTrack_lengths s1 (e - 1) (s1.shelfBlockOffset + bs)
  have hboff := splitTrack_blockOffsets_getD s1 (e - 1) (s1.shelfBlockOffset + bs) hi
  have hcnts := splitTrack_floatCounts_getD s1 (e - 1) (s1.shelfBlockOffset + bs) (by omega)
  refine ⟨⟨by omega, by omega, by omega⟩, ?_, hsort2, ?_, ?_, ?_, ?_⟩
  · intro hx
    have := congrArg List.length hx
    simp only [List.length_nil] at this
    omega
  · show (s1.splitTrack (e - 1) (s1.shelfBlockOffset + bs)).shelfTrackIndex <
      (s1.splitTrack (e - 1) (s1.shelfBlockOffset + bs)).blockOffsets.length
    have hsi : (s1.splitTrack (e - 1) (s1.shelfBlockOffset + bs)).shelfTrackIndex =
      s1.shelfTrackIndex := rfl
    omega
  · show (s1.splitTrack (e - 1) (s1.shelfBlockOffset + bs)).blockOffsets.getD
      s1.shelfTrackIndex 0 ≤ s1.shelfBlockOffset
    rw [hboff s1.shelfTrackIndex, if_pos (by omega)]
    exact le_of_eq hbd
  · intro hnext
    show s1.shelfBlockOffset <
      (s1.splitTrack (e - 1) (s1.shelfBlockOffset + bs)).blockOffsets.getD
        (s1.shelfTrackIndex + 1) 0
    rcases lt_or_le (s1.shelfTrackIndex + 1) e with hc | hc
    · rw [hboff (s1.shelfTrackIndex + 1), if_pos (by omega)]
      exact hs12 (by omega)
    · have he2 : s1.shelfTrackIndex + 1 = e := by omega
      rw [hboff (s1.shelfTrackIndex + 1), if_neg (by omega), if_pos (by omega)]
      linarith
  · show (s1.splitTrack (e - 1) (s1.shelfBlockOffset + bs)).floatCounts.getD
      ((s1.splitTrack (e - 1) (s1.shelfBlockOffset + bs)).floatCounts.length - 1) 0 = 0
    rw [len4, hcnts (s1.floatCounts.length + 1 - 1), if_neg (by omega),
      show s1.floatCounts.length + 1 - 1 - 1 = s1.floatCounts.length - 1 from by omega]
    exact hlast1

theorem placeFloatMid_pos_miss (s : FloatSide) (box : FloatBox)
    (hbs : 0 < floatBlockSize box)
    (hmiss : jsGet s.splitIfShelfDropped.blockOffsets ((endTrackOf s box : Nat) : Int) ≠
      some (s.splitIfShelfDropped.shelfBlockOffset + floatBlockSize box)) :
    placeFloatMid s box =
      (s.splitIfShelfDropped.splitTrack (endTrackOf s box - 1)
        (s.splitIfShelfDropped.shelfBlockOffset + floatBlockSize box),
       s.splitIfShelfDropped.shelfTrackIndex, endTrackOf s box) := by
  simp only [floatBlockSize] at hbs
  simp only [endTrackOf, floatBlockSize] at hmiss
  simp only [placeFloatMid, endTrackOf, floatBlockSize]
  rw [if_pos hbs, if_pos hmiss]

theorem placeFloatMid_pos_hit (s : FloatSide) (box : FloatBox)
    (hbs : 0 < floatBlockSize box)
    (hhit : jsGet s.splitIfShelfDropped.blockOffsets ((endTrackOf s box : Nat) : Int) =
      some (s.splitIfShelfDropped.shelfBlockOffset + floatBlockSize box)) :
    placeFloatMid s box =
      (s.splitIfShelfDropped, s.splitIfShelfDropped.shelfTrackIndex, endTrackOf s box) := by
  simp only [floatBlockSize] at hbs
  simp only [endTrackOf, floatBlockSize] at hhit
  simp only [placeFloatMid, endTrackOf, floatBlockSize]
  rw [if_pos hbs, if_neg (by simpa using hhit)]

theorem placeFloatMid_nonpos (s : FloatSide) (box : FloatBox)
    (hbs : ¬ 0 < floatBlockSize box) :
    placeFloatMid s box =
      (s.splitIfShelfDropped, s.splitIfShelfDropped.shelfTrackIndex,
       s.splitIfShelfDropped.shelfTrackIndex) := by
  simp only [floatBlockSize] at hbs
  simp only [placeFloatMid]
  rw [if_neg hbs]

/-- placeFloatMid preserves the invariant, shelf and item count; the
update range starts on the shelf track and stops before the last track. -/
theorem placeFloatMid_spec (s : FloatSide) (box : FloatBox) (h : SideInv s)
    (m : FloatSide) (a b : Nat) (hm : placeFloatMid s box = (m, a, b)) :
    SideInv m ∧ m.shelfBlockOffset = s.shelfBlockOffset ∧ m.itemsCount = s.itemsCount ∧
    a = m.shelfTrackIndex ∧ a ≤ b ∧ b + 1 ≤ m.blockOffsets.length := by
  obtain ⟨h1, hsh, hbd, hit, hstle⟩ := splitIfShelfDropped_spec s h
  have hti1 : s.splitIfShelfDropped.shelfTrackIndex <
      s.splitIfShelfDropped.blockOffsets.length := h1.2.2.2.1
  obtain ⟨g1, g2, g3, g4⟩ := getEndTrack_facts s.splitIfShelfDropped
    s.splitIfShelfDropped.shelfBlockOffset (floatBlockSize box)
    s.splitIfShelfDropped.shelfTrackIndex hti1
  by_cases hbs : 0 < floatBlockSize box
  · by_cases hhit : jsGet s.splitIfShelfDropped.blockOffsets ((endTrackOf s box : Nat) : Int) =
        some (s.splitIfShelfDropped.shelfBlockOffset + floatBlockSize box)
    · rw [placeFloatMid_pos_hit s box hbs hhit] at hm
      injection hm with hm1 hm2
      injection hm2 with hm2 hm3
      subst hm1 hm2 hm3
      have hblt : endTrackOf s box < s.splitIfShelfDropped.blockOffsets.length := by
        by_contra hcon
        rw [jsGet_eq_none _ _ (by omega)] at hhit
        exact Option.noConfusion hhit
      exact ⟨h1, hsh, hit, rfl, by
        show s.splitIfShelfDropped.shelfTrackIndex ≤ endTrackOf s box
        have : s.splitIfShelfDropped.shelfTrackIndex + 1 ≤ endTrackOf s box := g1
        omega, by omega⟩
    · rw [placeFloatMid_pos_miss s box hbs hhit] at hm
      injection hm with hm1 hm2
      injection hm2 with hm2 hm3
      subst hm1 hm2 hm3
      have hinv := sideInv_endSplit s.splitIfShelfDropped (floatBlockSize box) h1 (hbd.trans hsh.symm) hbs hhit
      obtain ⟨shf1, shf2, shf3⟩ := splitTrack_shelf s.splitIfShelfDropped
        (endTrackOf s box - 1) (s.splitIfShelfDropped.shelfBlockOffset + floatBlockSize box)
      obtain ⟨len1, len2, len3, len4⟩ := splitTrack_lengths s.splitIfShelfDropped
        (endTrackOf s box - 1) (s.splitIfShelfDropped.shelfBlockOffset + floatBlockSize box)
      refine ⟨hinv, shf1.trans hsh, shf3.trans hit, shf2.symm, ?_, ?_⟩
      · show s.splitIfShelfDropped.shelfTrackIndex ≤ endTrackOf s box
        have : s.splitIfShelfDropped.shelfTrackIndex + 1 ≤ endTrackOf s box := g1
        omega
      · have hble : endTrackOf s box ≤ s.splitIfShelfDropped.blockOffsets.length := g2
        omega
  · rw [placeFloatMid_nonpos s box hbs] at hm
    injection hm with hm1 hm2
    injection hm2 with hm2 hm3
    subst hm1 hm2 hm3
    exact ⟨h1, hsh, hit, rfl, le_rfl, hti1⟩

theorem placeFloatMid_unmoved (s : FloatSide) (box : FloatBox)
    (m : FloatSide) (a b : Nat) (hm : placeFloatMid s box = (m, a, b)) :
    m.shelfBlockOffset = s.shelfBlockOffset ∧ m.itemsCount = s.itemsCount := by
  obtain ⟨u1, u2⟩ := splitIfShelfDropped_unmoved s
  by_cases hbs : 0 < floatBlockSize box
  · by_cases hhit : jsGet s.splitIfShelfDropped.blockOffsets ((endTrackOf s box : Nat) : Int) =
        some (s.splitIfShelfDropped.shelfBlockOffset + floatBlockSize box)
    · rw [placeFloatMid_pos_hit s box hbs hhit] at hm
      injection hm with hm1 hm2
      subst hm1
      exact ⟨u1, u2⟩
    · rw [placeFloatMid_pos_miss s box hbs hhit] at hm
      injection hm with hm1 hm2
      subst hm1
      exact ⟨u1, u2⟩
  · rw [placeFloatMid_nonpos s box hbs] at hm
    injection hm with hm1 hm2
    subst hm1
    exact ⟨u1, u2⟩

theorem lengthsEq_splitTrack (s : FloatSide) (i : Nat) (b : ℚ) (h : lengthsEq s) :
    lengthsEq (s.splitTrack i b) := by
  obtain ⟨e1, e2, e3⟩ := h
  obtain ⟨l1, l2, l3, l4⟩ := splitTrack_lengths s i b
  exact ⟨by omega, by omega, by omega⟩

theorem lengthsEq_splitIfShelfDropped (s : FloatSide) (h : lengthsEq s) :
    lengthsEq s.splitIfShelfDropped := by
  unfold FloatSide.splitIfShelfDropped
  split
  · exact lengthsEq_splitTrack s s.shelfTrackIndex s.shelfBlockOffset h
  · exact h

theorem placeFloatMid_lengthsEq (s : FloatSide) (box : FloatBox)
    (m : FloatSide) (a b : Nat) (hm : placeFloatMid s box = (m, a, b))
    (h : lengthsEq s) : lengthsEq m := by
  have hsp := lengthsEq_splitIfShelfDropped s h
  by_cases hbs : 0 < floatBlockSize box
  · by_cases hhit : jsGet s.splitIfShelfDropped.blockOffsets ((endTrackOf s box : Nat) : Int) =
        some (s.splitIfShelfDropped.shelfBlockOffset + floatBlockSize box)
    · rw [placeFloatMid_pos_hit s box hbs hhit] at hm
      injection hm with hm1 hm2
      subst hm1
      exact hsp
    · rw [placeFloatMid_pos_miss s box hbs hhit] at hm
      injection hm with hm1 hm2
      subst hm1
      exact lengthsEq_splitTrack _ _ _ hsp
  · rw [placeFloatMid_nonpos s box hbs] at hm
    injection hm with hm1 hm2
    subst hm1
    exact hsp

/-- What a successful FloatSide.placeFloat does to the state: the shelf
is unchanged, the item count goes up by one, and both the length
equality and the full state invariant are preserved. -/
theorem placeFloat_ok_facts (s : FloatSide) (box : FloatBox) (vacancy : IfcVacancy)
    (cbL cbR : ℚ) (s' : FloatSide) (p : ℚ)
    (hok : s.placeFloat box vacancy cbL cbR = Except.ok (s', p)) :
    s'.shelfBlockOffset = s.shelfBlockOffset ∧
    s'.itemsCount = s.itemsCount + 1 ∧
    (lengthsEq s → lengthsEq s') ∧
    (SideInv s → SideInv s') := by
  by_cases hfl : box.floatStyle = FloatValue.none
  · simp [FloatSide.placeFloat, hfl] at hok
  by_cases hvb : vacancy.blockOffset = s.shelfBlockOffset
  · by_cases hcb : box.floatStyle = FloatValue.left ∨ box.hasContainingBlock = true
    · rw [placeFloat_eq_ok s box vacancy cbL cbR hfl hvb hcb] at hok
      rcases hmid : placeFloatMid s box with ⟨m, a, b⟩
      rw [hmid] at hok
      simp only [Except.ok.injEq, Prod.mk.injEq] at hok
      obtain ⟨hs', hp⟩ := hok
      subst hs'
      have hAT : m.applyTracks (cbOffsetOf box vacancy) (marginOffsetOf box)
          (marginEndOf box) box.borderWidth a b =
          (List.range' a (b - a)).foldl
            (applyTracksStep (cbOffsetOf box vacancy) (marginOffsetOf box)
              (marginEndOf box) box.borderWidth) m := rfl
      obtain ⟨A1, A2, A3, A4, A5, A6, A7⟩ := applyTracksGo_unmoved (cbOffsetOf box vacancy)
        (marginOffsetOf box) (marginEndOf box) box.borderWidth (b - a) a m
      rw [← hAT] at A1 A2 A3 A4 A5 A6 A7
      obtain ⟨U1, U2⟩ := placeFloatMid_unmoved s box m a b hmid
      refine ⟨A2.trans U1, ?_, ?_, ?_⟩
      · show (m.applyTracks (cbOffsetOf box vacancy) (marginOffsetOf box)
          (marginEndOf box) box.borderWidth a b).itemsCount + 1 = s.itemsCount + 1
        rw [A4, U2]
      · intro h
        obtain ⟨e1, e2, e3⟩ := placeFloatMid_lengthsEq s box m a b hmid h
        have cb0 : (m.applyTracks (cbOffsetOf box vacancy) (marginOffsetOf box)
            (marginEndOf box) box.borderWidth a b).blockOffsets.length =
            m.blockOffsets.length := by rw [A1]
        refine ⟨?_, ?_, ?_⟩
        · show (m.applyTracks (cbOffsetOf box vacancy) (marginOffsetOf box)
            (marginEndOf box) box.borderWidth a b).inlineSizes.length =
            (m.applyTracks (cbOffsetOf box vacancy) (marginOffsetOf box)
            (marginEndOf box) box.borderWidth a b).blockOffsets.length
          omega
        · show (m.applyTracks (cbOffsetOf box vacancy) (marginOffsetOf box)
            (marginEndOf box) box.borderWidth a b).inlineOffsets.length =
            (m.applyTracks (cbOffsetOf box vacancy) (marginOffsetOf box)
            (marginEndOf box) box.borderWidth a b).blockOffsets.length
          omega
        · show (m.applyTracks (cbOffsetOf box vacancy) (marginOffsetOf box)
            (marginEndOf box) box.borderWidth a b).floatCounts.length =
            (m.applyTracks (cbOffsetOf box vacancy) (marginOffsetOf box)
            (marginEndOf box) box.borderWidth a b).blockOffsets.length
          omega
      · intro h
        obtain ⟨hm_inv, hm_sh, hm_it, ha, hab, hb1⟩ := placeFloatMid_spec s box h m a b hmid
        obtain ⟨⟨e1, e2, e3⟩, hne, hsort, hti, hb1v, hb2v, hlastv⟩ := hm_inv
        show SideInv (m.applyTracks (cbOffsetOf box vacancy) (marginOffsetOf box)
          (marginEndOf box) box.borderWidth a b)
        have cb0 : (m.applyTracks (cbOffsetOf box vacancy) (marginOffsetOf box)
            (marginEndOf box) box.borderWidth a b).blockOffsets.length =
            m.blockOffsets.length := by rw [A1]
        obtain ⟨o1, o2, o3⟩ := applyTracksGo_getD_outside (cbOffsetOf box vacancy)
          (marginOffsetOf box) (marginEndOf box) box.borderWidth (b - a) a m
          (m.floatCounts.length - 1) (Or.inr (by omega))
        rw [← hAT] at o3
        refine ⟨⟨by omega, by omega, by omega⟩, ?_, ?_, ?_, ?_, ?_, ?_⟩
        · rw [A1]; exact hne
        · rw [A1]; exact hsort
        · rw [A3, cb0]; exact hti
        · rw [A1, A3, A2]; exact hb1v
        · intro hnext
          rw [A3, cb0] at hnext
          rw [A1, A3, A2]
          exact hb2v hnext
        · rw [A7, o3]
          exact hlastv
    · rcases not_or.mp hcb with ⟨hnl, hncb⟩
      have hcbf : box.hasContainingBlock = false := by
        cases hx : box.hasContainingBlock
        · rfl
        · exact absurd hx hncb
      simp [FloatSide.placeFloat, hfl, hvb, hnl, hcbf] at hok
  · simp [FloatSide.placeFloat, hfl, hvb] at hok

/-! ### Reachable FloatSide states -/

/-- The FloatSide states reachable over the lifetime of a formatting
context: the constructor, boxStart at an offset not below the first
boundary (the callers pass the content block start of the owning BFC,
which never precedes the first boundary), dropShelf,
splitIfShelfDropped, and a successful placeFloat. -/
inductive SideReach : FloatSide → Prop where
  | init (b : ℚ) : SideReach (FloatSide.init b)
  | boxStart (s : FloatSide) (b : ℚ) (h : SideReach s)
      (hb : s.blockOffsets.getD 0 0 ≤ b) : SideReach (s.boxStart b)
  | dropShelf (s : FloatSide) (b : ℚ) (h : SideReach s) : SideReach (s.dropShelf b)
  | splitIfShelfDropped (s : FloatSide) (h : SideReach s) : SideReach s.splitIfShelfDropped
  | placeFloat (s : FloatSide) (box : FloatBox) (vacancy : IfcVacancy) (cbL cbR : ℚ)
      (s' : FloatSide) (p : ℚ) (h : SideReach s)
      (hok : s.placeFloat box vacancy cbL cbR = Except.ok (s', p)) : SideReach s'

/-- Every reachable FloatSide state satisfies the state invariant. -/
theorem sideReach_inv (s : FloatSide) (h : SideReach s) : SideInv s := by
  induction h with
  | init b => exact sideInv_init b
  | boxStart s b h hb ih => exact sideInv_boxStart s b ih hb
  | dropShelf s b h ih => exact sideInv_dropShelf s b ih
  | splitIfShelfDropped s h ih => exact (splitIfShelfDropped_spec s ih).1
  | placeFloat s box vacancy cbL cbR s' p h hok ih =>
      exact (placeFloat_ok_facts s box vacancy cbL cbR s' p hok).2.2.2 ih

/-! ### Shelf monotonicity of the FloatContext operations -/

theorem dropShelf_ite_mono (s : FloatSide) (c : Prop) [Decidable c] (x : ℚ) :
    s.shelfBlockOffset ≤ (if c then s.dropShelf x else s).shelfBlockOffset := by
  split
  · exact dropShelf_shelf_mono s x
  · exact le_rfl

theorem side_setSide (f : FloatContext) (fl : FloatValue) (s : FloatSide) :
    (f.setSide fl s).side fl = s := by
  by_cases hL : fl = FloatValue.left <;>
    simp [FloatContext.side, FloatContext.setSide, hL]

theorem shelves_of_setSide (f : FloatContext) (fl : FloatValue) (s : FloatSide)
    (h : (f.side fl).shelfBlockOffset ≤ s.shelfBlockOffset) :
    f.leftFloats.shelfBlockOffset ≤ (f.setSide fl s).leftFloats.shelfBlockOffset ∧
    f.rightFloats.shelfBlockOffset ≤ (f.setSide fl s).rightFloats.shelfBlockOffset := by
  unfold FloatContext.side at h
  unfold FloatContext.setSide
  by_cases hL : fl = FloatValue.left
  · rw [if_pos hL] at h ⊢
    exact ⟨h, le_rfl⟩
  · rw [if_neg hL] at h ⊢
    exact ⟨le_rfl, h⟩

theorem shelves_of_double_setSide (f : FloatContext) (fl : FloatValue) (s2 s : FloatSide)
    (h1 : (f.side fl).shelfBlockOffset ≤ s2.shelfBlockOffset)
    (h2 : s2.shelfBlockOffset ≤ s.shelfBlockOffset) :
    f.leftFloats.shelfBlockOffset ≤
      ((f.setSide fl s2).setSide fl s).leftFloats.shelfBlockOffset ∧
    f.rightFloats.shelfBlockOffset ≤
      ((f.setSide fl s2).setSide fl s).rightFloats.shelfBlockOffset := by
  have hstep1 := shelves_of_setSide f fl s2 h1
  have hstep2 := shelves_of_setSide (f.setSide fl s2) fl s
    (by rw [side_setSide]; exact h2)
  exact ⟨hstep1.1.trans hstep2.1, hstep1.2.trans hstep2.2⟩

/-- A successful FloatContext.placeFloat never moves either shelf up. -/
theorem ctxPlaceFloat_shelves_mono (f : FloatContext) (bfc : BfcView) (lw : ℚ)
    (le : Bool) (box : FloatBox) (g : FloatContext)
    (hok : f.placeFloat bfc lw le box = Except.ok g) :
    f.leftFloats.shelfBlockOffset ≤ g.leftFloats.shelfBlockOffset ∧
    f.rightFloats.shelfBlockOffset ≤ g.rightFloats.shelfBlockOffset := by
  by_cases hfl : box.floatStyle = FloatValue.none
  · simp [FloatContext.placeFloat, hfl] at hok
  by_cases hmf : f.misfits = []
  case neg =>
    simp only [FloatContext.placeFloat] at hok
    rw [if_neg hfl, if_pos hmf] at hok
    injection hok with h
    subst h
    exact ⟨le_rfl, le_rfl⟩
  case pos =>
    simp only [FloatContext.placeFloat] at hok
    rw [if_neg hfl, if_neg (by simp [hmf])] at hok
    set S2 := if box.clearStyle = ClearValue.right ∨ box.clearStyle = ClearValue.both then
        (if box.clearStyle = ClearValue.left ∨ box.clearStyle = ClearValue.both then
          (f.side box.floatStyle).dropShelf f.leftFloats.getBottom
        else f.side box.floatStyle).dropShelf f.rightFloats.getBottom
      else
        (if box.clearStyle = ClearValue.left ∨ box.clearStyle = ClearValue.both then
          (f.side box.floatStyle).dropShelf f.leftFloats.getBottom
        else f.side box.floatStyle) with hS2
    have hmono2 : (f.side box.floatStyle).shelfBlockOffset ≤ S2.shelfBlockOffset := by
      rw [hS2]
      exact le_trans (dropShelf_ite_mono _ _ _) (dropShelf_ite_mono _ _ _)
    set V := (f.setSide box.floatStyle S2).getVacancyForBox bfc box with hV
    split at hok
    · rcases hsp : S2.placeFloat box V bfc.cbLineLeft bfc.cbLineRight with e | sp
      · rw [hsp] at hok
        simp at hok
      · rw [hsp] at hok
        injection hok with h
        subst h
        obtain ⟨P1, _, _, _⟩ := placeFloat_ok_facts S2 box V bfc.cbLineLeft bfc.cbLineRight
          sp.1 sp.2 hsp
        exact shelves_of_double_setSide f box.floatStyle S2 sp.1 hmono2 (le_of_eq P1.symm)
    · split at hok
      · split at hok
        · split at hok
          · injection hok with h
            subst h
            exact shelves_of_double_setSide f box.floatStyle S2 _ hmono2
              (dropShelf_shelf_mono _ _)
          · split at hok
            · split at hok
              · simp at hok
              · injection hok with h
                subst h
                exact shelves_of_double_setSide f box.floatStyle S2 _ hmono2
                  (dropShelf_shelf_mono _ _)
            · injection hok with h
              subst h
              exact shelves_of_setSide f box.floatStyle S2 hmono2
        · split at hok
          · injection hok with h
            subst h
            exact shelves_of_double_setSide f box.floatStyle S2 _ hmono2
              (dropShelf_shelf_mono _ _)
          · split at hok
            · split at hok
              · simp at hok
              · injection hok with h
                subst h
                exact shelves_of_double_setSide f box.floatStyle S2 _ hmono2
                  (dropShelf_shelf_mono _ _)
            · injection hok with h
              subst h
              exact shelves_of_setSide f box.floatStyle S2 hmono2
      · injection hok with h
        subst h
        exact shelves_of_setSide f box.floatStyle S2 hmono2

theorem foldlPlace_error (bfc : BfcView) (l : List FloatBox) (e : String × FloatContext) :
    l.foldl (fun (acc : Except (String × FloatContext) FloatContext) (box : FloatBox) =>
      match acc with
      | Except.error e2 => Except.error e2
      | Except.ok g => g.placeFloat bfc 0 true box) (Except.error e) = Except.error e := by
  induction l with
  | nil => rfl
  | cons b l ih => rw [List.foldl_cons]; exact ih

theorem foldlPlace_shelves_mono (bfc : BfcView) :
    ∀ (l : List FloatBox) (f0 g : FloatContext),
    l.foldl (fun (acc : Except (String × FloatContext) FloatContext) (box : FloatBox) =>
      match acc with
      | Except.error e2 => Except.error e2
      | Except.ok g2 => g2.placeFloat bfc 0 true box) (Except.ok f0) = Except.ok g →
    f0.leftFloats.shelfBlockOffset ≤ g.leftFloats.shelfBlockOffset ∧
    f0.rightFloats.shelfBlockOffset ≤ g.rightFloats.shelfBlockOffset := by
  intro l
  induction l with
  | nil =>
    intro f0 g h
    injection h with h
    subst h
    exact ⟨le_rfl, le_rfl⟩
  | cons b l ih =>
    intro f0 g h
    rw [List.foldl_cons] at h
    dsimp only at h
    rcases hpf : f0.placeFloat bfc 0 true b with e | f1
    · rw [hpf, foldlPlace_error] at h
      simp at h
    · rw [hpf] at h
      obtain ⟨m1, m2⟩ := ctxPlaceFloat_shelves_mono f0 bfc 0 true b f1 hpf
      obtain ⟨i1, i2⟩ := ih f1 g h
      exact ⟨m1.trans i1, m2.trans i2⟩

/-- One pass of consumeMisfits never moves either shelf up. -/
theorem consumePass_shelves_mono (f : FloatContext) (bfc : BfcView) (g : FloatContext)
    (h : f.consumePass bfc = Except.ok g) :
    f.leftFloats.shelfBlockOffset ≤ g.leftFloats.shelfBlockOffset ∧
    f.rightFloats.shelfBlockOffset ≤ g.rightFloats.shelfBlockOffset :=
  foldlPlace_shelves_mono bfc f.misfits { f with misfits := [] } g h

/-- consumeMisfits never moves either shelf up. -/
theorem consumeMisfitsN_shelves_mono (bfc : BfcView) :
    ∀ (n : Nat) (f g : FloatContext),
    FloatContext.consumeMisfitsN bfc n f = Except.ok g →
    f.leftFloats.shelfBlockOffset ≤ g.leftFloats.shelfBlockOffset ∧
    f.rightFloats.shelfBlockOffset ≤ g.rightFloats.shelfBlockOffset := by
  intro n
  induction n with
  | zero =>
    intro f g h
    injection h with h
    subst h
    exact ⟨le_rfl, le_rfl⟩
  | succ n ih =>
    intro f g h
    rw [FloatContext.consumeMisfitsN] at h
    by_cases hm : f.misfits = []
    · rw [if_pos hm] at h
      injection h with h
      subst h
      exact ⟨le_rfl, le_rfl⟩
    · rw [if_neg hm] at h
      rcases hcp : f.consumePass bfc with e | g1
      · rw [hcp] at h
        simp at h
      · rw [hcp] at h
        obtain ⟨c1, c2⟩ := consumePass_shelves_mono f bfc g1 hcp
        obtain ⟨i1, i2⟩ := ih g1 g h
        exact ⟨c1.trans i1, c2.trans i2⟩

theorem ctxDropShelf_shelves_mono (f : FloatContext) (b : ℚ) :
    f.leftFloats.shelfBlockOffset ≤ (f.dropShelf b).leftFloats.shelfBlockOffset ∧
    f.rightFloats.shelfBlockOffset ≤ (f.dropShelf b).rightFloats.shelfBlockOffset :=
  ⟨dropShelf_shelf_mono _ _, dropShelf_shelf_mono _ _⟩

theorem postLineDrop_shelves_mono (f : FloatContext) (bfc : BfcView)
    (lo lh : ℚ) (db : Bool) :
    f.leftFloats.shelfBlockOffset ≤
      (f.postLineDrop bfc lo lh db).leftFloats.shelfBlockOffset ∧
    f.rightFloats.shelfBlockOffset ≤
      (f.postLineDrop bfc lo lh db).rightFloats.shelfBlockOffset := by
  unfold FloatContext.postLineDrop
  split
  · exact ctxDropShelf_shelves_mono f _
  · exact ⟨le_rfl, le_rfl⟩

theorem ctxBoxStart_shelves (f : FloatContext) (bfc : BfcView) :
    (f.boxStart bfc).leftFloats.shelfBlockOffset = bfc.cbBlockStart ∧
    (f.boxStart bfc).rightFloats.shelfBlockOffset = bfc.cbBlockStart :=
  ⟨rfl, rfl⟩

/-! ### A concrete placement: a zero-width float of height 1 -/

/-- A left float with containing block, zero inline extent (no border
width, no inline margins) and border-area height 1. -/
def exBox : FloatBox :=
  { floatStyle := FloatValue.left
    clearStyle := ClearValue.none
    hasContainingBlock := true
    marginLineLeft := some 0
    marginLineRight := some 0
    marginBlockStart := some 0
    marginBlockEnd := some 0
    borderWidth := 0
    borderHeight := 1
    cbInlineSize := 0 }

/-- The vacancy the float context computes for `exBox` on a fresh side
whose shelf is at 0. -/
def exVac : IfcVacancy :=
  { leftOffset := 0, rightOffset := 0, inlineSize := 0, blockOffset := 0,
    leftFloatCount := 0, rightFloatCount := 0 }

/-- The state of a fresh side at 0 after placing `exBox`. -/
def exSide : FloatSide :=
  { itemsCount := 1, shelfBlockOffset := 0, shelfTrackIndex := 0,
    blockOffsets := [0, 1], inlineSizes := [0, 0], inlineOffsets := [0, 0],
    floatCounts := [1, 0] }

theorem placeFloat_example_eval :
    (FloatSide.init 0).placeFloat exBox exVac 0 0 = Except.ok (exSide, 0) := by
  simp [FloatSide.placeFloat, FloatSide.splitIfShelfDropped, FloatSide.getEndTrack,
    getEndTrackGo, FloatSide.splitTrack, jsSpliceIns, jsGet, FloatSide.applyTracks,
    applyTracksStep, FloatBox.getMarginsAutoIsZero, FloatSide.init, exBox, exVac, exSide,
    List.range', List.insertIdx]

/-- The success state of FloatSide.placeFloat, extracted. -/
theorem placeFloat_ok_decomp (s : FloatSide) (box : FloatBox) (vacancy : IfcVacancy)
    (cbL cbR : ℚ) (s' : FloatSide) (p : ℚ)
    (hok : s.placeFloat box vacancy cbL cbR = Except.ok (s', p)) :
    s' = { (placeFloatMid s box).1.applyTracks (cbOffsetOf box vacancy)
            (marginOffsetOf box) (marginEndOf box) box.borderWidth
            (placeFloatMid s box).2.1 (placeFloatMid s box).2.2 with
           itemsCount := ((placeFloatMid s box).1.applyTracks (cbOffsetOf box vacancy)
            (marginOffsetOf box) (marginEndOf box) box.borderWidth
            (placeFloatMid s box).2.1 (placeFloatMid s box).2.2).itemsCount + 1 } := by
  by_cases hfl : box.floatStyle = FloatValue.none
  · simp [FloatSide.placeFloat, hfl] at hok
  by_cases hvb : vacancy.blockOffset = s.shelfBlockOffset
  · by_cases hcb : box.floatStyle = FloatValue.left ∨ box.hasContainingBlock = true
    · rw [placeFloat_eq_ok s box vacancy cbL cbR hfl hvb hcb] at hok
      simp only [Except.ok.injEq, Prod.mk.injEq] at hok
      exact hok.1.symm
    · rcases not_or.mp hcb with ⟨hnl, hncb⟩
      have hcbf : box.hasContainingBlock = false := by
        cases hx : box.hasContainingBlock
        · rfl
        · exact absurd hx hncb
      simp [FloatSide.placeFloat, hfl, hvb, hnl, hcbf] at hok
  · simp [FloatSide.placeFloat, hfl, hvb] at hok

/-! ### Occupied tracks and positive widths -/

/-- Every occupied track has a positive inline size. -/
def PosInv (s : FloatSide) : Prop :=
  ∀ t, 0 < s.floatCounts.getD t 0 → 0 < s.inlineSizes.getD t 0

theorem posInv_splitTrack (s : FloatSide) (i : Nat) (b : ℚ)
    (hi1 : i < s.inlineSizes.length) (hi3 : i < s.floatCounts.length)
    (h : PosInv s) : PosInv (s.splitTrack i b) := by
  intro t hc
  rw [splitTrack_floatCounts_getD s i b hi3 t] at hc
  rw [splitTrack_inlineSizes_getD s i b hi1 t]
  by_cases ht : t ≤ i
  · rw [if_pos ht] at hc ⊢
    exact h t hc
  · rw [if_neg ht] at hc ⊢
    exact h (t - 1) hc

theorem posInv_splitIfShelfDropped (s : FloatSide) (hs : SideInv s) (h : PosInv s) :
    PosInv s.splitIfShelfDropped := by
  obtain ⟨⟨e1, e2, e3⟩, hne, hsort, hti, _, _, _⟩ := hs
  unfold FloatSide.splitIfShelfDropped
  split
  · exact posInv_splitTrack s s.shelfTrackIndex s.shelfBlockOffset (by omega) (by omega) h
  · exact h

theorem posInv_mid (s : FloatSide) (box : FloatBox) (m : FloatSide) (a b : Nat)
    (hm : placeFloatMid s box = (m, a, b)) (hs : SideInv s) (h : PosInv s) : PosInv m := by
  have h1 := posInv_splitIfShelfDropped s hs h
  obtain ⟨hs1, hsh, hbd, hit, hstle⟩ := splitIfShelfDropped_spec s hs
  obtain ⟨⟨e1, e2, e3⟩, hne1, hsort1, hti1, _, _, _⟩ := hs1
  by_cases hbs : 0 < floatBlockSize box
  · by_cases hhit : jsGet s.splitIfShelfDropped.blockOffsets ((endTrackOf s box : Nat) : Int) =
        some (s.splitIfShelfDropped.shelfBlockOffset + floatBlockSize box)
    · rw [placeFloatMid_pos_hit s box hbs hhit] at hm
      injection hm with hm1 hm2
      subst hm1
      exact h1
    · rw [placeFloatMid_pos_miss s box hbs hhit] at hm
      injection hm with hm1 hm2
      subst hm1
      obtain ⟨g1, g2, g3, g4⟩ := getEndTrack_facts s.splitIfShelfDropped
        s.splitIfShelfDropped.shelfBlockOffset (floatBlockSize box)
        s.splitIfShelfDropped.shelfTrackIndex hti1
      have hE : s.splitIfShelfDropped.getEndTrack s.splitIfShelfDropped.shelfTrackIndex
          s.splitIfShelfDropped.shelfBlockOffset (floatBlockSize box) = endTrackOf s box := rfl
      rw [hE] at g1 g2
      exact posInv_splitTrack _ _ _ (by omega) (by omega) h1
  · rw [placeFloatMid_nonpos s box hbs] at hm
    injection hm with hm1 hm2
    subst hm1
    exact h1

/-- A successful placeFloat keeps every occupied track positively sized,
provided the placed float has a positive outer inline size and the
containing-block offset is large enough to compensate the stored inline
offsets of the occupied tracks it lands on. -/
theorem posInv_placeFloat (s : FloatSide) (box : FloatBox) (vacancy : IfcVacancy)
    (cbL cbR : ℚ) (s' : FloatSide) (p : ℚ) (hs : SideInv s) (h : PosInv s)
    (hpos : 0 < marginOffsetOf box + box.borderWidth + marginEndOf box)
    (hoff : ∀ t, (placeFloatMid s box).2.1 ≤ t → t < (placeFloatMid s box).2.2 →
      0 < (placeFloatMid s box).1.floatCounts.getD t 0 →
      0 ≤ cbOffsetOf box vacancy + (placeFloatMid s box).1.inlineOffsets.getD t 0)
    (hok : s.placeFloat box vacancy cbL cbR = Except.ok (s', p)) : PosInv s' := by
  have hd := placeFloat_ok_decomp s box vacancy cbL cbR s' p hok
  rcases hmid : placeFloatMid s box with ⟨m, a, b⟩
  rw [hmid] at hd
  simp only [hmid] at hoff
  obtain ⟨hminv, hm_sh, hm_it, ha, hab, hb1⟩ := placeFloatMid_spec s box hs m a b hmid
  obtain ⟨⟨e1, e2, e3⟩, hne, hsort, hti, _, _, _⟩ := hminv
  have hpm := posInv_mid s box m a b hmid hs h
  subst hd
  intro t
  have hAT : m.applyTracks (cbOffsetOf box vacancy) (marginOffsetOf box)
      (marginEndOf box) box.borderWidth a b =
      (List.range' a (b - a)).foldl
        (applyTracksStep (cbOffsetOf box vacancy) (marginOffsetOf box)
          (marginEndOf box) box.borderWidth) m := rfl
  show 0 < (m.applyTracks (cbOffsetOf box vacancy) (marginOffsetOf box)
      (marginEndOf box) box.borderWidth a b).floatCounts.getD t 0 →
    0 < (m.applyTracks (cbOffsetOf box vacancy) (marginOffsetOf box)
      (marginEndOf box) box.borderWidth a b).inlineSizes.getD t 0
  by_cases hin : a ≤ t ∧ t < b
  · obtain ⟨i1, i2, i3⟩ := applyTracksGo_getD_inside (cbOffsetOf box vacancy)
      (marginOffsetOf box) (marginEndOf box) box.borderWidth (b - a) a m t hin.1
      (by omega) (by omega) (by omega) (by omega)
    rw [← hAT] at i1 i2 i3
    intro hcount
    by_cases hz : m.floatCounts.getD t 0 = 0
    · obtain ⟨z1, z2⟩ := i2 hz
      rw [z1]
      exact hpos
    · obtain ⟨n1, n2⟩ := i3 hz
      rw [n1]
      have hge := hoff t hin.1 hin.2 (Nat.pos_of_ne_zero hz)
      linarith
  · obtain ⟨o1, o2, o3⟩ := applyTracksGo_getD_outside (cbOffsetOf box vacancy)
      (marginOffsetOf box) (marginEndOf box) box.borderWidth (b - a) a m t
      (by omega)
    rw [← hAT] at o1 o3
    intro hcount
    rw [o3] at hcount
    rw [o1]
    exact hpm t hcount

/-! ### The claims -/

/-- C1: MarginCollapseCollection computes the CSS collapsed-margin value
order-independently: adding any finite list of margins to a fresh
collection makes get() return the maximum of the non-negative margins
(or 0 if none) minus the maximum magnitude of the negative margins (or 0
if none); permuting the additions does not change the result, and a
fresh collection with no add returns 0. -/
theorem C1_margin_collapse_order_independent (ms : List ℚ) :
    ((newMarginCollapseCollection 0).addAll ms).get = collapsedValue ms ∧
    (∀ ms', ms.Perm ms' →
      ((newMarginCollapseCollection 0).addAll ms').get =
        ((newMarginCollapseCollection 0).addAll ms).get) ∧
    (newMarginCollapseCollection 0).get = 0 := by
  refine ⟨mcc_addAll_get ms, ?_, ?_⟩
  · intro ms' hp
    exact congrArg MarginCollapseCollection.get
      (mcc_addAll_perm (newMarginCollapseCollection 0) ms ms' hp).symm
  · rw [mcc_fresh_eq]
    show (0 : ℚ) - 0 = 0
    norm_num

theorem C1_witness :
    ((newMarginCollapseCollection 0).addAll [(2 : ℚ), -3]).get =
      collapsedValue [(2 : ℚ), -3] ∧
    ((newMarginCollapseCollection 0).addAll [(-3 : ℚ), 2]).get =
      ((newMarginCollapseCollection 0).addAll [(2 : ℚ), -3]).get ∧
    (newMarginCollapseCollection 0).get = 0 := by
  obtain ⟨h1, h2, h3⟩ := C1_margin_collapse_order_independent [(2 : ℚ), -3]
  exact ⟨h1, h2 [(-3 : ℚ), 2] (List.Perm.swap (-3 : ℚ) 2 []), h3⟩

/-- C3 counterexample: the shelves are NOT monotone over a BFC lifetime.
After dropShelf moves the left shelf to 10, the boxStart a later block
box triggers resets it back to the content block start 0. -/
theorem C3_counterexample :
    ((FloatContext.init 0).dropShelf 10).leftFloats.shelfBlockOffset = 10 ∧
    ((((FloatContext.init 0).dropShelf 10).boxStart
        { cbBlockStart := 0, cbLineLeft := 0, cbLineRight := 0,
          inlineSize := 100 }).leftFloats).shelfBlockOffset = 0 := by
  constructor
  · show ((FloatSide.init 0).dropShelf 10).shelfBlockOffset = 10
    rw [FloatSide.dropShelf, if_pos (show (FloatSide.init 0).shelfBlockOffset < 10 by
      show (0 : ℚ) < 10
      norm_num)]
  · rfl

/-- C3 (amended): across the lifetime of a BFC, every float-context
operation except boxStart — dropShelf, the dropShelf part of postLine,
placeFloat, consumeMisfits — keeps both shelfBlockOffsets non-decreasing;
boxStart resets both shelves to the BFC's content block start, so it
keeps them non-decreasing exactly when that offset is not above the
current shelves. -/
theorem C3_amended_shelves_monotone :
    (∀ (f : FloatContext) (b : ℚ),
      f.leftFloats.shelfBlockOffset ≤ (f.dropShelf b).leftFloats.shelfBlockOffset ∧
      f.rightFloats.shelfBlockOffset ≤ (f.dropShelf b).rightFloats.shelfBlockOffset) ∧
    (∀ (f : FloatContext) (bfc : BfcView) (lo lh : ℚ) (db : Bool),
      f.leftFloats.shelfBlockOffset ≤
        (f.postLineDrop bfc lo lh db).leftFloats.shelfBlockOffset ∧
      f.rightFloats.shelfBlockOffset ≤
        (f.postLineDrop bfc lo lh db).rightFloats.shelfBlockOffset) ∧
    (∀ (f : FloatContext) (bfc : BfcView) (lw : ℚ) (le : Bool) (box : FloatBox)
      (g : FloatContext), f.placeFloat bfc lw le box = Except.ok g →
      f.leftFloats.shelfBlockOffset ≤ g.leftFloats.shelfBlockOffset ∧
      f.rightFloats.shelfBlockOffset ≤ g.rightFloats.shelfBlockOffset) ∧
    (∀ (bfc : BfcView) (n : Nat) (f g : FloatContext),
      FloatContext.consumeMisfitsN bfc n f = Except.ok g →
      f.leftFloats.shelfBlockOffset ≤ g.leftFloats.shelfBlockOffset ∧
      f.rightFloats.shelfBlockOffset ≤ g.rightFloats.shelfBlockOffset) ∧
    (∀ (f : FloatContext) (bfc : BfcView),
      f.leftFloats.shelfBlockOffset ≤ bfc.cbBlockStart →
      f.rightFloats.shelfBlockOffset ≤ bfc.cbBlockStart →
      f.leftFloats.shelfBlockOffset ≤ (f.boxStart bfc).leftFloats.shelfBlockOffset ∧
      f.rightFloats.shelfBlockOffset ≤ (f.boxStart bfc).rightFloats.shelfBlockOffset) := by
  refine ⟨ctxDropShelf_shelves_mono, postLineDrop_shelves_mono, ctxPlaceFloat_shelves_mono,
    consumeMisfitsN_shelves_mono, ?_⟩
  intro f bfc h1 h2
  obtain ⟨e1, e2⟩ := ctxBoxStart_shelves f bfc
  rw [e1, e2]
  exact ⟨h1, h2⟩

theorem C3_amended_witness :
    ((FloatContext.init 0).leftFloats.shelfBlockOffset ≤
      ((FloatContext.init 0).dropShelf 5).leftFloats.shelfBlockOffset ∧
     (FloatContext.init 0).rightFloats.shelfBlockOffset ≤
      ((FloatContext.init 0).dropShelf 5).rightFloats.shelfBlockOffset) ∧
    ((FloatContext.init 0).leftFloats.shelfBlockOffset ≤
      (FloatContext.init 0).leftFloats.shelfBlockOffset ∧
     (FloatContext.init 0).rightFloats.shelfBlockOffset ≤
      (FloatContext.init 0).rightFloats.shelfBlockOffset) ∧
    ((FloatContext.init 0).leftFloats.shelfBlockOffset ≤
      (((FloatContext.init 0).boxStart
        { cbBlockStart := 0, cbLineLeft := 0, cbLineRight := 0,
          inlineSize := 100 }).leftFloats).shelfBlockOffset ∧
     (FloatContext.init 0).rightFloats.shelfBlockOffset ≤
      (((FloatContext.init 0).boxStart
        { cbBlockStart := 0, cbLineLeft := 0, cbLineRight := 0,
          inlineSize := 100 }).rightFloats).shelfBlockOffset) := by
  obtain ⟨h1, h2, h3, h4, h5⟩ := C3_amended_shelves_monotone
  exact ⟨h1 (FloatContext.init 0) 5,
    h4 { cbBlockStart := 0, cbLineLeft := 0, cbLineRight := 0, inlineSize := 100 } 1
      (FloatContext.init 0) (FloatContext.init 0) rfl,
    h5 (FloatContext.init 0)
      { cbBlockStart := 0, cbLineLeft := 0, cbLineRight := 0, inlineSize := 100 }
      (le_refl 0) (le_refl 0)⟩

/-- C5 counterexample: in the constructor's state (which the lifetime
reachability relation contains), blockOffsets has the SAME length as the
per-track payload arrays, not one greater. -/
theorem C5_counterexample :
    SideReach (FloatSide.init 0) ∧
    (FloatSide.init 0).inlineSizes.length = (FloatSide.init 0).blockOffsets.length ∧
    ¬ (FloatSide.init 0).blockOffsets.length =
        (FloatSide.init 0).inlineSizes.length + 1 := by
  exact ⟨SideReach.init 0, rfl, by decide⟩

/-- C5 (amended): in every reachable FloatSide state, blockOffsets is
strictly increasing and its length EQUALS the lengths of inlineSizes,
inlineOffsets and floatCounts (the last boundary opens the final,
unbounded track, so the boundary and payload arrays stay in lockstep). -/
theorem C5_amended_track_invariant (s : FloatSide) (h : SideReach s) :
    sortedLt s.blockOffsets ∧ lengthsEq s :=
  ⟨(sideReach_inv s h).2.2.1, (sideReach_inv s h).1⟩

theorem C5_amended_witness :
    sortedLt (FloatSide.init 5).blockOffsets ∧ lengthsEq (FloatSide.init 5) :=
  C5_amended_track_invariant (FloatSide.init 5) (SideReach.init 5)

/-- A vacancy whose block offset does not sit on the shelf. -/
def exVacBad : IfcVacancy :=
  { leftOffset := 0, rightOffset := 0, inlineSize := 0, blockOffset := 1,
    leftFloatCount := 0, rightFloatCount := 0 }

/-- C8: for a float box that has a containing block and a float style
other than none, FloatSide.placeFloat throws exactly when the vacancy's
blockOffset differs from shelfBlockOffset, and the thrown error carries
the side's state unchanged (the check precedes every mutation); when the
offsets agree it returns a success. -/
theorem C8_placeFloat_guard (s : FloatSide) (box : FloatBox) (vacancy : IfcVacancy)
    (cbL cbR : ℚ) (hcb : box.hasContainingBlock = true) :
    (box.floatStyle ≠ FloatValue.none → vacancy.blockOffset ≠ s.shelfBlockOffset →
      s.placeFloat box vacancy cbL cbR = Except.error ("Assertion failed", s)) ∧
    (box.floatStyle ≠ FloatValue.none → vacancy.blockOffset = s.shelfBlockOffset →
      ∃ s' p, s.placeFloat box vacancy cbL cbR = Except.ok (s', p)) := by
  constructor
  · intro hfl hvb
    simp only [FloatSide.placeFloat]
    rw [if_neg hfl, if_pos hvb]
  · intro hfl hvb
    exact ⟨_, _, placeFloat_eq_ok s box vacancy cbL cbR hfl hvb (Or.inr hcb)⟩

theorem C8_witness :
    (FloatSide.init 0).placeFloat exBox exVacBad 0 0 =
      Except.error ("Assertion failed", FloatSide.init 0) ∧
    (∃ s' p, (FloatSide.init 0).placeFloat exBox exVac 0 0 = Except.ok (s', p)) := by
  obtain ⟨h1, _⟩ := C8_placeFloat_guard (FloatSide.init 0) exBox exVacBad 0 0 rfl
  obtain ⟨_, h2⟩ := C8_placeFloat_guard (FloatSide.init 0) exBox exVac 0 0 rfl
  exact ⟨h1 (by decide) (by decide), h2 (by decide) rfl⟩

/-- C9 counterexample: on the empty array (which is strictly increasing)
binarySearch returns -1, not the insertion position 0 = a.length: the
claim fails for empty arrays. -/
theorem C9_counterexample :
    sortedLt ([] : List ℚ) ∧ binarySearch ([] : List ℚ) 0 = -1 ∧
    ¬ IsInsertionPos ([] : List ℚ) 0 (-1) := by
  refine ⟨by decide, ?_, by decide⟩
  rw [binarySearch, bsGo]
  norm_num [jsGet, jsLtB, jsGtB]

/-- C9 (amended): for every strictly increasing NON-EMPTY array and every
number x, binarySearch(a, x) returns the insertion position of x: an
index in [0, a.length] below which every element is < x and at which (if
in range) the element is ≥ x. Termination holds by construction: the
embedded loop is well-founded on the interval size. -/
theorem C9_amended_binarySearch (a : List ℚ) (x : ℚ) (hne : a ≠ [])
    (ha : sortedLt a) : IsInsertionPos a x (binarySearch a x) :=
  binarySearch_insertionPos a x hne ha

theorem C9_amended_witness :
    IsInsertionPos [(0 : ℚ), 10] 5 (binarySearch [(0 : ℚ), 10] 5) :=
  C9_amended_binarySearch [(0 : ℚ), 10] 5 (by decide) (by decide)

/-- C10: every FloatSide operation exercised during layout — the
constructor, splitTrack, splitIfShelfDropped and (successful) placeFloat
— preserves the equality of the four track-array lengths; the last
boundary opens the final track, which extends to +∞. -/
theorem C10_lengths_preserved :
    (∀ b : ℚ, lengthsEq (FloatSide.init b)) ∧
    (∀ (s : FloatSide) (i : Nat) (b : ℚ), lengthsEq s → lengthsEq (s.splitTrack i b)) ∧
    (∀ s : FloatSide, lengthsEq s → lengthsEq s.splitIfShelfDropped) ∧
    (∀ (s : FloatSide) (box : FloatBox) (vacancy : IfcVacancy) (cbL cbR : ℚ)
      (s' : FloatSide) (p : ℚ), lengthsEq s →
      s.placeFloat box vacancy cbL cbR = Except.ok (s', p) → lengthsEq s') := by
  refine ⟨fun b => ⟨rfl, rfl, rfl⟩, lengthsEq_splitTrack, lengthsEq_splitIfShelfDropped, ?_⟩
  intro s box vacancy cbL cbR s' p h hok
  exact (placeFloat_ok_facts s box vacancy cbL cbR s' p hok).2.2.1 h

theorem C10_witness :
    lengthsEq (FloatSide.init 3) ∧
    lengthsEq ((FloatSide.init 3).splitTrack 0 1) ∧
    lengthsEq (FloatSide.init 3).splitIfShelfDropped ∧
    lengthsEq exSide := by
  obtain ⟨w1, w2, w3, w4⟩ := C10_lengths_preserved
  exact ⟨w1 3, w2 (FloatSide.init 3) 0 1 (w1 3), w3 (FloatSide.init 3) (w1 3),
    w4 (FloatSide.init 0) exBox exVac 0 0 exSide 0 (w1 0) placeFloat_example_eval⟩

/-- A side with two tracks, [0, 10) and [10, ∞), both unoccupied. -/
def c6Side : FloatSide :=
  { itemsCount := 0, shelfBlockOffset := 0, shelfTrackIndex := 0,
    blockOffsets := [0, 10], inlineSizes := [0, 0], inlineOffsets := [0, 0],
    floatCounts := [0, 0] }

/-- C6 counterexample: getTrackRange adjusts the binary-search result
leftward exactly when the search does NOT land on an exact boundary
match — the opposite of the claim. Querying boundary 10 of [0, 10] is an
exact match (binarySearch returns 1 and blockOffsets[1] = 10), yet the
start is 1, not decremented. -/
theorem C6_counterexample :
    binarySearch c6Side.blockOffsets 10 = 1 ∧
    jsGet c6Side.blockOffsets 1 = some 10 ∧
    (c6Side.getTrackRange 10 0).1 = 1 := by
  have hbs : binarySearch c6Side.blockOffsets 10 = 1 :=
    binarySearch_eval _ _ _ (by decide) (by decide) (by decide)
  refine ⟨hbs, by decide, ?_⟩
  rw [getTrackRange_fst_eq, hbs]
  rw [if_neg (by decide)]

/-- C6 (amended): the start of getTrackRange is the binary-search result
decremented exactly when the searched offset is NOT an exact boundary
match; under the track invariants (non-empty, strictly increasing
boundaries, query not before the first boundary) start is the track
containing blockOffset, and the end component is the first track after
start whose top is ≥ blockOffset + blockSize (or the track count if
none). -/
theorem C6_amended_getTrackRange (s : FloatSide) (q bs : ℚ) (hne : s.blockOffsets ≠ [])
    (hs : sortedLt s.blockOffsets) (hq : s.blockOffsets.getD 0 0 ≤ q) :
    ((s.getTrackRange q bs).1 =
      if jsGet s.blockOffsets (binarySearch s.blockOffsets q) = some q then
        binarySearch s.blockOffsets q
      else binarySearch s.blockOffsets q - 1) ∧
    0 ≤ (s.getTrackRange q bs).1 ∧
    (s.getTrackRange q bs).1 < s.blockOffsets.length ∧
    s.blockOffsets.getD (s.getTrackRange q bs).1.toNat 0 ≤ q ∧
    ((s.getTrackRange q bs).1.toNat + 1 < s.blockOffsets.length →
      q < s.blockOffsets.getD ((s.getTrackRange q bs).1.toNat + 1) 0) ∧
    (s.getTrackRange q bs).1.toNat + 1 ≤ (s.getTrackRange q bs).2 ∧
    (s.getTrackRange q bs).2 ≤ s.blockOffsets.length ∧
    (∀ j, (s.getTrackRange q bs).1.toNat + 1 ≤ j → j < (s.getTrackRange q bs).2 →
      s.blockOffsets.getD j 0 < q + bs) ∧
    ((s.getTrackRange q bs).2 < s.blockOffsets.length →
      q + bs ≤ s.blockOffsets.getD ((s.getTrackRange q bs).2) 0) := by
  obtain ⟨t0, t1, t2, t3⟩ := getTrackRange_start_spec s q bs hne hs hq
  have hlen : 0 < s.blockOffsets.length := List.length_pos.mpr hne
  have htn : ((s.getTrackRange q bs).1 + 1).toNat = (s.getTrackRange q bs).1.toNat + 1 := by
    omega
  obtain ⟨g1, g2, g3, g4⟩ := getEndTrackGo_spec s.blockOffsets (q + bs)
    (s.blockOffsets.length - ((s.getTrackRange q bs).1 + 1).toNat)
    (((s.getTrackRange q bs).1 + 1).toNat) le_rfl
  rw [← getTrackRange_snd_eq s q bs] at g1 g2 g3 g4
  rw [htn] at g1 g2 g3
  refine ⟨?_, t0, t1, t2, t3, g1, by omega, ?_, g4⟩
  · rw [getTrackRange_fst_eq]
    by_cases hex : jsGet s.blockOffsets (binarySearch s.blockOffsets q) = some q
    · rw [if_neg (by simpa using hex), if_pos hex]
    · rw [if_pos (by simpa using hex), if_neg hex]
  · intro j hj1 hj2
    exact g3 j hj1 hj2

theorem C6_amended_witness :
    ((c6Side.getTrackRange 5 0).1 =
      if jsGet c6Side.blockOffsets (binarySearch c6Side.blockOffsets 5) = some 5 then
        binarySearch c6Side.blockOffsets 5
      else binarySearch c6Side.blockOffsets 5 - 1) ∧
    0 ≤ (c6Side.getTrackRange 5 0).1 ∧
    (c6Side.getTrackRange 5 0).1 < c6Side.blockOffsets.length ∧
    c6Side.blockOffsets.getD (c6Side.getTrackRange 5 0).1.toNat 0 ≤ 5 ∧
    ((c6Side.getTrackRange 5 0).1.toNat + 1 < c6Side.blockOffsets.length →
      (5 : ℚ) < c6Side.blockOffsets.getD ((c6Side.getTrackRange 5 0).1.toNat + 1) 0) ∧
    (c6Side.getTrackRange 5 0).1.toNat + 1 ≤ (c6Side.getTrackRange 5 0).2 ∧
    (c6Side.getTrackRange 5 0).2 ≤ c6Side.blockOffsets.length ∧
    (∀ j, (c6Side.getTrackRange 5 0).1.toNat + 1 ≤ j → j < (c6Side.getTrackRange 5 0).2 →
      c6Side.blockOffsets.getD j 0 < 5 + 0) ∧
    ((c6Side.getTrackRange 5 0).2 < c6Side.blockOffsets.length →
      (5 : ℚ) + 0 ≤ c6Side.blockOffsets.getD ((c6Side.getTrackRange 5 0).2) 0) :=
  C6_amended_getTrackRange c6Side 5 0 (by decide) (by decide) (by decide)

/-- C7 counterexample: a reachable state (placing a zero-inline-extent
float of height 1 on a fresh side) has floatCounts[0] = 1 > 0 while
inlineSizes[0] = 0. -/
theorem C7_counterexample :
    SideReach exSide ∧ 0 < exSide.floatCounts.getD 0 0 ∧
    ¬ 0 < exSide.inlineSizes.getD 0 0 := by
  refine ⟨SideReach.placeFloat (FloatSide.init 0) exBox exVac 0 0 exSide 0
    (SideReach.init 0) placeFloat_example_eval, Nat.one_pos, ?_⟩
  exact lt_irrefl 0

/-- `exBox` with border width 5: a left float with positive outer inline
size. -/
def exBoxW : FloatBox :=
  { floatStyle := FloatValue.left
    clearStyle := ClearValue.none
    hasContainingBlock := true
    marginLineLeft := some 0
    marginLineRight := some 0
    marginBlockStart := some 0
    marginBlockEnd := some 0
    borderWidth := 5
    borderHeight := 1
    cbInlineSize := 0 }

/-- The state of a fresh side at 0 after placing `exBoxW`. -/
def exSideW : FloatSide :=
  { itemsCount := 1, shelfBlockOffset := 0, shelfTrackIndex := 0,
    blockOffsets := [0, 1], inlineSizes := [5, 0], inlineOffsets := [0, 0],
    floatCounts := [1, 0] }

theorem placeFloatW_eval :
    (FloatSide.init 0).placeFloat exBoxW exVac 0 0 = Except.ok (exSideW, 0) := by
  simp [FloatSide.placeFloat, FloatSide.splitIfShelfDropped, FloatSide.getEndTrack,
    getEndTrackGo, FloatSide.splitTrack, jsSpliceIns, jsGet, FloatSide.applyTracks,
    applyTracksStep, FloatBox.getMarginsAutoIsZero, FloatSide.init, exBoxW, exVac, exSideW,
    List.range', List.insertIdx]

theorem placeFloatMidW_eval :
    placeFloatMid (FloatSide.init 0) exBoxW =
      ({ itemsCount := 0, shelfBlockOffset := 0, shelfTrackIndex := 0,
         blockOffsets := [0, 1], inlineSizes := [0, 0], inlineOffsets := [0, 0],
         floatCounts := [0, 0] }, 0, 1) := by
  simp [placeFloatMid, FloatSide.splitIfShelfDropped, FloatSide.getEndTrack,
    getEndTrackGo, FloatSide.splitTrack, jsSpliceIns, jsGet,
    FloatBox.getMarginsAutoIsZero, FloatSide.init, exBoxW, List.insertIdx]

/-- C7 (amended): floatCounts[i] > 0 implies inlineSizes[i] > 0 is
preserved by the constructor, boxStart, dropShelf, splitTrack (at an
in-range track) and by every successful placeFloat whose float has a
positive outer inline size (line margins plus border width) and whose
containing-block inline offset compensates the stored inline offsets of
the occupied tracks in its update range — conditions the code itself does
not enforce, as the zero-width counterexample shows. -/
theorem C7_amended_float_count_width :
    (∀ b : ℚ, PosInv (FloatSide.init b)) ∧
    (∀ (s : FloatSide) (b : ℚ), PosInv s → PosInv (s.boxStart b)) ∧
    (∀ (s : FloatSide) (b : ℚ), PosInv s → PosInv (s.dropShelf b)) ∧
    (∀ (s : FloatSide) (i : Nat) (b : ℚ), i < s.inlineSizes.length →
      i < s.floatCounts.length → PosInv s → PosInv (s.splitTrack i b)) ∧
    (∀ (s : FloatSide) (box : FloatBox) (vacancy : IfcVacancy) (cbL cbR : ℚ)
      (s' : FloatSide) (p : ℚ), SideInv s → PosInv s →
      0 < marginOffsetOf box + box.borderWidth + marginEndOf box →
      (∀ t, (placeFloatMid s box).2.1 ≤ t → t < (placeFloatMid s box).2.2 →
        0 < (placeFloatMid s box).1.floatCounts.getD t 0 →
        0 ≤ cbOffsetOf box vacancy + (placeFloatMid s box).1.inlineOffsets.getD t 0) →
      s.placeFloat box vacancy cbL cbR = Except.ok (s', p) → PosInv s') := by
  refine ⟨?_, ?_, ?_, ?_, ?_⟩
  · intro b t h
    exfalso
    rcases t with _ | t
    · simp [FloatSide.init] at h
    · simp [FloatSide.init] at h
  · intro s b h t
    exact h t
  · intro s b h t
    unfold FloatSide.dropShelf
    split
    · exact h t
    · exact h t
  · intro s i b h1 h3 h
    exact posInv_splitTrack s i b h1 h3 h
  · intro s box vacancy cbL cbR s' p hs h hpos hoff hok
    exact posInv_placeFloat s box vacancy cbL cbR s' p hs h hpos hoff hok

theorem C7_amended_witness :
    PosInv (FloatSide.init 7) ∧
    PosInv ((FloatSide.init 7).boxStart 9) ∧
    PosInv ((FloatSide.init 7).dropShelf 9) ∧
    PosInv ((FloatSide.init 7).splitTrack 0 8) ∧
    PosInv exSideW := by
  obtain ⟨w1, w2, w3, w4, w5⟩ := C7_amended_float_count_width
  refine ⟨w1 7, w2 (FloatSide.init 7) 9 (w1 7), w3 (FloatSide.init 7) 9 (w1 7),
    w4 (FloatSide.init 7) 0 8 (by decide) (by decide) (w1 7),
    w5 (FloatSide.init 0) exBoxW exVac 0 0 exSideW 0 (sideInv_init 0) (w1 0) ?_ ?_
      placeFloatW_eval⟩
  · show (0 : ℚ) < marginOffsetOf exBoxW + exBoxW.borderWidth + marginEndOf exBoxW
    norm_num [marginOffsetOf, marginEndOf, exBoxW, FloatBox.getMarginsAutoIsZero]
  · intro t ha hb ht
    rw [placeFloatMidW_eval] at ht
    exact absurd ht (by
      rcases t with _ | _ | t
      · exact lt_irrefl 0
      · exact lt_irrefl 0
      · exact lt_irrefl 0)

/-! ### Termination of consumeMisfits: the toolkit -/

theorem sideInv_ite_dropShelf (s : FloatSide) (c : Prop) [Decidable c] (x : ℚ)
    (h : SideInv s) : SideInv (if c then s.dropShelf x else s) := by
  split
  · exact sideInv_dropShelf s x h
  · exact h

theorem dropShelf_shelf_of_lt (s : FloatSide) (t : ℚ) (h : s.shelfBlockOffset < t) :
    (s.dropShelf t).shelfBlockOffset = t := by
  unfold FloatSide.dropShelf
  rw [if_pos h]

theorem oppositeSide_setSide (f : FloatContext) (fl : FloatValue) (s : FloatSide) :
    (f.setSide fl s).oppositeSide fl = f.oppositeSide fl := by
  by_cases hL : fl = FloatValue.left <;>
    simp [FloatContext.setSide, FloatContext.oppositeSide, hL]

theorem misfits_setSide (f : FloatContext) (fl : FloatValue) (s : FloatSide) :
    (f.setSide fl s).misfits = f.misfits := by
  by_cases hL : fl = FloatValue.left <;> simp [FloatContext.setSide, hL]

theorem getEndTrackGo_stop (offsets : List ℚ) (pos : ℚ) (e k : Nat)
    (h : ¬ (e < offsets.length ∧ offsets.getD e 0 < pos)) :
    getEndTrackGo offsets pos e k = e := by
  cases k with
  | zero => rfl
  | succ k => simp only [getEndTrackGo, if_neg h]

theorem foldl_max_pos (g : Nat → Nat) :
    ∀ (l : List Nat) (acc : Nat),
    0 < l.foldl (fun m i => max m (g i)) acc → 0 < acc ∨ ∃ i ∈ l, 0 < g i := by
  intro l
  induction l with
  | nil =>
    intro acc h
    exact Or.inl h
  | cons a l ih =>
    intro acc h
    rw [List.foldl_cons] at h
    rcases ih (max acc (g a)) h with hacc | ⟨i, hi, hgi⟩
    · rcases (by omega : 0 < acc ∨ 0 < g a) with h1 | h2
      · exact Or.inl h1
      · exact Or.inr ⟨a, List.mem_cons_self a l, h2⟩
    · exact Or.inr ⟨i, List.mem_cons_of_mem a hi, hgi⟩

theorem floatCount_pos_witness (s : FloatSide) (start stop : Nat)
    (h : 0 < s.getFloatCountOfTracks start stop) :
    ∃ t, start ≤ t ∧ t < stop ∧ 0 < s.floatCounts.getD t 0 := by
  unfold FloatSide.getFloatCountOfTracks at h
  rcases foldl_max_pos (fun i => s.floatCounts.getD i 0)
      (List.range' start (stop - start)) 0 h with h0 | ⟨i, hi, hg⟩
  · omega
  · rw [List.mem_range'_1] at hi
    exact ⟨i, hi.1, by omega, hg⟩

/-- When the placing side's own range holds a float, the shelf is not in
the last track and the next track offset is a strictly larger boundary. -/
theorem nextTrack_strict (s : FloatSide) (hs : SideInv s) (bh : ℚ)
    (hcnt : 0 < s.getFloatCountOfTracks s.shelfTrackIndex
      (s.getEndTrack s.shelfTrackIndex s.shelfBlockOffset bh)) :
    s.shelfTrackIndex + 1 < s.blockOffsets.length ∧
    s.getNextTrackOffset = s.blockOffsets.getD (s.shelfTrackIndex + 1) 0 ∧
    s.shelfBlockOffset < s.getNextTrackOffset ∧
    s.getNextTrackOffset ∈ s.blockOffsets := by
  obtain ⟨⟨e1, e2, e3⟩, hne, hsort, hti, hb1, hb2, hlast⟩ := hs
  obtain ⟨t, ht1, ht2, ht3⟩ := floatCount_pos_witness s _ _ hcnt
  obtain ⟨g1, g2, g3, g4⟩ := getEndTrack_facts s s.shelfBlockOffset bh s.shelfTrackIndex hti
  have htne : t ≠ s.floatCounts.length - 1 := by
    intro hx
    rw [hx] at ht3
    omega
  have hlt : s.shelfTrackIndex + 1 < s.blockOffsets.length := by omega
  refine ⟨hlt, ?_, ?_, ?_⟩
  · unfold FloatSide.getNextTrackOffset
    rw [if_pos hlt]
  · unfold FloatSide.getNextTrackOffset
    rw [if_pos hlt]
    exact hb2 hlt
  · unfold FloatSide.getNextTrackOffset
    rw [if_pos hlt, getD_eq_getElem _ _ _ hlt]
    exact List.getElem_mem _

/-- When the opposite side holds a float in the range of the shelf, the
second component of its zero-size track range is a valid track whose
boundary lies strictly above the shelf. -/
theorem oppositeTrack_strict (opp : FloatSide) (hs : SideInv opp) (q bh : ℚ)
    (hq : opp.blockOffsets.getD 0 0 ≤ q)
    (hcnt : 0 < opp.getFloatCountOfTracks (opp.getTrackRange q bh).1.toNat
      (opp.getTrackRange q bh).2) :
    (opp.getTrackRange q 0).2 < opp.blockOffsets.length ∧
    q < opp.blockOffsets.getD ((opp.getTrackRange q 0).2) 0 ∧
    opp.blockOffsets.getD ((opp.getTrackRange q 0).2) 0 ∈ opp.blockOffsets := by
  have hs' := hs
  obtain ⟨⟨e1, e2, e3⟩, hne, hsort, hti, hb1, hb2, hlast⟩ := hs'
  obtain ⟨t, ht1, ht2, ht3⟩ := floatCount_pos_witness opp _ _ hcnt
  obtain ⟨t0, t1, t2, t3⟩ := getTrackRange_start_spec opp q bh hne hsort hq
  obtain ⟨u0, u1, u2, u3⟩ := getTrackRange_start_spec opp q 0 hne hsort hq
  have hstart_eq : (opp.getTrackRange q bh).1 = (opp.getTrackRange q 0).1 := by
    rw [getTrackRange_fst_eq, getTrackRange_fst_eq]
  rcases lt_or_ge ((opp.getTrackRange q 0).1.toNat + 1) opp.blockOffsets.length with hc | hc
  · have hend : (opp.getTrackRange q 0).2 = (opp.getTrackRange q 0).1.toNat + 1 := by
      rw [getTrackRange_snd_eq]
      have htn : ((opp.getTrackRange q 0).1 + 1).toNat =
          (opp.getTrackRange q 0).1.toNat + 1 := by omega
      rw [htn]
      apply getEndTrackGo_stop
      intro hh
      have hgt := u3 hc
      rw [add_zero] at hh
      exact absurd hh.2 (not_lt.mpr (le_of_lt hgt))
    refine ⟨by omega, ?_, ?_⟩
    · rw [hend]
      exact u3 hc
    · rw [hend, getD_eq_getElem _ _ _ hc]
      exact List.getElem_mem _
  · exfalso
    have hts : (opp.getTrackRange q bh).1.toNat = (opp.getTrackRange q 0).1.toNat := by
      rw [hstart_eq]
    have htn2 : ((opp.getTrackRange q bh).1 + 1).toNat ≤ opp.blockOffsets.length := by
      omega
    obtain ⟨w1, w2, w3, w4⟩ := getEndTrackGo_spec opp.blockOffsets (q + bh)
      (opp.blockOffsets.length - ((opp.getTrackRange q bh).1 + 1).toNat)
      (((opp.getTrackRange q bh).1 + 1).toNat) le_rfl
    rw [← getTrackRange_snd_eq opp q bh] at w2
    have htlast : t = opp.blockOffsets.length - 1 := by omega
    rw [htlast] at ht3
    rw [show opp.blockOffsets.length - 1 = opp.floatCounts.length - 1 from by omega] at ht3
    omega

/-- The number of track boundaries strictly above an offset. -/
def boundariesAbove (u : List ℚ) (q : ℚ) : Nat := (u.filter (fun b => q < b)).length

theorem boundariesAbove_mono (u : List ℚ) (q q' : ℚ) (h : q ≤ q') :
    boundariesAbove u q' ≤ boundariesAbove u q := by
  unfold boundariesAbove
  induction u with
  | nil => exact le_rfl
  | cons a u ih =>
    simp only [List.filter_cons]
    by_cases h1 : q' < a
    · rw [if_pos (by simp [h1]), if_pos (by simp [lt_of_le_of_lt h h1])]
      simpa using ih
    · by_cases h2 : q < a
      · rw [if_neg (by simpa using h1), if_pos (by simp [h2])]
        simp only [List.length_cons]
        omega
      · rw [if_neg (by simpa using h1), if_neg (by simpa using h2)]
        exact ih

theorem boundariesAbove_strict (u : List ℚ) (q q' : ℚ) (h : q < q') (hm : q' ∈ u) :
    boundariesAbove u q' < boundariesAbove u q := by
  induction u with
  | nil => cases hm
  | cons a u ih =>
    unfold boundariesAbove
    simp only [List.filter_cons]
    rcases List.mem_cons.mp hm with rfl | hm'
    · rw [if_neg (by simp), if_pos (by simp [h])]
      have hmono := boundariesAbove_mono u q q' (le_of_lt h)
      unfold boundariesAbove at hmono
      simp only [List.length_cons]
      omega
    · by_cases h1 : q' < a
      · rw [if_pos (by simp [h1]), if_pos (by simp [lt_trans h h1])]
        have := ih hm'
        unfold boundariesAbove at this
        simp only [List.length_cons]
        omega
      · rw [if_neg (by simpa using h1)]
        by_cases h2 : q < a
        · rw [if_pos (by simp [h2])]
          have := ih hm'
          unfold boundariesAbove at this
          simp only [List.length_cons]
          omega
        · rw [if_neg (by simpa using h2)]
          exact ih hm'

/-- The termination measure component: boundaries of both sides strictly
above each shelf. -/
def ctxMeasure2 (f : FloatContext) : Nat :=
  boundariesAbove (f.leftFloats.blockOffsets ++ f.rightFloats.blockOffsets)
    f.leftFloats.shelfBlockOffset +
  boundariesAbove (f.leftFloats.blockOffsets ++ f.rightFloats.blockOffsets)
    f.rightFloats.shelfBlockOffset

theorem ctxMeasure2_drop (f g : FloatContext)
    (hL : g.leftFloats.blockOffsets = f.leftFloats.blockOffsets)
    (hR : g.rightFloats.blockOffsets = f.rightFloats.blockOffsets)
    (hml : f.leftFloats.shelfBlockOffset ≤ g.leftFloats.shelfBlockOffset)
    (hmr : f.rightFloats.shelfBlockOffset ≤ g.rightFloats.shelfBlockOffset)
    (hstrict :
      (f.leftFloats.shelfBlockOffset < g.leftFloats.shelfBlockOffset ∧
        g.leftFloats.shelfBlockOffset ∈
          f.leftFloats.blockOffsets ++ f.rightFloats.blockOffsets) ∨
      (f.rightFloats.shelfBlockOffset < g.rightFloats.shelfBlockOffset ∧
        g.rightFloats.shelfBlockOffset ∈
          f.leftFloats.blockOffsets ++ f.rightFloats.blockOffsets)) :
    ctxMeasure2 g < ctxMeasure2 f := by
  unfold ctxMeasure2
  rw [hL, hR]
  rcases hstrict with ⟨hs, hmem⟩ | ⟨hs, hmem⟩
  · have h1 := boundariesAbove_strict _ _ _ hs hmem
    have h2 := boundariesAbove_mono
      (f.leftFloats.blockOffsets ++ f.rightFloats.blockOffsets) _ _ hmr
    omega
  · have h1 := boundariesAbove_strict _ _ _ hs hmem
    have h2 := boundariesAbove_mono
      (f.leftFloats.blockOffsets ++ f.rightFloats.blockOffsets) _ _ hml
    omega

theorem splitIfShelfDropped_first (s : FloatSide) (hs : SideInv s) :
    s.splitIfShelfDropped.blockOffsets.getD 0 0 = s.blockOffsets.getD 0 0 := by
  obtain ⟨⟨e1, e2, e3⟩, hne, hsort, hti, _, _, _⟩ := hs
  unfold FloatSide.splitIfShelfDropped
  split
  · show (s.splitTrack s.shelfTrackIndex s.shelfBlockOffset).blockOffsets.getD 0 0 =
      s.blockOffsets.getD 0 0
    rw [splitTrack_blockOffsets_getD s s.shelfTrackIndex s.shelfBlockOffset hti 0,
      if_pos (Nat.zero_le _)]
  · rfl

theorem placeFloatMid_first (s : FloatSide) (box : FloatBox) (m : FloatSide) (a b : Nat)
    (hm : placeFloatMid s box = (m, a, b)) (hs : SideInv s) :
    m.blockOffsets.getD 0 0 = s.blockOffsets.getD 0 0 := by
  have h1 := splitIfShelfDropped_first s hs
  have hs1 := (splitIfShelfDropped_spec s hs).1
  obtain ⟨⟨e1, e2, e3⟩, hne1, hsort1, hti1, _, _, _⟩ := hs1
  by_cases hbs : 0 < floatBlockSize box
  · by_cases hhit : jsGet s.splitIfShelfDropped.blockOffsets ((endTrackOf s box : Nat) : Int) =
        some (s.splitIfShelfDropped.shelfBlockOffset + floatBlockSize box)
    · rw [placeFloatMid_pos_hit s box hbs hhit] at hm
      injection hm with hm1 hm2
      subst hm1
      exact h1
    · rw [placeFloatMid_pos_miss s box hbs hhit] at hm
      injection hm with hm1 hm2
      subst hm1
      obtain ⟨g1, g2, g3, g4⟩ := getEndTrack_facts s.splitIfShelfDropped
        s.splitIfShelfDropped.shelfBlockOffset (floatBlockSize box)
        s.splitIfShelfDropped.shelfTrackIndex hti1
      have hE : s.splitIfShelfDropped.getEndTrack s.splitIfShelfDropped.shelfTrackIndex
          s.splitIfShelfDropped.shelfBlockOffset (floatBlockSize box) = endTrackOf s box := rfl
      rw [hE] at g1 g2
      rw [splitTrack_blockOffsets_getD s.splitIfShelfDropped (endTrackOf s box - 1)
        (s.splitIfShelfDropped.shelfBlockOffset + floatBlockSize box) (by omega) 0,
        if_pos (Nat.zero_le _)]
      exact h1
  · rw [placeFloatMid_nonpos s box hbs] at hm
    injection hm with hm1 hm2
    subst hm1
    exact h1

/-- A successful placeFloat never changes the first track boundary. -/
theorem placeFloat_ok_first (s : FloatSide) (box : FloatBox) (vacancy : IfcVacancy)
    (cbL cbR : ℚ) (s' : FloatSide) (p : ℚ)
    (hok : s.placeFloat box vacancy cbL cbR = Except.ok (s', p)) (hs : SideInv s) :
    s'.blockOffsets.getD 0 0 = s.blockOffsets.getD 0 0 := by
  have hd := placeFloat_ok_decomp s box vacancy cbL cbR s' p hok
  rcases hmid : placeFloatMid s box with ⟨m, a, b⟩
  rw [hmid] at hd
  subst hd
  have hAT : m.applyTracks (cbOffsetOf box vacancy) (marginOffsetOf box)
      (marginEndOf box) box.borderWidth a b =
      (List.range' a (b - a)).foldl
        (applyTracksStep (cbOffsetOf box vacancy) (marginOffsetOf box)
          (marginEndOf box) box.borderWidth) m := rfl
  obtain ⟨A1, _, _, _, _, _, _⟩ := applyTracksGo_unmoved (cbOffsetOf box vacancy)
    (marginOffsetOf box) (marginEndOf box) box.borderWidth (b - a) a m
  rw [← hAT] at A1
  show (m.applyTracks (cbOffsetOf box vacancy) (marginOffsetOf box)
      (marginEndOf box) box.borderWidth a b).blockOffsets.getD 0 0 =
    s.blockOffsets.getD 0 0
  rw [A1]
  exact placeFloatMid_first s box m a b hmid hs

theorem shelf_ge_first (s : FloatSide) (hs : SideInv s) :
    s.blockOffsets.getD 0 0 ≤ s.shelfBlockOffset := by
  obtain ⟨_, hne, hsort, hti, hb1, _, _⟩ := hs
  rcases Nat.eq_zero_or_pos s.shelfTrackIndex with hz | hp
  · rw [hz] at hb1
    exact hb1
  · exact le_trans (le_of_lt (sortedLt_getD_lt _ hsort _ _ hp hti)) hb1

theorem setSide_left_eq (f : FloatContext) (fl : FloatValue) (s : FloatSide)
    (h : fl = FloatValue.left) :
    (f.setSide fl s).leftFloats = s ∧ (f.setSide fl s).rightFloats = f.rightFloats := by
  subst h
  exact ⟨rfl, rfl⟩

theorem setSide_right_eq (f : FloatContext) (fl : FloatValue) (s : FloatSide)
    (h : fl ≠ FloatValue.left) :
    (f.setSide fl s).leftFloats = f.leftFloats ∧ (f.setSide fl s).rightFloats = s := by
  unfold FloatContext.setSide
  rw [if_neg h]
  exact ⟨rfl, rfl⟩

theorem side_left_eq (f : FloatContext) (fl : FloatValue) (h : fl = FloatValue.left) :
    f.side fl = f.leftFloats := by
  subst h
  rfl

theorem side_right_eq (f : FloatContext) (fl : FloatValue) (h : fl ≠ FloatValue.left) :
    f.side fl = f.rightFloats := by
  unfold FloatContext.side
  rw [if_neg h]

theorem oppositeSide_left_eq (f : FloatContext) (fl : FloatValue)
    (h : fl = FloatValue.left) : f.oppositeSide fl = f.rightFloats := by
  subst h
  rfl

theorem oppositeSide_right_eq (f : FloatContext) (fl : FloatValue)
    (h : fl ≠ FloatValue.left) : f.oppositeSide fl = f.leftFloats := by
  unfold FloatContext.oppositeSide
  rw [if_neg h]

theorem dropShelf_ite_blockOffsets (s : FloatSide) (c : Prop) [Decidable c] (x : ℚ) :
    (if c then s.dropShelf x else s).blockOffsets = s.blockOffsets := by
  split
  · exact (dropShelf_blockOffsets s x).1
  · rfl

/-- The projections of getVacancyForBox the placement logic reads. -/
theorem getVacancyForBox_proj (f : FloatContext) (bfc : BfcView) (box : FloatBox) :
    (f.getVacancyForBox bfc box).blockOffset = (f.side box.floatStyle).shelfBlockOffset ∧
    (if box.floatStyle = FloatValue.left then (f.getVacancyForBox bfc box).leftFloatCount
     else (f.getVacancyForBox bfc box).rightFloatCount) =
      (f.side box.floatStyle).getFloatCountOfTracks
        (f.side box.floatStyle).shelfTrackIndex
        ((f.side box.floatStyle).getEndTrack (f.side box.floatStyle).shelfTrackIndex
          (f.side box.floatStyle).shelfBlockOffset box.borderHeight) ∧
    (if box.floatStyle = FloatValue.left then (f.getVacancyForBox bfc box).rightFloatCount
     else (f.getVacancyForBox bfc box).leftFloatCount) =
      (f.oppositeSide box.floatStyle).getFloatCountOfTracks
        ((f.oppositeSide box.floatStyle).getTrackRange
          (f.side box.floatStyle).shelfBlockOffset box.borderHeight).1.toNat
        ((f.oppositeSide box.floatStyle).getTrackRange
          (f.side box.floatStyle).shelfBlockOffset box.borderHeight).2 := by
  by_cases hL : box.floatStyle = FloatValue.left <;>
    simp [FloatContext.getVacancyForBox, hL]

theorem sidesOk_dsetSide (f : FloatContext) (fl : FloatValue) (s2 s : FloatSide)
    (hL : SideInv f.leftFloats) (hR : SideInv f.rightFloats)
    (hb0 : f.leftFloats.blockOffsets.getD 0 0 = f.rightFloats.blockOffsets.getD 0 0)
    (hs : SideInv s)
    (hfst : s.blockOffsets.getD 0 0 = (f.side fl).blockOffsets.getD 0 0) :
    SideInv ((f.setSide fl s2).setSide fl s).leftFloats ∧
    SideInv ((f.setSide fl s2).setSide fl s).rightFloats ∧
    ((f.setSide fl s2).setSide fl s).leftFloats.blockOffsets.getD 0 0 =
      ((f.setSide fl s2).setSide fl s).rightFloats.blockOffsets.getD 0 0 := by
  by_cases h : fl = FloatValue.left
  · obtain ⟨q1, q2⟩ := setSide_left_eq (f.setSide fl s2) fl s h
    obtain ⟨r1, r2⟩ := setSide_left_eq f fl s2 h
    rw [q1, q2, r2]
    rw [side_left_eq f fl h] at hfst
    exact ⟨hs, hR, by rw [hfst]; exact hb0⟩
  · obtain ⟨q1, q2⟩ := setSide_right_eq (f.setSide fl s2) fl s h
    obtain ⟨r1, r2⟩ := setSide_right_eq f fl s2 h
    rw [q1, q2, r1]
    rw [side_right_eq f fl h] at hfst
    exact ⟨hL, hs, by rw [hfst]; exact hb0⟩

theorem failure_facts (f : FloatContext) (fl : FloatValue) (s2 : FloatSide) (t : ℚ)
    (harr : s2.blockOffsets = (f.side fl).blockOffsets)
    (hmono : (f.side fl).shelfBlockOffset ≤ s2.shelfBlockOffset)
    (hstrict : s2.shelfBlockOffset < t)
    (hmem : t ∈ f.leftFloats.blockOffsets ++ f.rightFloats.blockOffsets) :
    ((f.setSide fl s2).setSide fl (s2.dropShelf t)).leftFloats.blockOffsets =
      f.leftFloats.blockOffsets ∧
    ((f.setSide fl s2).setSide fl (s2.dropShelf t)).rightFloats.blockOffsets =
      f.rightFloats.blockOffsets ∧
    ctxMeasure2 ((f.setSide fl s2).setSide fl (s2.dropShelf t)) < ctxMeasure2 f := by
  have hds : (s2.dropShelf t).shelfBlockOffset = t := dropShelf_shelf_of_lt s2 t hstrict
  have hdarr := (dropShelf_blockOffsets s2 t).1
  by_cases h : fl = FloatValue.left
  · obtain ⟨q1, q2⟩ := setSide_left_eq (f.setSide fl s2) fl (s2.dropShelf t) h
    obtain ⟨r1, r2⟩ := setSide_left_eq f fl s2 h
    rw [side_left_eq f fl h] at harr hmono
    refine ⟨by rw [q1, hdarr, harr], by rw [q2, r2], ?_⟩
    apply ctxMeasure2_drop
    · rw [q1, hdarr, harr]
    · rw [q2, r2]
    · rw [q1, hds]
      exact le_trans hmono (le_of_lt hstrict)
    · rw [q2, r2]
    · exact Or.inl ⟨by rw [q1, hds]; exact lt_of_le_of_lt hmono hstrict,
        by rw [q1, hds]; exact hmem⟩
  · obtain ⟨q1, q2⟩ := setSide_right_eq (f.setSide fl s2) fl (s2.dropShelf t) h
    obtain ⟨r1, r2⟩ := setSide_right_eq f fl s2 h
    rw [side_right_eq f fl h] at harr hmono
    refine ⟨by rw [q1, r1], by rw [q2, hdarr, harr], ?_⟩
    apply ctxMeasure2_drop
    · rw [q1, r1]
    · rw [q2, hdarr, harr]
    · rw [q1, r1]
    · rw [q2, hds]
      exact le_trans hmono (le_of_lt hstrict)
    · exact Or.inr ⟨by rw [q2, hds]; exact lt_of_le_of_lt hmono hstrict,
        by rw [q2, hds]; exact hmem⟩

/-- One retried placement against an empty line (lineWidth 0, lineIsEmpty
true) on a context with an empty queue: it succeeds, or queues exactly the
one box after strictly advancing the placing side's shelf past a track
boundary (so the measure drops); the state invariants are preserved and
no error is possible. -/
theorem consumeStep (f : FloatContext) (bfc : BfcView) (box : FloatBox)
    (hinvL : SideInv f.leftFloats) (hinvR : SideInv f.rightFloats)
    (hb0 : f.leftFloats.blockOffsets.getD 0 0 = f.rightFloats.blockOffsets.getD 0 0)
    (hwf1 : box.floatStyle ≠ FloatValue.none)
    (hwf2 : box.floatStyle = FloatValue.left ∨ box.hasContainingBlock = true)
    (hmf : f.misfits = []) :
    ∃ g, f.placeFloat bfc 0 true box = Except.ok g ∧
      SideInv g.leftFloats ∧ SideInv g.rightFloats ∧
      g.leftFloats.blockOffsets.getD 0 0 = g.rightFloats.blockOffsets.getD 0 0 ∧
      (g.misfits = [] ∨
        (g.misfits = [box] ∧
         g.leftFloats.blockOffsets = f.leftFloats.blockOffsets ∧
         g.rightFloats.blockOffsets = f.rightFloats.blockOffsets ∧
         ctxMeasure2 g < ctxMeasure2 f)) := by
  have hSide0inv : SideInv (f.side box.floatStyle) := by
    unfold FloatContext.side
    split
    · exact hinvL
    · exact hinvR
  simp only [FloatContext.placeFloat]
  rw [if_neg hwf1, if_neg (by simp [hmf])]
  set S2 := if box.clearStyle = ClearValue.right ∨ box.clearStyle = ClearValue.both then
      (if box.clearStyle = ClearValue.left ∨ box.clearStyle = ClearValue.both then
        (f.side box.floatStyle).dropShelf f.leftFloats.getBottom
      else f.side box.floatStyle).dropShelf f.rightFloats.getBottom
    else
      (if box.clearStyle = ClearValue.left ∨ box.clearStyle = ClearValue.both then
        (f.side box.floatStyle).dropShelf f.leftFloats.getBottom
      else f.side box.floatStyle) with hS2
  have hS2inv : SideInv S2 := by
    rw [hS2]
    exact sideInv_ite_dropShelf _ _ _ (sideInv_ite_dropShelf _ _ _ hSide0inv)
  have hS2mono : (f.side box.floatStyle).shelfBlockOffset ≤ S2.shelfBlockOffset := by
    rw [hS2]
    exact le_trans (dropShelf_ite_mono _ _ _) (dropShelf_ite_mono _ _ _)
  have hS2arr : S2.blockOffsets = (f.side box.floatStyle).blockOffsets := by
    rw [hS2, dropShelf_ite_blockOffsets, dropShelf_ite_blockOffsets]
  set V := (f.setSide box.floatStyle S2).getVacancyForBox bfc box with hV
  obtain ⟨p1, p2, p3⟩ := getVacancyForBox_proj (f.setSide box.floatStyle S2) bfc box
  rw [← hV] at p1 p2 p3
  have hsideSet : (f.setSide box.floatStyle S2).side box.floatStyle = S2 :=
    side_setSide f box.floatStyle S2
  have hoppSet : (f.setSide box.floatStyle S2).oppositeSide box.floatStyle =
      f.oppositeSide box.floatStyle := oppositeSide_setSide f box.floatStyle S2
  rw [hsideSet] at p1 p2
  rw [hsideSet, hoppSet] at p3
  rw [hoppSet, p2, p3]
  have hOppInv : SideInv (f.oppositeSide box.floatStyle) := by
    by_cases h : box.floatStyle = FloatValue.left
    · rw [oppositeSide_left_eq f box.floatStyle h]
      exact hinvR
    · rw [oppositeSide_right_eq f box.floatStyle h]
      exact hinvL
  have hOppFirst : (f.oppositeSide box.floatStyle).blockOffsets.getD 0 0 =
      (f.side box.floatStyle).blockOffsets.getD 0 0 := by
    by_cases h : box.floatStyle = FloatValue.left
    · rw [oppositeSide_left_eq f box.floatStyle h, side_left_eq f box.floatStyle h]
      exact hb0.symm
    · rw [oppositeSide_right_eq f box.floatStyle h, side_right_eq f box.floatStyle h]
      exact hb0
  have hq : (f.oppositeSide box.floatStyle).blockOffsets.getD 0 0 ≤ S2.shelfBlockOffset := by
    rw [hOppFirst]
    exact le_trans (shelf_ge_first _ hSide0inv) hS2mono
  by_cases hfit : box.borderWidth +
      (box.getMarginsAutoIsZero.lineLeft + box.getMarginsAutoIsZero.lineRight) ≤
      V.inlineSize - 0 ∨
      (True ∧ V.leftFloatCount = 0 ∧ V.rightFloatCount = 0)
  · rcases hsp : S2.placeFloat box V bfc.cbLineLeft bfc.cbLineRight with e | sp
    · rw [placeFloat_eq_ok S2 box V bfc.cbLineLeft bfc.cbLineRight hwf1 p1 hwf2] at hsp
      simp at hsp
    · obtain ⟨Psh, Pit, Plen, Pinv⟩ := placeFloat_ok_facts S2 box V bfc.cbLineLeft
        bfc.cbLineRight sp.1 sp.2 hsp
      have Pfst := placeFloat_ok_first S2 box V bfc.cbLineLeft bfc.cbLineRight
        sp.1 sp.2 hsp hS2inv
      rw [if_pos hfit]
      obtain ⟨G1, G2, G3⟩ := sidesOk_dsetSide f box.floatStyle S2 sp.1 hinvL hinvR hb0
        (Pinv hS2inv) (by rw [Pfst, hS2arr])
      exact ⟨(f.setSide box.floatStyle S2).setSide box.floatStyle sp.1, rfl, G1, G2, G3,
        Or.inl (by rw [misfits_setSide, misfits_setSide]; exact hmf)⟩
  · have hnot := not_or.mp hfit
    have hwide : V.inlineSize < box.borderWidth +
        (box.getMarginsAutoIsZero.lineLeft + box.getMarginsAutoIsZero.lineRight) := by
      have h1 := not_le.mp hnot.1
      rw [sub_zero] at h1
      exact h1
    have hcz : ¬ (V.leftFloatCount = 0 ∧ V.rightFloatCount = 0) := by
      intro hc
      exact hnot.2 ⟨trivial, hc.1, hc.2⟩
    rw [if_neg hfit, if_pos hwide]
    by_cases hc1 : 0 < S2.getFloatCountOfTracks S2.shelfTrackIndex
        (S2.getEndTrack S2.shelfTrackIndex S2.shelfBlockOffset box.borderHeight)
    · rw [if_pos hc1]
      obtain ⟨n1, n2, n3eq, n4⟩ := nextTrack_strict S2 hS2inv box.borderHeight hc1
      have hmemT : S2.getNextTrackOffset ∈
          f.leftFloats.blockOffsets ++ f.rightFloats.blockOffsets := by
        by_cases h : box.floatStyle = FloatValue.left
        · refine List.mem_append.mpr (Or.inl ?_)
          rw [← side_left_eq f box.floatStyle h, ← hS2arr]
          exact n4
        · refine List.mem_append.mpr (Or.inr ?_)
          rw [← side_right_eq f box.floatStyle h, ← hS2arr]
          exact n4
      obtain ⟨F1, F2, F3⟩ := failure_facts f box.floatStyle S2 S2.getNextTrackOffset
        hS2arr hS2mono n3eq hmemT
      obtain ⟨G1, G2, G3⟩ := sidesOk_dsetSide f box.floatStyle S2
        (S2.dropShelf S2.getNextTrackOffset) hinvL hinvR hb0
        (sideInv_dropShelf S2 _ hS2inv)
        (by rw [(dropShelf_blockOffsets S2 _).1, hS2arr])
      refine ⟨_, rfl, G1, G2, G3, Or.inr ⟨?_, F1, F2, F3⟩⟩
      show ((f.setSide box.floatStyle S2).setSide box.floatStyle
          (S2.dropShelf S2.getNextTrackOffset)).misfits ++ [box] = [box]
      rw [misfits_setSide, misfits_setSide, hmf]
      rfl
    · rw [if_neg hc1]
      by_cases hc2 : 0 < (f.oppositeSide box.floatStyle).getFloatCountOfTracks
          ((f.oppositeSide box.floatStyle).getTrackRange S2.shelfBlockOffset
            box.borderHeight).1.toNat
          ((f.oppositeSide box.floatStyle).getTrackRange S2.shelfBlockOffset
            box.borderHeight).2
      · rw [if_pos hc2]
        obtain ⟨o1, o2, o3⟩ := oppositeTrack_strict (f.oppositeSide box.floatStyle)
          hOppInv S2.shelfBlockOffset box.borderHeight hq hc2
        rw [if_neg (Nat.ne_of_lt o1)]
        have hmemT2 : (f.oppositeSide box.floatStyle).blockOffsets.getD
            ((f.oppositeSide box.floatStyle).getTrackRange S2.shelfBlockOffset 0).2 0 ∈
            f.leftFloats.blockOffsets ++ f.rightFloats.blockOffsets := by
          by_cases h : box.floatStyle = FloatValue.left
          · refine List.mem_append.mpr (Or.inr ?_)
            rw [← oppositeSide_left_eq f box.floatStyle h]
            exact o3
          · refine List.mem_append.mpr (Or.inl ?_)
            rw [← oppositeSide_right_eq f box.floatStyle h]
            exact o3
        obtain ⟨F1, F2, F3⟩ := failure_facts f box.floatStyle S2
          ((f.oppositeSide box.floatStyle).blockOffsets.getD
            ((f.oppositeSide box.floatStyle).getTrackRange S2.shelfBlockOffset 0).2 0)
          hS2arr hS2mono o2 hmemT2
        obtain ⟨G1, G2, G3⟩ := sidesOk_dsetSide f box.floatStyle S2
          (S2.dropShelf ((f.oppositeSide box.floatStyle).blockOffsets.getD
            ((f.oppositeSide box.floatStyle).getTrackRange S2.shelfBlockOffset 0).2 0))
          hinvL hinvR hb0 (sideInv_dropShelf S2 _ hS2inv)
          (by rw [(dropShelf_blockOffsets S2 _).1, hS2arr])
        refine ⟨_, rfl, G1, G2, G3, Or.inr ⟨?_, F1, F2, F3⟩⟩
        show ((f.setSide box.floatStyle S2).setSide box.floatStyle
            (S2.dropShelf ((f.oppositeSide box.floatStyle).blockOffsets.getD
              ((f.oppositeSide box.floatStyle).getTrackRange S2.shelfBlockOffset 0).2
                0))).misfits ++ [box] = [box]
        rw [misfits_setSide, misfits_setSide, hmf]
        rfl
      · exfalso
        apply hcz
        by_cases h : box.floatStyle = FloatValue.left
        · rw [if_pos h] at p2 p3
          omega
        · rw [if_neg h] at p2 p3
          omega

theorem foldlPlace_append (bfc : BfcView) :
    ∀ (rest : List FloatBox) (h : FloatContext), h.misfits ≠ [] →
    (∀ box ∈ rest, box.floatStyle ≠ FloatValue.none) →
    rest.foldl (fun (acc : Except (String × FloatContext) FloatContext) (box : FloatBox) =>
      match acc with
      | Except.error e2 => Except.error e2
      | Except.ok g2 => g2.placeFloat bfc 0 true box) (Except.ok h) =
      Except.ok { h with misfits := h.misfits ++ rest } := by
  intro rest
  induction rest with
  | nil =>
    intro h hne hwf
    rw [List.foldl_nil, List.append_nil]
  | cons b rest ih =>
    intro h hne hwf
    rw [List.foldl_cons]
    dsimp only
    have hstep : h.placeFloat bfc 0 true b =
        Except.ok { h with misfits := h.misfits ++ [b] } := by
      simp only [FloatContext.placeFloat]
      rw [if_neg (hwf b (List.mem_cons_self b rest)), if_pos hne]
    rw [hstep, ih { h with misfits := h.misfits ++ [b] } (by simp)
      (fun box hb => hwf box (List.mem_cons_of_mem b hb))]
    rw [List.append_assoc]
    rfl

/-- One pass of consumeMisfits on a context with empty queue: all queued
boxes are retried in order; either all are placed, or the queue strictly
shrinks, or (when already the first box fails) the queue is unchanged and
the measure strictly decreases. -/
theorem pass_go (bfc : BfcView) :
    ∀ (bs : List FloatBox) (h : FloatContext),
    SideInv h.leftFloats → SideInv h.rightFloats →
    h.leftFloats.blockOffsets.getD 0 0 = h.rightFloats.blockOffsets.getD 0 0 →
    (∀ box ∈ bs, box.floatStyle ≠ FloatValue.none ∧
      (box.floatStyle = FloatValue.left ∨ box.hasContainingBlock = true)) →
    h.misfits = [] →
    ∃ g, bs.foldl (fun (acc : Except (String × FloatContext) FloatContext)
        (box : FloatBox) =>
      match acc with
      | Except.error e2 => Except.error e2
      | Except.ok g2 => g2.placeFloat bfc 0 true box) (Except.ok h) = Except.ok g ∧
      SideInv g.leftFloats ∧ SideInv g.rightFloats ∧
      g.leftFloats.blockOffsets.getD 0 0 = g.rightFloats.blockOffsets.getD 0 0 ∧
      (∀ box ∈ g.misfits, box.floatStyle ≠ FloatValue.none ∧
        (box.floatStyle = FloatValue.left ∨ box.hasContainingBlock = true)) ∧
      ((bs = [] ∧ g = h) ∨ g.misfits.length < bs.length ∨
        (g.misfits.length = bs.length ∧ ctxMeasure2 g < ctxMeasure2 h)) := by
  intro bs
  induction bs with
  | nil =>
    intro h h1 h2 h3 h4 h5
    refine ⟨h, rfl, h1, h2, h3, ?_, Or.inl ⟨rfl, rfl⟩⟩
    simp [h5]
  | cons b bs ih =>
    intro h h1 h2 h3 h4 h5
    obtain ⟨g1, hg1, G1, G2, G3, hcase⟩ := consumeStep h bfc b h1 h2 h3
      (h4 b (List.mem_cons_self b bs)).1 (h4 b (List.mem_cons_self b bs)).2 h5
    rw [List.foldl_cons]
    dsimp only
    rw [hg1]
    rcases hcase with hemp | ⟨hone, harrL, harrR, hmeas⟩
    · obtain ⟨g, hg, K1, K2, K3, K4, K5⟩ := ih g1 G1 G2 G3
        (fun box hb => h4 box (List.mem_cons_of_mem b hb)) hemp
      refine ⟨g, hg, K1, K2, K3, K4, ?_⟩
      rcases K5 with ⟨hbs, rfl⟩ | hlt | ⟨heq, hm⟩
      · exact Or.inr (Or.inl (by rw [hemp]; simp))
      · exact Or.inr (Or.inl (by simp only [List.length_cons]; omega))
      · exact Or.inr (Or.inl (by simp only [List.length_cons]; omega))
    · have hne : g1.misfits ≠ [] := by
        rw [hone]
        simp
      rw [foldlPlace_append bfc bs g1 hne
        (fun box hb => (h4 box (List.mem_cons_of_mem b hb)).1)]
      refine ⟨{ g1 with misfits := g1.misfits ++ bs }, rfl, G1, G2, G3, ?_, ?_⟩
      · intro box hb
        rw [hone] at hb
        exact h4 box hb
      · refine Or.inr (Or.inr ⟨?_, ?_⟩)
        · show (g1.misfits ++ bs).length = (b :: bs).length
          rw [hone]
          simp
        · exact hmeas

/-- The double induction: on the queue length, then on the number of
boundaries above the shelves. -/
theorem consume_term_aux (bfc : BfcView) :
    ∀ (k N : Nat) (f : FloatContext),
    SideInv f.leftFloats → SideInv f.rightFloats →
    f.leftFloats.blockOffsets.getD 0 0 = f.rightFloats.blockOffsets.getD 0 0 →
    (∀ box ∈ f.misfits, box.floatStyle ≠ FloatValue.none ∧
      (box.floatStyle = FloatValue.left ∨ box.hasContainingBlock = true)) →
    f.misfits.length ≤ k → ctxMeasure2 f ≤ N →
    ∃ n g, FloatContext.consumeMisfitsN bfc n f = Except.ok g ∧ g.misfits = [] := by
  intro k
  induction k with
  | zero =>
    intro N f h1 h2 h3 h4 hk hN
    have hm : f.misfits = [] := List.length_eq_zero.mp (by omega)
    refine ⟨1, f, ?_, hm⟩
    show FloatContext.consumeMisfitsN bfc (0 + 1) f = Except.ok f
    rw [FloatContext.consumeMisfitsN, if_pos hm]
  | succ k ihk =>
    intro N
    induction N with
    | zero =>
      intro f h1 h2 h3 h4 hk hN
      by_cases hm : f.misfits = []
      · refine ⟨1, f, ?_, hm⟩
        show FloatContext.consumeMisfitsN bfc (0 + 1) f = Except.ok f
        rw [FloatContext.consumeMisfitsN, if_pos hm]
      · obtain ⟨g1, hfold, K1, K2, K3, K4, K5⟩ := pass_go bfc f.misfits
          { f with misfits := [] } h1 h2 h3 h4 rfl
        have hcp : f.consumePass bfc = Except.ok g1 := hfold
        rcases K5 with ⟨hbs, _⟩ | hlt | ⟨heq, hmeas⟩
        · exact absurd hbs hm
        · obtain ⟨n, g, hn, hge⟩ := ihk (ctxMeasure2 g1) g1 K1 K2 K3 K4 (by omega) le_rfl
          refine ⟨n + 1, g, ?_, hge⟩
          rw [FloatContext.consumeMisfitsN, if_neg hm, hcp]
          exact hn
        · exfalso
          have hmm : ctxMeasure2 { f with misfits := ([] : List FloatBox) } =
            ctxMeasure2 f := rfl
          rw [hmm] at hmeas
          omega
    | succ N ihN =>
      intro f h1 h2 h3 h4 hk hN
      by_cases hm : f.misfits = []
      · refine ⟨1, f, ?_, hm⟩
        show FloatContext.consumeMisfitsN bfc (0 + 1) f = Except.ok f
        rw [FloatContext.consumeMisfitsN, if_pos hm]
      · obtain ⟨g1, hfold, K1, K2, K3, K4, K5⟩ := pass_go bfc f.misfits
          { f with misfits := [] } h1 h2 h3 h4 rfl
        have hcp : f.consumePass bfc = Except.ok g1 := hfold
        rcases K5 with ⟨hbs, _⟩ | hlt | ⟨heq, hmeas⟩
        · exact absurd hbs hm
        · obtain ⟨n, g, hn, hge⟩ := ihk (ctxMeasure2 g1) g1 K1 K2 K3 K4 (by omega) le_rfl
          refine ⟨n + 1, g, ?_, hge⟩
          rw [FloatContext.consumeMisfitsN, if_neg hm, hcp]
          exact hn
        · have hmm : ctxMeasure2 { f with misfits := ([] : List FloatBox) } =
            ctxMeasure2 f := rfl
          rw [hmm] at hmeas
          obtain ⟨n, g, hn, hge⟩ := ihN g1 K1 K2 K3 K4 (by omega) (by omega)
          refine ⟨n + 1, g, ?_, hge⟩
          rw [FloatContext.consumeMisfitsN, if_neg hm, hcp]
          exact hn

/-- C4: consumeMisfits terminates on every reachable float-context state
(both sides satisfy the track invariant, the sides share their first
boundary, and every queued float has a style other than none and — unless
left — a containing block): each retried placement against an empty line
(lineWidth 0, lineIsEmpty true) either places the float or queues exactly
it after strictly advancing the placing side's shelf past a track
boundary, so some number of passes drains the queue, which is empty when
consumeMisfits returns. -/
theorem C4_consumeMisfits_terminates (bfc : BfcView) (f : FloatContext)
    (h1 : SideInv f.leftFloats) (h2 : SideInv f.rightFloats)
    (h3 : f.leftFloats.blockOffsets.getD 0 0 = f.rightFloats.blockOffsets.getD 0 0)
    (h4 : ∀ box ∈ f.misfits, box.floatStyle ≠ FloatValue.none ∧
      (box.floatStyle = FloatValue.left ∨ box.hasContainingBlock = true)) :
    (∀ box, box.floatStyle ≠ FloatValue.none →
      (box.floatStyle = FloatValue.left ∨ box.hasContainingBlock = true) →
      f.misfits = [] →
      ∃ g, f.placeFloat bfc 0 true box = Except.ok g ∧
        (g.misfits = [] ∨ (g.misfits = [box] ∧ ctxMeasure2 g < ctxMeasure2 f))) ∧
    (∃ n g, FloatContext.consumeMisfitsN bfc n f = Except.ok g ∧ g.misfits = []) := by
  constructor
  · intro box hwf1 hwf2 hmf
    obtain ⟨g, hg, _, _, _, hcase⟩ := consumeStep f bfc box h1 h2 h3 hwf1 hwf2 hmf
    refine ⟨g, hg, ?_⟩
    rcases hcase with hemp | ⟨hone, _, _, hmeas⟩
    · exact Or.inl hemp
    · exact Or.inr ⟨hone, hmeas⟩
  · exact consume_term_aux bfc f.misfits.length (ctxMeasure2 f) f h1 h2 h3 h4
      le_rfl le_rfl

theorem C4_witness :
    (∀ box, box.floatStyle ≠ FloatValue.none →
      (box.floatStyle = FloatValue.left ∨ box.hasContainingBlock = true) →
      (FloatContext.init 0).misfits = [] →
      ∃ g, (FloatContext.init 0).placeFloat
          { cbBlockStart := 0, cbLineLeft := 0, cbLineRight := 0, inlineSize := 100 }
          0 true box = Except.ok g ∧
        (g.misfits = [] ∨ (g.misfits = [box] ∧
          ctxMeasure2 g < ctxMeasure2 (FloatContext.init 0)))) ∧
    (∃ n g, FloatContext.consumeMisfitsN
        { cbBlockStart := 0, cbLineLeft := 0, cbLineRight := 0, inlineSize := 100 }
        n (FloatContext.init 0) = Except.ok g ∧ g.misfits = []) :=
  C4_consumeMisfits_terminates
    { cbBlockStart := 0, cbLineLeft := 0, cbLineRight := 0, inlineSize := 100 }
    (FloatContext.init 0) (sideInv_init 0) (sideInv_init 0) rfl
    (fun box hb => absurd hb (List.not_mem_nil box))
